import Mathlib

/-!
# SLOG ordering and scheduling core: a shallow embedding

The embedded code is `LocalLog` and `Interleaver` of `src/module/interleaver.cpp`,
`Scheduler` of `src/module/scheduler.cpp`, `Worker::ProcessTransaction` of
`src/module/scheduler_components/worker.cpp` and `CSVWriter` of
`src/common/csv_writer.cpp`.  A module is a record of its members; a member
function is a function from the record to the record it leaves.

* Identifiers (`SlotId`, `BatchId`, `TxnId`, queue ids, positions, replica and
  partition numbers) are unsigned machine integers in the source.  They are
  natural numbers here; no property below depends on a counter wrapping around,
  and the one subtraction that can wrap (`InvolvedPartitions().size() - 1`) is
  taken modulo `2^64` explicitly.
* `std::unordered_map<K, V>` is read through its lookups, as a function
  `K → Option V`; `m[k]` (which creates a default entry when `k` is absent),
  `count`, `erase` and assignment are the operations of `UMap`.
* `Send` appends to the `outbox` of the module, so that the messages sent and
  their order can be stated.
* A failed `CHECK` and the dereference of a null transaction terminate the
  process: the scheduler functions that can do so return `Except Fatal`, the
  error carrying the messages sent before the termination.
* A `while` loop is a function with a bound on its iterations, and the bound
  is shown to be enough where a property depends on the loop having finished.
* Classes whose code is not among the sources (`AsyncLog`, `BatchLog`, the
  configuration, `RecordTxnEvent`, the storage engine) follow the description in
  `spec.md`, each under a comment that says so; the lock manager, what
  `TransactionHolder::SetTransaction` computes (`Env`) and the stored procedure
  (`WorkerEnv`) are parameters.
* A `std::runtime_error` thrown by a member function is an `Except` error; that
  of `CSVWriter` carries the members as the throw leaves them.
-/

namespace SLOG

abbrev SlotId := Nat
abbrev BatchId := Nat
abbrev TxnId := Nat

/-! ## Maps -/

/-- The lookups of a `std::unordered_map<K, V>`. -/
abbrev UMap (K V : Type) := K → Option V

namespace UMap

variable {K V : Type} [DecidableEq K]

/-- The map with no entry. -/
def empty : UMap K V := fun _ => none

/-- The member function `count(k) > 0`. -/
def contains (m : UMap K V) (k : K) : Bool := (m k).isSome

/-- Assignment through a reference to the entry of `k`. -/
def set (m : UMap K V) (k : K) (v : V) : UMap K V :=
  fun k' => if k' = k then some v else m k'

/-- The member function `erase(k)`. -/
def erase (m : UMap K V) (k : K) : UMap K V :=
  fun k' => if k' = k then none else m k'

/-- The value `m[k]` refers to: the entry of `k`, or a default-constructed one. -/
def getD (m : UMap K V) (k : K) (dflt : V) : V := (m k).getD dflt

/-- The map after `m[k]` was evaluated: an absent `k` gets a default entry. -/
def touch (m : UMap K V) (k : K) (dflt : V) : UMap K V :=
  match m k with
  | some _ => m
  | none => set m k dflt

end UMap

/-! ## AsyncLog -/

/-- Modelled from the spec: the buffered ordered joiner behind `slots_` and every
batch queue (the class template `AsyncLog`, whose header is not among the
sources).  Section 4.1: "an insertion-buffered map from SlotId → queue_id that
yields entries in slot-id order only when the slot-id prefix is contiguous (no
gaps)"; section 8: "the buffered map treats duplicate keys as no-op".  `log` is
the buffer and `next` the position to be yielded next, 0 at the start. -/
structure AsyncLog (α : Type) where
  log : List (Nat × α)
  next : Nat
deriving Repr, DecidableEq

namespace AsyncLog

variable {α : Type}

/-- Modelled from the spec: a fresh `AsyncLog`, nothing buffered, yielding from
position 0. -/
def empty : AsyncLog α := ⟨[], 0⟩

/-- Modelled from the spec: `AsyncLog::Insert`, buffering `item` at `position`;
a position that is already buffered is left as it is. -/
def Insert (l : AsyncLog α) (position : Nat) (item : α) : AsyncLog α :=
  match l.log.lookup position with
  | some _ => l
  | none => { l with log := (position, item) :: l.log }

/-- Modelled from the spec: `AsyncLog::HasNext`, whether the entry at the next
position has been supplied. -/
def HasNext (l : AsyncLog α) : Bool := (l.log.lookup l.next).isSome

/-- Modelled from the spec: `AsyncLog::Peek`, the item at the next position. -/
def Peek (l : AsyncLog α) : Option α := l.log.lookup l.next

/-- Modelled from the spec: `AsyncLog::Next`, which consumes the entry at the
next position and returns it with its position; `none` when there is none. -/
def Next (l : AsyncLog α) : Option ((Nat × α) × AsyncLog α) :=
  match l.log.lookup l.next with
  | none => none
  | some item =>
    some ((l.next, item),
      { log := l.log.filter (fun e => e.1 != l.next), next := l.next + 1 })

end AsyncLog

/-! ## LocalLog (`src/module/interleaver.cpp`, lines 20-58) -/

/-- The members of `LocalLog`: the slot stream, the batch queues by queue id
and the queue of ready `(slot, batch)` pairs, oldest first. -/
structure LocalLog where
  slots_ : AsyncLog Nat
  batch_queues_ : UMap Nat (AsyncLog BatchId)
  ready_batches_ : List (SlotId × BatchId)

namespace LocalLog

/-- A freshly constructed `LocalLog`. -/
def empty : LocalLog := ⟨AsyncLog.empty, UMap.empty, []⟩

/-- The loop of `LocalLog::UpdateReadyBatches`, at most `fuel` iterations. -/
def UpdateReadyBatchesLoop : Nat → LocalLog → LocalLog
  | 0, l => l
  | fuel + 1, l =>
    if l.slots_.HasNext then
      match l.slots_.Peek with
      | none => l
      | some next_queue_id =>
        match l.batch_queues_ next_queue_id with
        | none => l
        | some next_queue =>
          if !next_queue.HasNext then l
          else
            match l.slots_.Next, next_queue.Next with
            | some (s, slots), some (b, queue) =>
              UpdateReadyBatchesLoop fuel
                { slots_ := slots
                  batch_queues_ := l.batch_queues_.set next_queue_id queue
                  ready_batches_ := l.ready_batches_ ++ [(s.1, b.2)] }
            | _, _ => l
    else l

/-- `LocalLog::UpdateReadyBatches`.  Every iteration consumes a buffered slot,
so the number of buffered slots bounds the iterations. -/
def UpdateReadyBatches (l : LocalLog) : LocalLog :=
  UpdateReadyBatchesLoop l.slots_.log.length l

/-- `LocalLog::AddBatchId`. -/
def AddBatchId (l : LocalLog) (queue_id position : Nat) (batch_id : BatchId) : LocalLog :=
  UpdateReadyBatches
    { l with
      batch_queues_ :=
        l.batch_queues_.set queue_id
          ((l.batch_queues_.getD queue_id AsyncLog.empty).Insert position batch_id) }

/-- `LocalLog::AddSlot`. -/
def AddSlot (l : LocalLog) (slot_id : SlotId) (queue_id : Nat) : LocalLog :=
  UpdateReadyBatches { l with slots_ := l.slots_.Insert slot_id queue_id }

/-- `LocalLog::HasNextBatch`. -/
def HasNextBatch (l : LocalLog) : Bool := !l.ready_batches_.isEmpty

/-- `LocalLog::NextBatch`; the error is the `std::runtime_error` it throws. -/
def NextBatch (l : LocalLog) : Except String ((SlotId × BatchId) × LocalLog) :=
  if !l.HasNextBatch then
    .error "NextBatch() was called when there is no batch"
  else
    match l.ready_batches_ with
    | [] => .error "NextBatch() was called when there is no batch"
    | next_batch :: rest => .ok (next_batch, { l with ready_batches_ := rest })

/-- The loop `while (HasNextBatch()) out.push_back(NextBatch())`, at most `fuel`
iterations: the pairs it collects and the log it leaves. -/
def drainLoop : Nat → LocalLog → List (SlotId × BatchId) × LocalLog
  | 0, l => ([], l)
  | fuel + 1, l =>
    if l.HasNextBatch then
      match l.NextBatch with
      | .ok (p, l1) => ((p :: (drainLoop fuel l1).1), (drainLoop fuel l1).2)
      | .error _ => ([], l)
    else ([], l)

/-- Draining `NextBatch()` while `HasNextBatch()` is true.  Every iteration pops
one ready pair, so the length of the ready queue bounds the iterations. -/
def drain (l : LocalLog) : List (SlotId × BatchId) :=
  (drainLoop l.ready_batches_.length l).1

end LocalLog

/-- One call on a `LocalLog`. -/
inductive LogCall where
  | AddSlot (slot_id : SlotId) (queue_id : Nat)
  | AddBatchId (queue_id position : Nat) (batch_id : BatchId)
deriving Repr, DecidableEq

namespace LogCall

/-- Performing one call. -/
def run (l : LocalLog) : LogCall → LocalLog
  | AddSlot slot_id queue_id => l.AddSlot slot_id queue_id
  | AddBatchId queue_id position batch_id => l.AddBatchId queue_id position batch_id

/-- Performing calls in order. -/
def runAll (l : LocalLog) (cs : List LogCall) : LocalLog := cs.foldl run l

/-- The slot-stream entry a call supplies. -/
def slotEntry : LogCall → Option (Nat × Nat)
  | AddSlot slot_id queue_id => some (slot_id, queue_id)
  | AddBatchId _ _ _ => none

/-- The batch-queue entry a call supplies, keyed by `(queue_id, position)`. -/
def batchEntry : LogCall → Option ((Nat × Nat) × BatchId)
  | AddSlot _ _ => none
  | AddBatchId queue_id position batch_id => some ((queue_id, position), batch_id)

/-- The slot ids of the `AddSlot` calls. -/
def slotIds (cs : List LogCall) : List Nat := (cs.filterMap slotEntry).map Prod.fst

/-- The `(queue_id, position)` keys of the `AddBatchId` calls. -/
def batchKeys (cs : List LogCall) : List (Nat × Nat) := (cs.filterMap batchEntry).map Prod.fst

/-- The number of slots smaller than `i` that name queue `q`. -/
def earlierSlotsOf (cs : List LogCall) (q i : Nat) : Nat :=
  ((List.range i).filter (fun k => decide (AddSlot k q ∈ cs))).length

end LogCall

/-! ## Views of a `LocalLog` used by the proofs -/

/-- The number of positions below `n` at which the slot map `S` names queue `q`. -/
def namedBelow (S : Nat → Option Nat) (q n : Nat) : Nat :=
  ((List.range n).filter (fun k => decide (S k = some q))).length

/-- The batch that slot `i` is joined with under the maps `S` and `B`. -/
def joined (S : Nat → Option Nat) (B : Nat → Nat → Option BatchId) (i : Nat) : BatchId :=
  match S i with
  | some q => (B q (namedBelow S q i)).getD 0
  | none => 0

/-- Slot `i` can be joined: its queue is named and that queue has the batch it owes. -/
def Joinable (S : Nat → Option Nat) (B : Nat → Nat → Option BatchId) (i : Nat) : Prop :=
  ∃ q b, S i = some q ∧ B q (namedBelow S q i) = some b

/-- What relates a `LocalLog` to the slot entries `S` and batch entries `B`
supplied so far. -/
structure LocalLog.Inv (S : Nat → Option Nat) (B : Nat → Nat → Option BatchId)
    (l : LocalLog) : Prop where
  slots : ∀ k, l.slots_.next ≤ k → l.slots_.log.lookup k = S k
  absent : ∀ q, l.batch_queues_ q = none → ∀ p, B q p = none
  queues : ∀ q queue, l.batch_queues_ q = some queue →
    queue.next = namedBelow S q l.slots_.next ∧
      ∀ p, queue.next ≤ p → queue.log.lookup p = B q p
  emitted : ∀ i, i < l.slots_.next → Joinable S B i
  ready : l.ready_batches_ = (List.range l.slots_.next).map (fun i => (i, joined S B i))

/-- Neither side can advance: the next slot is missing, or its queue is, or
that queue lacks its next batch. -/
def LocalLog.Stalled (l : LocalLog) : Prop :=
  ∀ q queue, l.slots_.Peek = some q → l.batch_queues_ q = some queue → queue.HasNext = false

/-- The slot entries supplied by a list of calls, the first one winning. -/
def slotsOf (cs : List LogCall) : Nat → Option Nat :=
  fun k => (cs.filterMap LogCall.slotEntry).lookup k

/-- The batch entries supplied by a list of calls, the first one winning. -/
def batchesOf (cs : List LogCall) : Nat → Nat → Option BatchId :=
  fun q p => (cs.filterMap LogCall.batchEntry).lookup (q, p)

/-! ## Transactions, batches and messages

The protobuf records, with the fields the embedded code reads or writes. -/

abbrev Key := String
abbrev Value := String

inductive TransactionType where
  | SINGLE_HOME
  | MULTI_HOME
  | LOCK_ONLY
  | UNKNOWN
deriving Repr, DecidableEq

inductive TransactionStatus where
  | NOT_STARTED
  | COMMITTED
  | ABORTED
deriving Repr, DecidableEq

inductive TransactionEvent where
  | ENTER_INTERLEAVER_IN_BATCH
  | EXIT_INTERLEAVER
  | ENTER_SCHEDULER
  | ACCEPTED
  | DISPATCHED
  | RELEASE_LOCKS
  | EXIT_SCHEDULER
deriving Repr, DecidableEq

/-- A machine as a (replica, partition) pair. -/
structure MachineId where
  replica : Nat
  partition : Nat
deriving Repr, DecidableEq

structure MasterMetadata where
  master : Nat
  counter : Nat
deriving Repr, DecidableEq

/-- The `procedure` oneof of a transaction: code, or a remaster directive. -/
inductive Procedure where
  | code (text : String)
  | remaster (new_master : Nat)
deriving Repr, DecidableEq

structure TransactionInternal where
  id : TxnId
  type : TransactionType
  coordinating_server : MachineId
  master_metadata : List (Key × MasterMetadata)
  events : List TransactionEvent
  event_times : List Nat
  event_machines : List Nat
deriving Repr, DecidableEq

structure Transaction where
  internal : TransactionInternal
  read_set : List (Key × Value)
  write_set : List (Key × Value)
  delete_set : List Key
  procedure : Procedure
  status : TransactionStatus
deriving Repr, DecidableEq

structure Batch where
  id : BatchId
  transaction_type : TransactionType
  transactions : List Transaction
  events : List TransactionEvent
  event_times : List Nat
  event_machines : List Nat
deriving Repr, DecidableEq

structure RemoteReadResult where
  txn_id : TxnId
  partition : Nat
  will_abort : Bool
  reads : List (Key × Value)
deriving Repr, DecidableEq

/-- The requests of `internal.proto` that the interleaver and the scheduler
receive or send.  A `worker` request carries the address of a holder of
`all_txns_`, which is the key of that entry here. -/
inductive Request where
  | local_queue_order (slot : SlotId) (queue_id : Nat)
  | forward_batch_data (batch : Batch) (same_origin_position : Nat)
  | forward_batch_order (batch_id : BatchId) (slot : SlotId)
  | forward_batch_unset
  | forward_txn (txn : Transaction)
  | remote_read_result (r : RemoteReadResult)
  | worker (txn_holder_ptr : TxnId)
  | completed_subtxn (txn : Transaction) (partition : Nat) (involved_partitions : List Nat)
deriving Repr, DecidableEq

/-- Modelled from the spec: the channel ids, which `constants.h` of this revision
does not declare.  Section 5: "typed channels identified by Channel ids (Server,
Forwarder, Sequencer, Interleaver, Scheduler, Worker[i])"; `worker i` is
`kWorkerChannelOffset + i`. -/
inductive Channel where
  | server
  | forwarder
  | sequencer
  | interleaver
  | scheduler
  | worker (i : Nat)
deriving Repr, DecidableEq

/-- One call of `NetworkedModule::Send`: the message, the channel, and the machine
(`none` for the two-argument overload, which names no machine). -/
structure Sent where
  message : Request
  to_channel : Channel
  to_machine_id : Option Nat
deriving Repr, DecidableEq

/-! ## Configuration -/

/-- The shared configuration.  `counterless` stands for the build flag
`REMASTER_PROTOCOL_COUNTERLESS`; `now` is the clock reading stamped on recorded
events. -/
structure Configuration where
  num_replicas : Nat
  num_partitions : Nat
  local_replica : Nat
  local_partition : Nat
  num_workers : Nat
  counterless : Bool
  now : Nat
deriving Repr, DecidableEq

namespace Configuration

/-- Modelled from the spec: `Configuration::MakeMachineIdNum`, section 6: "a
packed u32 combining region and partition via num_partitions * region +
partition". -/
def MakeMachineIdNum (cfg : Configuration) (replica partition : Nat) : Nat :=
  cfg.num_partitions * replica + partition

/-- Modelled from the spec: `Configuration::UnpackMachineId`, the inverse of
`MakeMachineIdNum`. -/
def UnpackMachineId (cfg : Configuration) (machine_id : Nat) : Nat × Nat :=
  (machine_id / cfg.num_partitions, machine_id % cfg.num_partitions)

/-- The packed id of this machine. -/
def local_machine_id (cfg : Configuration) : Nat :=
  cfg.MakeMachineIdNum cfg.local_replica cfg.local_partition

end Configuration

/-- Modelled from the spec: `RecordTxnEvent` on a transaction (`proto_utils`, not
among the sources), which appends to the event trace fields: the event, the
time and the machine. -/
def RecordTxnEvent (cfg : Configuration) (txn_internal : TransactionInternal)
    (event : TransactionEvent) : TransactionInternal :=
  { txn_internal with
    events := txn_internal.events ++ [event]
    event_times := txn_internal.event_times ++ [cfg.now]
    event_machines := txn_internal.event_machines ++ [cfg.local_machine_id] }

/-- Modelled from the spec: `RecordTxnEvent` on a batch. -/
def RecordBatchEvent (cfg : Configuration) (batch : Batch) (event : TransactionEvent) : Batch :=
  { batch with
    events := batch.events ++ [event]
    event_times := batch.event_times ++ [cfg.now]
    event_machines := batch.event_machines ++ [cfg.local_machine_id] }

/-- A transaction with `event` recorded on it. -/
def Transaction.record (cfg : Configuration) (txn : Transaction) (event : TransactionEvent) :
    Transaction :=
  { txn with internal := RecordTxnEvent cfg txn.internal event }

/-- A transaction without its event trace: what stays fixed while it is relayed. -/
def Transaction.payload (txn : Transaction) : Transaction :=
  { txn with internal := { txn.internal with events := [], event_times := [], event_machines := [] } }

/-! ## BatchLog -/

/-- Modelled from the spec: `SingleHomeLog` and `MultiHomeLog` (class `BatchLog`,
not among the sources).  Section 4.2: "a per-origin (slot_id → batch) join:
AddBatch(batch) stores a batch by its id; AddSlot(slot_id, batch_id) records
ordering. Batches are emitted in slot order once the batch body is present." -/
structure BatchLog where
  slots_ : AsyncLog BatchId
  batches_ : UMap BatchId Batch

namespace BatchLog

/-- Modelled from the spec: a fresh `BatchLog`. -/
def empty : BatchLog := ⟨AsyncLog.empty, UMap.empty⟩

/-- Modelled from the spec: `BatchLog::AddBatch`, storing a batch by its id. -/
def AddBatch (l : BatchLog) (batch : Batch) : BatchLog :=
  { l with batches_ := l.batches_.set batch.id batch }

/-- Modelled from the spec: `BatchLog::AddSlot`, recording that `slot_id` holds
`batch_id`. -/
def AddSlot (l : BatchLog) (slot_id : SlotId) (batch_id : BatchId) : BatchLog :=
  { l with slots_ := l.slots_.Insert slot_id batch_id }

/-- Modelled from the spec: `BatchLog::HasNextBatch`, the next slot is known and
its batch is present. -/
def HasNextBatch (l : BatchLog) : Bool :=
  match l.slots_.Peek with
  | none => false
  | some batch_id => (l.batches_ batch_id).isSome

/-- Modelled from the spec: `BatchLog::NextBatch`, the next slot with its batch,
both consumed. -/
def NextBatch (l : BatchLog) : Except String ((SlotId × Batch) × BatchLog) :=
  match l.slots_.Next with
  | none => .error "NextBatch() was called when there is no batch"
  | some ((slot_id, batch_id), slots) =>
    match l.batches_ batch_id with
    | none => .error "NextBatch() was called when there is no batch"
    | some batch => .ok ((slot_id, batch), { slots_ := slots, batches_ := l.batches_.erase batch_id })

end BatchLog

/-! ## Interleaver (`src/module/interleaver.cpp`, lines 60-214) -/

/-- The members of `Interleaver`, and `outbox`, the calls of `Send` so far.
`single_home_logs_` lists its entries in the order the loop of `AdvanceLogs`
visits them. -/
structure Interleaver where
  local_log_ : LocalLog
  single_home_logs_ : List (Nat × BatchLog)
  multi_home_log_ : BatchLog
  outbox : List Sent

namespace Interleaver

/-- A freshly constructed interleaver. -/
def init : Interleaver := ⟨LocalLog.empty, [], BatchLog.empty, []⟩

/-- `Send(request, channel, machine)` and `Send(request, channel)`. -/
def Send (st : Interleaver) (request : Request) (to_channel : Channel)
    (to_machine_id : Option Nat) : Interleaver :=
  { st with outbox := st.outbox ++ [⟨request, to_channel, to_machine_id⟩] }

/-- The effect of `f` on `single_home_logs_[replica]`; an absent entry is created. -/
def onSingleHomeLog (logs : List (Nat × BatchLog)) (replica : Nat) (f : BatchLog → BatchLog) :
    List (Nat × BatchLog) :=
  match logs.lookup replica with
  | some _ => logs.map (fun e => if e.1 = replica then (e.1, f e.2) else e)
  | none => logs ++ [(replica, f BatchLog.empty)]

/-- What the first loop of `EmitBatch` does to one transaction: the events
recorded on the batch are merged into it. -/
def mergeBatchEvents (batch : Batch) (txn : Transaction) : Transaction :=
  { txn with
    internal :=
      { txn.internal with
        events := txn.internal.events ++ batch.events
        event_times := txn.internal.event_times ++ batch.event_times
        event_machines := txn.internal.event_machines ++ batch.event_machines } }

/-- The first loop of `EmitBatch`, at most `fuel` iterations: `ReleaseLast` takes
the last transaction off `transactions` and it is pushed on `buffer`, whose top
is the head of the list. -/
def releaseLoop (batch : Batch) :
    Nat → List Transaction → List Transaction → List Transaction × List Transaction
  | 0, transactions, buffer => (transactions, buffer)
  | fuel + 1, transactions, buffer =>
    match transactions.getLast? with
    | none => (transactions, buffer)
    | some txn => releaseLoop batch fuel transactions.dropLast (mergeBatchEvents batch txn :: buffer)

/-- The second loop of `EmitBatch`: the top of the stack is sent and popped until
the stack is empty. -/
def sendLoop (cfg : Configuration) : List Transaction → Interleaver → Interleaver
  | [], st => st
  | txn :: buffer, st =>
    sendLoop cfg buffer
      (st.Send (.forward_txn (txn.record cfg .EXIT_INTERLEAVER)) .scheduler none)

/-- `Interleaver::EmitBatch`: the interleaver after the sends, and the batch as
the first loop leaves it. -/
def EmitBatch (cfg : Configuration) (st : Interleaver) (batch : Batch) : Interleaver × Batch :=
  let r := releaseLoop batch batch.transactions.length batch.transactions []
  (sendLoop cfg r.2 st, { batch with transactions := r.1 })

/-- The `for` loop of `AdvanceLogs` over the replicas `rep`, ..., `rep + n - 1`. -/
def replicateLoop (cfg : Configuration) (request : Request) :
    Nat → Nat → Interleaver → Interleaver
  | 0, _, st => st
  | n + 1, rep, st =>
    replicateLoop cfg request n (rep + 1)
      (if rep ≠ cfg.local_replica then
        st.Send request .interleaver (some (cfg.MakeMachineIdNum rep cfg.local_partition))
      else st)

/-- The body of the first loop of `AdvanceLogs` for one drained pair. -/
def replicateOrder (cfg : Configuration) (st : Interleaver) (next_batch : SlotId × BatchId) :
    Interleaver :=
  let slot_id := next_batch.1
  let batch_id := next_batch.2
  let st := replicateLoop cfg (.forward_batch_order batch_id slot_id) cfg.num_replicas 0 st
  { st with
    single_home_logs_ :=
      onSingleHomeLog st.single_home_logs_ cfg.local_replica (fun l => l.AddSlot slot_id batch_id) }

/-- The first loop of `AdvanceLogs`, at most `fuel` iterations. -/
def advanceLocalLog (cfg : Configuration) : Nat → Interleaver → Interleaver
  | 0, st => st
  | fuel + 1, st =>
    if st.local_log_.HasNextBatch then
      match st.local_log_.NextBatch with
      | .ok (next_batch, log) =>
        advanceLocalLog cfg fuel (replicateOrder cfg { st with local_log_ := log } next_batch)
      | .error _ => st
    else st

/-- The loop `while (log.HasNextBatch()) EmitBatch(log.NextBatch().second)`, at most
`fuel` iterations. -/
def emitLoop (cfg : Configuration) : Nat → BatchLog → Interleaver → BatchLog × Interleaver
  | 0, log, st => (log, st)
  | fuel + 1, log, st =>
    if log.HasNextBatch then
      match log.NextBatch with
      | .ok (next_batch, log1) => emitLoop cfg fuel log1 (EmitBatch cfg st next_batch.2).1
      | .error _ => (log, st)
    else (log, st)

/-- The second loop of `AdvanceLogs`, over the single-home logs still to visit;
`done` are the logs already visited. -/
def advanceSingleHomeLogs (cfg : Configuration) :
    List (Nat × BatchLog) → List (Nat × BatchLog) → Interleaver → Interleaver
  | [], done, st => { st with single_home_logs_ := done }
  | (replica, log) :: rest, done, st =>
    let r := emitLoop cfg log.slots_.log.length log st
    advanceSingleHomeLogs cfg rest (done ++ [(replica, r.1)]) r.2

/-- `Interleaver::AdvanceLogs`.  Each loop consumes one buffered entry per
iteration, which bounds its iterations. -/
def AdvanceLogs (cfg : Configuration) (st : Interleaver) : Interleaver :=
  let st := advanceLocalLog cfg st.local_log_.ready_batches_.length st
  let st := advanceSingleHomeLogs cfg st.single_home_logs_ [] st
  let r := emitLoop cfg st.multi_home_log_.slots_.log.length st.multi_home_log_ st
  { r.2 with multi_home_log_ := r.1 }

/-- `Interleaver::HandleInternalRequest` for a request from machine `src`. -/
def HandleInternalRequest (cfg : Configuration) (st : Interleaver) (req : Request) (src : Nat) :
    Interleaver :=
  let from_replica := (cfg.UnpackMachineId src).1
  let from_partition := (cfg.UnpackMachineId src).2
  match req with
  | .local_queue_order slot queue_id =>
    AdvanceLogs cfg { st with local_log_ := st.local_log_.AddSlot slot queue_id }
  | .forward_batch_data batch0 same_origin_position =>
    let batch := RecordBatchEvent cfg batch0 .ENTER_INTERLEAVER_IN_BATCH
    match batch.transaction_type with
    | .SINGLE_HOME =>
      let st :=
        if from_replica = cfg.local_replica then
          { st with
            local_log_ := st.local_log_.AddBatchId from_partition same_origin_position batch.id }
        else st
      AdvanceLogs cfg
        { st with
          single_home_logs_ :=
            onSingleHomeLog st.single_home_logs_ from_replica (fun l => l.AddBatch batch) }
    | .MULTI_HOME =>
      AdvanceLogs cfg
        { st with
          multi_home_log_ := (st.multi_home_log_.AddSlot batch.id batch.id).AddBatch batch }
    | _ => AdvanceLogs cfg st
  | .forward_batch_order batch_id slot =>
    AdvanceLogs cfg
      { st with
        single_home_logs_ :=
          onSingleHomeLog st.single_home_logs_ from_replica (fun l => l.AddSlot slot batch_id) }
  | .forward_batch_unset => AdvanceLogs cfg st
  | _ => AdvanceLogs cfg st

end Interleaver

/-! ## Scheduler (`src/module/scheduler.cpp`)

The embedding is of the build in which neither `REMASTER_PROTOCOL_SIMPLE` nor
`REMASTER_PROTOCOL_PER_KEY` is defined (the `#else` branches, without a remaster
manager).  `ProcessStatsRequest`, which only reads the state to build a JSON
document, is left out. -/

/-- `SelectWorkerForTxn`, `txn_id % num_workers`.  With `num_workers = 0` the source
divides by zero, which terminates the process: there is no worker then. -/
def SelectWorkerForTxn (txn_id : TxnId) (num_workers : Nat) : Option Nat :=
  if num_workers = 0 then none else some (txn_id % num_workers)

/-- What `TransactionHolder::SetTransaction` computes from a transaction. -/
structure HolderSets where
  keys_in_partition : List Key
  involved_partitions : List Nat
  active_partitions : List Nat
  involved_replicas : List Nat
deriving Repr, DecidableEq

/-- The members of `TransactionHolder`.  The sets are lists in the order a loop
visits them; `size()` is the length. -/
structure TransactionHolder where
  txn_ : Option Transaction
  worker_ : Option Nat
  early_remote_reads_ : List RemoteReadResult
  keys_in_partition_ : List Key
  involved_partitions_ : List Nat
  active_partitions_ : List Nat
  involved_replicas_ : List Nat
deriving Repr, DecidableEq

namespace TransactionHolder

/-- A default-constructed holder: no transaction, no worker, nothing buffered. -/
def empty : TransactionHolder := ⟨none, none, [], [], [], [], []⟩

/-- `TransactionHolder::SetTransaction`, given the sets it computes. -/
def SetTransaction (h : TransactionHolder) (sets : HolderSets) (txn : Transaction) :
    TransactionHolder :=
  { h with
    txn_ := some txn
    keys_in_partition_ := sets.keys_in_partition
    involved_partitions_ := sets.involved_partitions
    active_partitions_ := sets.active_partitions
    involved_replicas_ := sets.involved_replicas }

end TransactionHolder

inductive AcquireLocksResult where
  | ACQUIRED
  | WAITING
  | ABORT
deriving Repr, DecidableEq

/-- The lock manager, whose code is not among the sources, as the three
operations the scheduler calls on a lock table of type `LM`. -/
structure LockManager (LM : Type) where
  AcceptTransaction : LM → TransactionHolder → LM × Bool
  AcquireLocks : LM → TransactionHolder → LM × AcquireLocksResult
  ReleaseLocks : LM → TransactionHolder → LM × List TxnId

/-- What the scheduler is given: the configuration, the lock manager, the sets
`SetTransaction` computes for a transaction, and the replica that
`GetTransactionIdReplicaIdPair` pairs a lock-only transaction with. -/
structure Env (LM : Type) where
  config : Configuration
  lock_manager : LockManager LM
  holderSets : Transaction → HolderSets
  lockOnlyReplica : Transaction → Nat

/-- The members of `Scheduler`, and `outbox`, the calls of `Send` so far. -/
structure Scheduler (LM : Type) where
  all_txns_ : UMap TxnId TransactionHolder
  lock_only_txns_ : UMap (TxnId × Nat) TransactionHolder
  aborting_txns_ : TxnId → Bool
  mh_abort_waiting_on_ : UMap TxnId Int
  lock_manager_ : LM
  outbox : List Sent

/-- Where a `TransactionHolder*` of the scheduler points: into `all_txns_` or into
`lock_only_txns_`. -/
inductive HolderRef where
  | main (txn_id : TxnId)
  | lock_only (txn_replica_id : TxnId × Nat)
deriving Repr, DecidableEq

/-- A fatal termination: a failed `CHECK` or a null dereference, with its
diagnostic and the messages sent before it. -/
structure Fatal where
  diagnostic : String
  sent : List Sent
deriving Repr, DecidableEq

namespace Scheduler

variable {LM : Type}

/-- A freshly constructed scheduler over the lock table `lm`. -/
def init (lm : LM) : Scheduler LM :=
  ⟨UMap.empty, UMap.empty, fun _ => false, UMap.empty, lm, []⟩

/-- Terminating with `diagnostic`. -/
def fatal {α : Type} (s : Scheduler LM) (diagnostic : String) : Except Fatal α :=
  .error ⟨diagnostic, s.outbox⟩

/-- `Send(request, channel, machine)` and `Send(request, channel)`. -/
def Send (s : Scheduler LM) (request : Request) (to_channel : Channel)
    (to_machine_id : Option Nat) : Scheduler LM :=
  { s with outbox := s.outbox ++ [⟨request, to_channel, to_machine_id⟩] }

/-- The state after `all_txns_[txn_id]` was evaluated. -/
def touchHolder (s : Scheduler LM) (txn_id : TxnId) : Scheduler LM :=
  { s with all_txns_ := s.all_txns_.touch txn_id TransactionHolder.empty }

/-- The holder `all_txns_[txn_id]` refers to. -/
def holder (s : Scheduler LM) (txn_id : TxnId) : TransactionHolder :=
  s.all_txns_.getD txn_id TransactionHolder.empty

/-- Writing through the reference `all_txns_[txn_id]`. -/
def setHolder (s : Scheduler LM) (txn_id : TxnId) (h : TransactionHolder) : Scheduler LM :=
  { s with all_txns_ := s.all_txns_.set txn_id h }

/-- The holder a `TransactionHolder*` points to. -/
def deref (s : Scheduler LM) : HolderRef → TransactionHolder
  | .main txn_id => s.all_txns_.getD txn_id TransactionHolder.empty
  | .lock_only txn_replica_id => s.lock_only_txns_.getD txn_replica_id TransactionHolder.empty

/-- Writing through a `TransactionHolder*`. -/
def assign (s : Scheduler LM) (ref : HolderRef) (h : TransactionHolder) : Scheduler LM :=
  match ref with
  | .main txn_id => { s with all_txns_ := s.all_txns_.set txn_id h }
  | .lock_only txn_replica_id =>
    { s with lock_only_txns_ := s.lock_only_txns_.set txn_replica_id h }

/-- `Scheduler::SendToCoordinatingServer`. -/
def SendToCoordinatingServer (env : Env LM) (s : Scheduler LM) (txn_id : TxnId) :
    Except Fatal (Scheduler LM) :=
  let s := s.touchHolder txn_id
  let txn_holder := s.holder txn_id
  match txn_holder.txn_ with
  | none => s.fatal "null transaction dereferenced in SendToCoordinatingServer"
  | some txn0 =>
    let txn := txn0.record env.config .EXIT_SCHEDULER
    let req := Request.completed_subtxn txn env.config.local_partition
      txn_holder.involved_partitions_
    let coordinating_server :=
      env.config.MakeMachineIdNum txn.internal.coordinating_server.replica
        txn.internal.coordinating_server.partition
    let s := s.Send req .server (some coordinating_server)
    .ok (s.setHolder txn_id { txn_holder with txn_ := some txn })

/-- The loop of `Scheduler::SendAbortToPartitions` over the active partitions. -/
def sendAbortLoop (env : Env LM) (request : Request) : List Nat → Scheduler LM → Scheduler LM
  | [], s => s
  | p :: rest, s =>
    sendAbortLoop env request rest
      (if p ≠ env.config.local_partition then
        s.Send request .scheduler (some (env.config.MakeMachineIdNum env.config.local_replica p))
      else s)

/-- `Scheduler::SendAbortToPartitions`. -/
def SendAbortToPartitions (env : Env LM) (s : Scheduler LM) (txn_id : TxnId) : Scheduler LM :=
  let s := s.touchHolder txn_id
  let txn_holder := s.holder txn_id
  let request := Request.remote_read_result
    { txn_id := txn_id, partition := env.config.local_partition, will_abort := true, reads := [] }
  sendAbortLoop env request txn_holder.active_partitions_ s

/-- The end of `Scheduler::MaybeFinishAbort`, from "Multi-homes must collect all
lock-onlys" on. -/
def finishAbort (s : Scheduler LM) (txn_id : TxnId) (txn_type : TransactionType) : Scheduler LM :=
  if txn_type = .MULTI_HOME then
    if s.mh_abort_waiting_on_.getD txn_id 0 ≠ 0 then s
    else
      { s with
        mh_abort_waiting_on_ := s.mh_abort_waiting_on_.erase txn_id
        aborting_txns_ := fun t => if t = txn_id then false else s.aborting_txns_ t
        all_txns_ := s.all_txns_.erase txn_id }
  else
    { s with
      aborting_txns_ := fun t => if t = txn_id then false else s.aborting_txns_ t
      all_txns_ := s.all_txns_.erase txn_id }

/-- `Scheduler::MaybeFinishAbort`.  `size() - 1` is a subtraction of unsigned
64-bit numbers; the two nested conditions on the remote reads are one
conjunction here. -/
def MaybeFinishAbort (env : Env LM) (s : Scheduler LM) (txn_id : TxnId) : Scheduler LM :=
  let s := s.touchHolder txn_id
  let txn_holder := s.holder txn_id
  match txn_holder.txn_ with
  | none => s
  | some txn =>
    let num_remote_partitions := (txn_holder.involved_partitions_.length + (2 ^ 64 - 1)) % 2 ^ 64
    let local_partition := env.config.local_partition
    let local_partition_active := decide (local_partition ∈ txn_holder.active_partitions_)
    if num_remote_partitions > 0 && local_partition_active &&
        decide (txn_holder.early_remote_reads_.length < num_remote_partitions) then s
    else finishAbort s txn_id txn.internal.type

/-- The loop of `Scheduler::CollectLockOnlyTransactionsForAbort` over the involved
replicas. -/
def collectLoop (txn_id : TxnId) : List Nat → Scheduler LM → Scheduler LM
  | [], s => s
  | replica :: rest, s =>
    collectLoop txn_id rest
      (if s.lock_only_txns_.contains (txn_id, replica) then
        { s with
          lock_only_txns_ := s.lock_only_txns_.erase (txn_id, replica)
          mh_abort_waiting_on_ :=
            s.mh_abort_waiting_on_.set txn_id (s.mh_abort_waiting_on_.getD txn_id 0 - 1) }
      else s)

/-- `Scheduler::CollectLockOnlyTransactionsForAbort`. -/
def CollectLockOnlyTransactionsForAbort (s : Scheduler LM) (txn_id : TxnId) : Scheduler LM :=
  let s := s.touchHolder txn_id
  let involved_replicas := (s.holder txn_id).involved_replicas_
  let s :=
    { s with
      mh_abort_waiting_on_ :=
        s.mh_abort_waiting_on_.set txn_id
          (s.mh_abort_waiting_on_.getD txn_id 0 + involved_replicas.length) }
  collectLoop txn_id involved_replicas s

/-- The loop of `Scheduler::DispatchTransaction` that erases the lock-only
transactions of a multi-home transaction. -/
def eraseLockOnly (id : TxnId) :
    List Nat → UMap (TxnId × Nat) TransactionHolder → UMap (TxnId × Nat) TransactionHolder
  | [], m => m
  | replica :: rest, m => eraseLockOnly id rest (m.erase (id, replica))

/-- The loop of `Scheduler::DispatchTransaction` that sends the early remote
reads, the last one first. -/
def sendEarlyReads (worker_channel : Channel) : List RemoteReadResult → Scheduler LM → Scheduler LM
  | [], s => s
  | r :: rest, s => sendEarlyReads worker_channel rest (s.Send (.remote_read_result r) worker_channel none)

/-- `Scheduler::DispatchTransaction`.  The division by zero of `SelectWorkerForTxn`
comes after the lock-only transactions were erased and before anything is sent. -/
def DispatchTransaction (env : Env LM) (s : Scheduler LM) (txn_id : TxnId) :
    Except Fatal (Scheduler LM) :=
  if !s.all_txns_.contains txn_id then s.fatal "Txn not in all_txns_"
  else
    let txn_holder := s.holder txn_id
    match txn_holder.txn_ with
    | none => s.fatal "null transaction dereferenced in DispatchTransaction"
    | some txn =>
      let s :=
        if txn.internal.type = .MULTI_HOME then
          { s with
            lock_only_txns_ :=
              eraseLockOnly txn.internal.id txn_holder.involved_replicas_ s.lock_only_txns_ }
        else s
      match SelectWorkerForTxn txn_id env.config.num_workers with
      | none => s.fatal "division by zero in SelectWorkerForTxn"
      | some worker =>
        let txn := (txn.record env.config .DISPATCHED).record env.config .DISPATCHED
        let worker_channel := Channel.worker worker
        let s := s.Send (.worker txn_id) worker_channel none
        let s := sendEarlyReads worker_channel txn_holder.early_remote_reads_.reverse s
        .ok (s.setHolder txn_id
          { txn_holder with txn_ := some txn, worker_ := some worker, early_remote_reads_ := [] })

/-- The loop `for (auto unblocked_txn : unblocked_txns) DispatchTransaction(unblocked_txn)`. -/
def dispatchAll (env : Env LM) : List TxnId → Scheduler LM → Except Fatal (Scheduler LM)
  | [], s => .ok s
  | unblocked_txn :: rest, s =>
    match DispatchTransaction env s unblocked_txn with
    | .ok s1 => dispatchAll env rest s1
    | .error e => .error e

/-- `Scheduler::MaybeContinuePreDispatchAbort`: the state, and the value returned. -/
def MaybeContinuePreDispatchAbort (env : Env LM) (s : Scheduler LM) (txn_id : TxnId) :
    Except Fatal (Scheduler LM × Bool) :=
  if !s.aborting_txns_ txn_id then .ok (s, false)
  else
    let s := s.touchHolder txn_id
    let txn_holder := s.holder txn_id
    match txn_holder.txn_ with
    | none => s.fatal "null transaction dereferenced in MaybeContinuePreDispatchAbort"
    | some txn =>
      let txn_type := txn.internal.type
      let s := s.setHolder txn_id { txn_holder with txn_ := some { txn with status := .ABORTED } }
      match SendToCoordinatingServer env s txn_id with
      | .error e => .error e
      | .ok s =>
        let s :=
          if (s.holder txn_id).involved_partitions_.length > 1 then SendAbortToPartitions env s txn_id
          else s
        let s := s.touchHolder txn_id
        let released := env.lock_manager.ReleaseLocks s.lock_manager_ (s.holder txn_id)
        let s := { s with lock_manager_ := released.1 }
        match dispatchAll env released.2 s with
        | .error e => .error e
        | .ok s =>
          let s :=
            if txn_type = .MULTI_HOME then CollectLockOnlyTransactionsForAbort s txn_id else s
          .ok (MaybeFinishAbort env s txn_id, true)

/-- `Scheduler::MaybeContinuePreDispatchAbortLockOnly`: the state, and the value
returned. -/
def MaybeContinuePreDispatchAbortLockOnly (env : Env LM) (s : Scheduler LM)
    (txn_replica_id : TxnId × Nat) : Scheduler LM × Bool :=
  let txn_id := txn_replica_id.1
  if !s.aborting_txns_ txn_id then (s, false)
  else
    let s :=
      { s with
        lock_only_txns_ := s.lock_only_txns_.erase txn_replica_id
        mh_abort_waiting_on_ :=
          s.mh_abort_waiting_on_.set txn_id (s.mh_abort_waiting_on_.getD txn_id 0 - 1) }
    (MaybeFinishAbort env s txn_id, true)

/-- `Scheduler::TriggerPreDispatchAbort`. -/
def TriggerPreDispatchAbort (env : Env LM) (s : Scheduler LM) (txn_id : TxnId) :
    Except Fatal (Scheduler LM) :=
  if s.aborting_txns_ txn_id then s.fatal "Abort was triggered twice"
  else
    let s := s.touchHolder txn_id
    let txn_holder := s.holder txn_id
    if !txn_holder.worker_.isSome then
      s.fatal "Dispatched transactions are handled by the worker"
    else
      let s := { s with aborting_txns_ := fun t => if t = txn_id then true else s.aborting_txns_ t }
      if txn_holder.txn_.isSome then
        match MaybeContinuePreDispatchAbort env s txn_id with
        | .ok r => .ok r.1
        | .error e => .error e
      else .ok s

/-- `Scheduler::ProcessRemoteReadResult` for a request holding the
`RemoteReadResult` `r`. -/
def ProcessRemoteReadResult (env : Env LM) (s : Scheduler LM) (r : RemoteReadResult) :
    Except Fatal (Scheduler LM) :=
  let txn_id := r.txn_id
  let s := s.touchHolder txn_id
  let txn_holder := s.holder txn_id
  match txn_holder.txn_, txn_holder.worker_ with
  | some _, some worker => .ok (s.Send (.remote_read_result r) (.worker worker) none)
  | _, _ =>
    let remote_abort := r.will_abort
    let s := s.setHolder txn_id
      { txn_holder with early_remote_reads_ := txn_holder.early_remote_reads_ ++ [r] }
    if s.aborting_txns_ txn_id then .ok (MaybeFinishAbort env s txn_id)
    else if remote_abort then TriggerPreDispatchAbort env s txn_id
    else .ok s

/-- `Scheduler::SendToCoordinatingServer` followed by `all_txns_.erase`, the end of
`HandleInternalResponse`. -/
def completeTxn (env : Env LM) (s : Scheduler LM) (txn_id : TxnId) : Except Fatal (Scheduler LM) :=
  match SendToCoordinatingServer env s txn_id with
  | .ok s => .ok { s with all_txns_ := s.all_txns_.erase txn_id }
  | .error e => .error e

/-- `Scheduler::HandleInternalResponse` for the worker's reply about `txn_id`. -/
def HandleInternalResponse (env : Env LM) (s : Scheduler LM) (txn_id : TxnId) :
    Except Fatal (Scheduler LM) :=
  let s := s.touchHolder txn_id
  let released := env.lock_manager.ReleaseLocks s.lock_manager_ (s.holder txn_id)
  let s := { s with lock_manager_ := released.1 }
  match dispatchAll env released.2 s with
  | .error e => .error e
  | .ok s =>
    match (s.holder txn_id).txn_ with
    | none => s.fatal "null transaction dereferenced in HandleInternalResponse"
    | some txn =>
      let s := s.setHolder txn_id
        { s.holder txn_id with txn_ := some (txn.record env.config .RELEASE_LOCKS) }
      completeTxn env s txn_id

/-- `Scheduler::AcceptTransaction`: the state, and the value returned. -/
def AcceptTransaction (env : Env LM) (s : Scheduler LM) (txn : Transaction) :
    Scheduler LM × Bool :=
  match txn.internal.type with
  | .SINGLE_HOME | .MULTI_HOME =>
    let txn_id := txn.internal.id
    let s := s.touchHolder txn_id
    let h := (s.holder txn_id).SetTransaction (env.holderSets txn) txn
    if h.keys_in_partition_.isEmpty then ({ s with all_txns_ := s.all_txns_.erase txn_id }, false)
    else (s.setHolder txn_id h, true)
  | .LOCK_ONLY =>
    let txn_replica_id := (txn.internal.id, env.lockOnlyReplica txn)
    let h :=
      (s.lock_only_txns_.getD txn_replica_id TransactionHolder.empty).SetTransaction
        (env.holderSets txn) txn
    if h.keys_in_partition_.isEmpty then
      ({ s with lock_only_txns_ := s.lock_only_txns_.erase txn_replica_id }, false)
    else ({ s with lock_only_txns_ := s.lock_only_txns_.set txn_replica_id h }, true)
  | .UNKNOWN => (s, true)

/-- `Scheduler::AcquireLocksAndProcessResult` for the holder that `ref` points to. -/
def AcquireLocksAndProcessResult (env : Env LM) (s : Scheduler LM) (ref : HolderRef) :
    Except Fatal (Scheduler LM) :=
  let txn_holder := s.deref ref
  match txn_holder.txn_ with
  | none => s.fatal "null transaction dereferenced in AcquireLocksAndProcessResult"
  | some txn =>
    let txn_id := txn.internal.id
    let acquired := env.lock_manager.AcquireLocks s.lock_manager_ txn_holder
    let s := { s with lock_manager_ := acquired.1 }
    match acquired.2 with
    | .ACQUIRED => DispatchTransaction env s txn_id
    | .ABORT => TriggerPreDispatchAbort env s txn_id
    | .WAITING => .ok s

/-- `Scheduler::SendToLockManager` for the holder that `ref` points to. -/
def SendToLockManager (env : Env LM) (s : Scheduler LM) (ref : HolderRef) :
    Except Fatal (Scheduler LM) :=
  let txn_holder := s.deref ref
  match txn_holder.txn_ with
  | none => s.fatal "null transaction dereferenced in SendToLockManager"
  | some txn =>
    let txn_id := txn.internal.id
    match txn.internal.type with
    | .SINGLE_HOME =>
      let accepted := env.lock_manager.AcceptTransaction s.lock_manager_ txn_holder
      AcquireLocksAndProcessResult env { s with lock_manager_ := accepted.1 } ref
    | .MULTI_HOME =>
      let accepted := env.lock_manager.AcceptTransaction s.lock_manager_ txn_holder
      let s := { s with lock_manager_ := accepted.1 }
      if accepted.2 then
        let s := s.assign ref { txn_holder with txn_ := some (txn.record env.config .ACCEPTED) }
        DispatchTransaction env s txn_id
      else .ok s
    | .LOCK_ONLY => AcquireLocksAndProcessResult env s ref
    | .UNKNOWN => .ok s

/-- `Scheduler::MaybeAbortRemasterTransaction`: the state, and the value returned. -/
def MaybeAbortRemasterTransaction (env : Env LM) (s : Scheduler LM) (txn : Transaction) :
    Except Fatal (Scheduler LM × Bool) :=
  let txn_id := txn.internal.id
  match txn.internal.master_metadata.head? with
  | none => s.fatal "begin() of an empty master_metadata dereferenced"
  | some entry =>
    let past_master := entry.2.master
    let new_master :=
      match txn.procedure with
      | .remaster m => m
      | .code _ => 0
    if new_master = past_master then
      match TriggerPreDispatchAbort env s txn_id with
      | .ok s => .ok (s, true)
      | .error e => .error e
    else .ok (s, false)

/-- `Scheduler::ProcessTransaction`. -/
def ProcessTransaction (env : Env LM) (s : Scheduler LM) (txn0 : Transaction) :
    Except Fatal (Scheduler LM) :=
  let txn := txn0.record env.config .ENTER_SCHEDULER
  let accepted := AcceptTransaction env s txn
  let s := accepted.1
  if !accepted.2 then .ok s
  else
    let txn_id := txn.internal.id
    match txn.internal.type with
    | .SINGLE_HOME =>
      match MaybeContinuePreDispatchAbort env s txn_id with
      | .error e => .error e
      | .ok (s, true) => .ok s
      | .ok (s, false) =>
        SendToLockManager env (s.touchHolder txn_id) (.main txn_id)
    | .LOCK_ONLY =>
      let txn_replica_id := (txn.internal.id, env.lockOnlyReplica txn)
      match MaybeContinuePreDispatchAbortLockOnly env s txn_replica_id with
      | (s, true) => .ok s
      | (s, false) =>
        SendToLockManager env
          { s with
            lock_only_txns_ := s.lock_only_txns_.touch txn_replica_id TransactionHolder.empty }
          (.lock_only txn_replica_id)
    | .MULTI_HOME =>
      let s := s.touchHolder txn_id
      if s.aborting_txns_ txn_id then
        match MaybeContinuePreDispatchAbort env s txn_id with
        | .error e => .error e
        | .ok r => .ok r.1
      else
        let remaster :=
          match txn.procedure with
          | .remaster _ => true
          | .code _ => false
        if env.config.counterless && remaster then
          match MaybeAbortRemasterTransaction env s txn with
          | .error e => .error e
          | .ok (s, true) => .ok s
          | .ok (s, false) => SendToLockManager env s (.main txn_id)
        else SendToLockManager env s (.main txn_id)
    | .UNKNOWN => .ok s

end Scheduler

/-- One step of the scheduler's event loop. -/
inductive SchedulerStep where
  | ProcessTransaction (txn : Transaction)
  | ProcessRemoteReadResult (r : RemoteReadResult)
  | WorkerReply (txn_id : TxnId)
deriving Repr, DecidableEq

namespace Scheduler

variable {LM : Type}

/-- Performing one step. -/
def step (env : Env LM) (s : Scheduler LM) : SchedulerStep → Except Fatal (Scheduler LM)
  | .ProcessTransaction txn => ProcessTransaction env s txn
  | .ProcessRemoteReadResult r => ProcessRemoteReadResult env s r
  | .WorkerReply txn_id => HandleInternalResponse env s txn_id

/-- Performing steps in order, until one terminates the process. -/
def steps (env : Env LM) : List SchedulerStep → Scheduler LM → Except Fatal (Scheduler LM)
  | [], s => .ok s
  | e :: rest, s =>
    match step env s e with
    | .ok s1 => steps env rest s1
    | .error f => .error f

/-- The messages sent by a run: those of the state reached, or those sent before
the fatal termination. -/
def sentBy : Except Fatal (Scheduler LM) → List Sent
  | .ok s => s.outbox
  | .error f => f.sent

end Scheduler

/-! ## What `AdvanceLogs` is expected to send and record -/

namespace Interleaver

/-- The replicas that `AdvanceLogs` replicates a batch order to: every replica
below `num_replicas` except the local one. -/
def otherReplicas (cfg : Configuration) : List Nat :=
  (List.range cfg.num_replicas).filter (fun rep => decide (rep ≠ cfg.local_replica))

/-- The `BatchOrder` messages for one drained pair, in the order they are sent. -/
def batchOrderMessages (cfg : Configuration) (next_batch : SlotId × BatchId) : List Sent :=
  (otherReplicas cfg).map (fun rep =>
    ⟨.forward_batch_order next_batch.2 next_batch.1, .interleaver,
      some (cfg.MakeMachineIdNum rep cfg.local_partition)⟩)

/-- Recording `AddSlot(slot, batch_id)` in the local replica's single-home log for
every pair in turn. -/
def recordSlots (cfg : Configuration) (logs : List (Nat × BatchLog))
    (pairs : List (SlotId × BatchId)) : List (Nat × BatchLog) :=
  pairs.foldl
    (fun acc p => onSingleHomeLog acc cfg.local_replica (fun l => l.AddSlot p.1 p.2)) logs

/-- The messages of an outbox that went to the interleaver channel. -/
def toInterleaver (outbox : List Sent) : List Sent :=
  outbox.filter (fun m => decide (m.to_channel = Channel.interleaver))

end Interleaver

/-! ## A small deployment, used to instantiate the theorems -/

/-- Two replicas of two partitions; this machine is replica 0, partition 0, with
two workers. -/
def sampleConfig : Configuration := ⟨2, 2, 0, 0, 2, false, 0⟩

/-- A lock manager that grants every lock at once and so never unblocks anything. -/
def sampleLockManager : LockManager Unit :=
  ⟨fun _ _ => ((), true), fun _ _ => ((), .ACQUIRED), fun _ _ => ((), [])⟩

/-- Every key lives on partition 0 and is mastered by the replicas 0 and 1. -/
def sampleEnv : Env Unit :=
  ⟨sampleConfig, sampleLockManager,
    fun txn => ⟨txn.write_set.map Prod.fst, [0], [0], [0, 1]⟩,
    fun txn => txn.internal.coordinating_server.replica⟩

/-- A transaction writing one key. -/
def sampleTxn (id : TxnId) (type : TransactionType) (replica : Nat) : Transaction :=
  ⟨⟨id, type, ⟨replica, 0⟩, [], [], [], []⟩, [], [("k", "v")], [], .code "", .NOT_STARTED⟩

/-- A holder of `sampleTxn`, as `AcceptTransaction` leaves it. -/
def sampleHolder (id : TxnId) (type : TransactionType) : TransactionHolder :=
  ⟨some (sampleTxn id type 0), none, [], ["k"], [0], [0], [0, 1]⟩

/-! ## Predicates on the messages sent -/

/-- In the list of sends `o`, every `RemoteReadResult` sent to a worker channel
comes after a dispatch (`Worker` request) for the same transaction sent to the
same worker channel. -/
def DispatchFirst (o : List Sent) : Prop :=
  ∀ (i : Nat) (r : RemoteReadResult) (w : Nat) (mid : Option Nat),
    o[i]? = some (⟨.remote_read_result r, .worker w, mid⟩ : Sent) →
      ∃ j, j < i ∧ o[j]? = some (⟨.worker r.txn_id, .worker w, none⟩ : Sent)

namespace Scheduler

variable {LM : Type}

/-- The state `DispatchTransaction(txn_id)` leaves when the holder `h` of `txn_id`
has the body `txn` and there is a worker. -/
def dispatched (env : Env LM) (s : Scheduler LM) (txn_id : TxnId) (h : TransactionHolder)
    (txn : Transaction) : Scheduler LM :=
  { s with
    lock_only_txns_ :=
      if txn.internal.type = .MULTI_HOME then
        eraseLockOnly txn.internal.id h.involved_replicas_ s.lock_only_txns_
      else s.lock_only_txns_
    outbox :=
      s.outbox ++
        ⟨.worker txn_id, .worker (txn_id % env.config.num_workers), none⟩ ::
          h.early_remote_reads_.reverse.map (fun r =>
            ⟨.remote_read_result r,
              .worker (txn_id % env.config.num_workers), none⟩)
    all_txns_ :=
      s.all_txns_.set txn_id
        { h with
          txn_ := some ((txn.record env.config .DISPATCHED).record env.config .DISPATCHED)
          worker_ := some (txn_id % env.config.num_workers)
          early_remote_reads_ := [] } }

/-- What the proofs of the ordering of sends keep about a state: the sends so
far are ordered, a holder with a worker was dispatched to that worker, and a
holder buffers only reads of its own transaction. -/
structure WorkerInv (s : Scheduler LM) : Prop where
  ordered : DispatchFirst s.outbox
  assigned : ∀ t h w, s.all_txns_ t = some h → h.worker_ = some w →
    (⟨.worker t, .worker w, none⟩ : Sent) ∈ s.outbox
  buffered : ∀ t h r, s.all_txns_ t = some h → r ∈ h.early_remote_reads_ → r.txn_id = t

/-- A change of state that sends nothing to a worker channel, leaves the worker
and the buffered reads of every holder it keeps, and creates only holders with
no worker and no buffered read. -/
structure Quiet (s s' : Scheduler LM) : Prop where
  sent : ∃ extra, s'.outbox = s.outbox ++ extra ∧ ∀ m ∈ extra, ∀ w, m.to_channel ≠ .worker w
  holders : ∀ t h', s'.all_txns_ t = some h' →
    (h'.worker_ = none ∧ h'.early_remote_reads_ = []) ∨
      ∃ h, s.all_txns_ t = some h ∧ h'.worker_ = h.worker_ ∧
        h'.early_remote_reads_ = h.early_remote_reads_

/-- The outcome of a run keeps the sends ordered. -/
def Good : Except Fatal (Scheduler LM) → Prop
  | .ok s => WorkerInv s
  | .error e => DispatchFirst e.sent

/-- `Good` for a function that also returns a value. -/
def GoodWith {α : Type} : Except Fatal (Scheduler LM × α) → Prop
  | .ok r => WorkerInv r.1
  | .error e => DispatchFirst e.sent

end Scheduler

namespace Scheduler

variable {LM : Type}

/-- Every holder is kept, with its body up to the event trace and with its
involved partitions, and no holder is created. -/
structure Kept (s s' : Scheduler LM) : Prop where
  absent : ∀ t, s.all_txns_ t = none → s'.all_txns_ t = none
  present : ∀ t h txn, s.all_txns_ t = some h → h.txn_ = some txn →
    ∃ h' txn', s'.all_txns_ t = some h' ∧ h'.txn_ = some txn' ∧ txn'.payload = txn.payload ∧
      h'.involved_partitions_ = h.involved_partitions_

/-- The state `HandleInternalResponse(txn_id)` leaves after its dispatches led to
`s2`, where the holder of `txn_id` has the body `txn2`. -/
def completed (env : Env LM) (s2 : Scheduler LM) (txn_id : TxnId) (h2 : TransactionHolder)
    (txn2 : Transaction) : Scheduler LM :=
  { s2 with
    outbox :=
      s2.outbox ++
        [⟨.completed_subtxn
            ((txn2.record env.config .RELEASE_LOCKS).record env.config .EXIT_SCHEDULER)
            env.config.local_partition h2.involved_partitions_,
          .server,
          some (env.config.MakeMachineIdNum txn2.internal.coordinating_server.replica
            txn2.internal.coordinating_server.partition)⟩]
    all_txns_ := s2.all_txns_.erase txn_id }

end Scheduler

/-! ## The progress of a multi-home abort -/

namespace Scheduler

variable {LM : Type}

/-- The number of the replicas `rs` for which a lock-only transaction of `t` is
stored. -/
def storedLockOnly (m : UMap (TxnId × Nat) TransactionHolder) (t : TxnId) (rs : List Nat) : Nat :=
  (rs.filter (fun r => (m (t, r)).isSome)).length

/-- What the abort of `t` reads of the state is in `s'` as in `s`. -/
structure SameAbort (t : TxnId) (s s' : Scheduler LM) : Prop where
  holder : s'.all_txns_ t = s.all_txns_ t
  aborting : s'.aborting_txns_ = s.aborting_txns_
  waiting : s'.mh_abort_waiting_on_ = s.mh_abort_waiting_on_
  lock_only : ∀ r, s'.lock_only_txns_ (t, r) = s.lock_only_txns_ (t, r)

/-- The abort of the multi-home transaction `t` before its body has arrived,
after `k` of its lock-only transactions arrived: `t` is aborting, has no body,
`mh_abort_waiting_on[t]` is `-k`, and the lock-only transactions stored for the
replicas `R` and the holders of other transactions are those of the state `s0`
the abort started from. -/
structure AbortPending (s0 : Scheduler LM) (t : TxnId) (R : List Nat) (s : Scheduler LM)
    (k : Nat) : Prop where
  aborting : s.aborting_txns_ t = true
  body : (s.holder t).txn_ = none
  waiting : s.mh_abort_waiting_on_.getD t 0 = -(k : Int)
  lock_only : ∀ r ∈ R, s.lock_only_txns_ (t, r) = s0.lock_only_txns_ (t, r)
  others : ∀ u, u ≠ t → s.all_txns_ u = s0.all_txns_ u

/-- The abort of the multi-home transaction `t` after its body has arrived,
waiting for `c` more lock-only transactions. -/
structure AbortWaiting (env : Env LM) (t : TxnId) (sets : HolderSets) (s : Scheduler LM)
    (c : Nat) : Prop where
  aborting : s.aborting_txns_ t = true
  waiting : s.mh_abort_waiting_on_.getD t 0 = (c : Int)
  lock_only : ∀ r ∈ sets.involved_replicas, s.lock_only_txns_ (t, r) = none
  holder : ∃ h txn, s.all_txns_ t = some h ∧ h.txn_ = some txn ∧
    txn.internal.type = .MULTI_HOME ∧ h.active_partitions_ = sets.active_partitions ∧
    h.involved_partitions_ = sets.involved_partitions

/-- The abort of `t` is finalized: nothing of it is left in the state. -/
structure AbortDone (t : TxnId) (R : List Nat) (s : Scheduler LM) : Prop where
  holder : s.all_txns_ t = none
  aborting : s.aborting_txns_ t = false
  waiting : s.mh_abort_waiting_on_ t = none
  lock_only : ∀ r ∈ R, s.lock_only_txns_ (t, r) = none

/-- What is known of a lock-only transaction `lo` of the aborting `t` that is
still to arrive: its type and id, that it has a key in the local partition, and
that no lock-only transaction is stored for its replica in `s0`. -/
structure PendingLockOnly (env : Env LM) (s0 : Scheduler LM) (t : TxnId) (lo : Transaction) :
    Prop where
  type : lo.internal.type = .LOCK_ONLY
  id : lo.internal.id = t
  keys : (env.holderSets (lo.record env.config .ENTER_SCHEDULER)).keys_in_partition ≠ []
  fresh : s0.lock_only_txns_
    (t, env.lockOnlyReplica (lo.record env.config .ENTER_SCHEDULER)) = none

/-- Where the abort of `t` stands when the transactions `rem` are still to
arrive, `n` lock-only transactions being expected in all. -/
def AbortProgress (env : Env LM) (s0 : Scheduler LM) (t : TxnId) (mh : Transaction)
    (sets : HolderSets) (n : Nat) (s : Scheduler LM) (rem : List Transaction) : Prop :=
  (mh ∈ rem ∧ ∃ k, k + rem.length = n + 1 ∧ AbortPending s0 t sets.involved_replicas s k) ∨
    (mh ∉ rem ∧ rem ≠ [] ∧ AbortWaiting env t sets s rem.length) ∨
    (rem = [] ∧ AbortDone t sets.involved_replicas s)

/-- A state in which transaction 7 is aborting before its body arrived, with the
lock-only transaction of replica 1 already stored. -/
def sampleAborting : Scheduler Unit :=
  { Scheduler.init () with
    aborting_txns_ := fun t => decide (t = 7)
    lock_only_txns_ :=
      (UMap.empty : UMap (TxnId × Nat) TransactionHolder).set (7, 1) (sampleHolder 7 .LOCK_ONLY) }

end Scheduler

/-! ## Further views of a `LocalLog` and further sample inputs -/

namespace Interleaver

/-- A SINGLE_HOME batch of two transactions. -/
def sampleBatch : Batch :=
  ⟨100, .SINGLE_HOME, [sampleTxn 10 .SINGLE_HOME 0, sampleTxn 20 .SINGLE_HOME 0], [], [], []⟩

end Interleaver

namespace LocalLog

/-- The condition under which an iteration of the loop of `UpdateReadyBatches`
consumes a slot and a batch instead of leaving the loop: the slot stream has a
next slot, the queue it names exists, and that queue has a next batch. -/
def canAdvance (l : LocalLog) : Bool :=
  l.slots_.HasNext &&
    match l.slots_.Peek with
    | none => false
    | some next_queue_id =>
      match l.batch_queues_ next_queue_id with
      | none => false
      | some next_queue => next_queue.HasNext

/-- The members of the `LocalLog` when a call of `NextBatch` is over, whether it
returned or threw: the `throw` is its first statement, before any member is
written, and `ready_batches_.pop()` is its only write. -/
def afterNextBatch (l : LocalLog) : LocalLog :=
  if !l.HasNextBatch then l
  else { l with ready_batches_ := l.ready_batches_.tail }

end LocalLog

/-- A transaction that reads and writes no key, so that it has no key in any
partition. -/
def sampleKeylessTxn (id : TxnId) (type : TransactionType) : Transaction :=
  ⟨⟨id, type, ⟨0, 0⟩, [], [], [], []⟩, [], [], [], .code "", .NOT_STARTED⟩

/-- A scheduler that has buffered an early remote read for transaction 5. -/
def sampleEarlyRead : Scheduler Unit :=
  (Scheduler.init ()).setHolder 5
    { TransactionHolder.empty with early_remote_reads_ := [⟨5, 1, false, []⟩] }

/-! ## What the abort of a transaction is expected to send -/

namespace Scheduler

variable {LM : Type}

/-- The messages sent by a run of a function that also returns a value: those
of the state reached, or those sent before the fatal termination. -/
def sentWith {α : Type} : Except Fatal (Scheduler LM × α) → List Sent
  | .ok r => r.1.outbox
  | .error f => f.sent

/-- The `CompletedSubtxn` that the abort of a transaction with body `txn` and
holder `h` is expected to send: the transaction with status ABORTED, to the
server channel of its coordinating server. -/
def abortNotice (env : Env LM) (h : TransactionHolder) (txn : Transaction) : Sent :=
  ⟨.completed_subtxn (({ txn with status := .ABORTED } : Transaction).record env.config .EXIT_SCHEDULER)
      env.config.local_partition h.involved_partitions_,
    .server,
    some (env.config.MakeMachineIdNum txn.internal.coordinating_server.replica
      txn.internal.coordinating_server.partition)⟩

/-- The `RemoteReadResult` messages that the abort of `txn_id` with holder `h` is
expected to send: when more than one partition is involved, one for every
active partition other than the local one, to the scheduler of that partition
in the local replica. -/
def abortMessages (env : Env LM) (txn_id : TxnId) (h : TransactionHolder) : List Sent :=
  if h.involved_partitions_.length > 1 then
    (h.active_partitions_.filter (fun p => decide (p ≠ env.config.local_partition))).map
      (fun p =>
        ⟨.remote_read_result
            { txn_id := txn_id, partition := env.config.local_partition, will_abort := true,
              reads := [] },
          .scheduler, some (env.config.MakeMachineIdNum env.config.local_replica p)⟩)
  else []

/-- The body of the holder of `t`, if any, has the status ABORTED. -/
def AbortedBody (t : TxnId) (s : Scheduler LM) : Prop :=
  ∀ h txn, s.all_txns_ t = some h → h.txn_ = some txn → txn.status = .ABORTED

/-- The state of the abort of `txn_id` after its notifications were sent. -/
def notified (env : Env LM) (s : Scheduler LM) (txn_id : TxnId) (h : TransactionHolder)
    (txn : Transaction) : Scheduler LM :=
  { s with
    outbox := s.outbox ++ abortNotice env h txn :: abortMessages env txn_id h
    all_txns_ :=
      s.all_txns_.set txn_id
        { h with
          txn_ := some (({ txn with status := .ABORTED } : Transaction).record env.config
            .EXIT_SCHEDULER) } }

end Scheduler

namespace Scheduler

/-- A state in which transaction 7, whose body has arrived and which involves
the partitions 0 and 1, both active, is aborting. -/
def sampleAbortingBody : Scheduler Unit :=
  { Scheduler.init () with
    aborting_txns_ := fun t => decide (t = 7)
    all_txns_ :=
      (UMap.empty : UMap TxnId TransactionHolder).set 7
        ⟨some (sampleTxn 7 .SINGLE_HOME 0), none, [], ["k"], [0, 1], [0, 1], [0]⟩ }

end Scheduler

/-! ## CSVWriter (`src/common/csv_writer.cpp`) -/

/-- The members of `CSVWriter`.  `file_` is the output stream, as the list of
the values written to it with `<<` so far; the two counters, whose declarations
(`csv_writer.h`) are not among the sources, are natural numbers. -/
structure CSVWriter where
  num_columns_ : Nat
  line_items_ : Nat
  delim_ : Char
  file_ : List String
deriving Repr, DecidableEq

/-- A `std::runtime_error` thrown by a member function of `CSVWriter`: its message
and the members as the throw leaves them. -/
structure Thrown where
  what : String
  writer : CSVWriter
deriving Repr, DecidableEq

/-- One use of a `CSVWriter`: `writer << str` or `writer << ender`. -/
inductive CSVOp where
  | item (str : String)
  | endl
deriving Repr, DecidableEq

namespace CSVWriter

/-- The text of the file: the values written to the stream, one after another. -/
def contents (w : CSVWriter) : String := String.join w.file_

/-- The loop of the constructor over the columns still to be written; `first`
is the flag of the source and `file` the stream. -/
def headerLoop : List String → Bool → List String → List String
  | [], _, file => file
  | col :: rest, first, file =>
    headerLoop rest false ((if !first then file ++ [","] else file) ++ [col])

/-- The constructor `CSVWriter::CSVWriter(file_name, columns, delimiter)`, the
file being empty when it is opened; the error is the `std::runtime_error` it
throws. -/
def construct (columns : List String) (delimiter : Char) : Except String CSVWriter :=
  if columns.isEmpty then .error "There must be at least one column"
  else
    .ok { num_columns_ := columns.length
          line_items_ := 0
          delim_ := delimiter
          file_ := headerLoop columns true [] ++ ["\n"] }

/-- `CSVWriter::IncrementLineItemsAndCheck`. -/
def IncrementLineItemsAndCheck (w : CSVWriter) : Except Thrown CSVWriter :=
  let w := { w with line_items_ := w.line_items_ + 1 }
  if w.line_items_ > w.num_columns_ then
    .error ⟨"Number of items exceeds number of columns", w⟩
  else .ok w

/-- `CSVWriter::AppendDelim`. -/
def AppendDelim (w : CSVWriter) : CSVWriter :=
  if w.line_items_ > 1 then { w with file_ := w.file_ ++ [String.singleton w.delim_] }
  else w

/-- `CSVWriter::operator<<(const std::string& str)`. -/
def append (w : CSVWriter) (str : String) : Except Thrown CSVWriter :=
  match w.IncrementLineItemsAndCheck with
  | .error e => .error e
  | .ok w =>
    let w := w.AppendDelim
    .ok { w with file_ := w.file_ ++ [str] }

/-- `CSVWriter::operator<<(const CSVWriterLineEnder& ender)`. -/
def endLine (w : CSVWriter) : Except Thrown CSVWriter :=
  if w.line_items_ ≠ w.num_columns_ then
    .error ⟨"Number of items must match number of columns", w⟩
  else .ok { w with file_ := w.file_ ++ ["\n"], line_items_ := 0 }

/-- Performing one use. -/
def run (w : CSVWriter) : CSVOp → Except Thrown CSVWriter
  | .item str => w.append str
  | .endl => w.endLine

/-- Performing uses in order, until one throws. -/
def runAll : CSVWriter → List CSVOp → Except Thrown CSVWriter
  | w, [] => .ok w
  | w, op :: rest =>
    match w.run op with
    | .ok w1 => runAll w1 rest
    | .error e => .error e

end CSVWriter

/-- The rows that a list of uses has ended and the items appended since the last
row end, each in order. -/
def splitRows (ops : List CSVOp) : List (List String) × List String :=
  ops.foldl
    (fun acc op =>
      match op with
      | .item str => (acc.1, acc.2 ++ [str])
      | .endl => (acc.1 ++ [acc.2], []))
    ([], [])

/-- The values a header or a row of `fields` consists of when `sep` separates
the fields and a newline ends it. -/
def lineOf (sep : String) (fields : List String) : List String :=
  fields.intersperse sep ++ ["\n"]

namespace CSVWriter

/-- What holds of a writer `w` reached from `w0` by the uses `ops`, none of which
threw. -/
structure Reached (w0 : CSVWriter) (ops : List CSVOp) (w : CSVWriter) : Prop where
  columns : w.num_columns_ = w0.num_columns_
  delim : w.delim_ = w0.delim_
  items : w.line_items_ = (splitRows ops).2.length
  bound : (splitRows ops).2.length ≤ w0.num_columns_
  rows : ∀ row ∈ (splitRows ops).1, row.length = w0.num_columns_
  file : w.file_ =
    w0.file_ ++ (splitRows ops).1.flatMap (lineOf (String.singleton w0.delim_)) ++
      (splitRows ops).2.intersperse (String.singleton w0.delim_)

end CSVWriter

/-! ## Worker (`src/module/scheduler_components/worker.cpp`, lines 45-79) -/

/-- Modelled from the spec: a record of the storage engine (`Record` of the
header `types.h`, which is not among the sources), with the two members that
`Worker::ProcessTransaction` reads and writes: the value of the key and the
metadata of its master (section 3: "per-key master_metadata (region +
counter)"). -/
structure Record where
  value : Value
  metadata : MasterMetadata
deriving Repr, DecidableEq

/-- Modelled from the spec: the storage engine (the class template `Storage`,
not among the sources), section 1: "the storage engine (read/write/delete by
key)".  It is read through its lookups. -/
abbrev Storage := UMap Key Record

namespace Storage

/-- Modelled from the spec: `Storage::Read(key, record)`, which returns whether
the key is stored and, when it is, leaves its record in `record`. -/
def Read (storage : Storage) (key : Key) (record : Record) : Bool × Record :=
  match storage key with
  | some stored => (true, stored)
  | none => (false, record)

/-- Modelled from the spec: `Storage::Write(key, record)`. -/
def Write (storage : Storage) (key : Key) (record : Record) : Storage :=
  UMap.set storage key record

/-- Modelled from the spec: `Storage::Delete(key)`. -/
def Delete (storage : Storage) (key : Key) : Storage :=
  UMap.erase storage key

end Storage

/-- What a worker is given: `Execute` is `stored_procedures_->Execute(*txn)`, the
stored procedure as a function from the transaction to the transaction it
leaves, and `defaultRecord` is a default-constructed `Record` (the
declaration `Record record;`). -/
structure WorkerEnv where
  Execute : Transaction → Transaction
  defaultRecord : Record

namespace Worker

/-- The two loops of `Worker::ProcessTransaction` that read the keys of a set from
the storage into the buffer: every entry gets the value of the record read. -/
def readLoop (env : WorkerEnv) (storage : Storage) : List (Key × Value) → List (Key × Value)
  | [] => []
  | key_value :: rest =>
    (key_value.1, (storage.Read key_value.1 env.defaultRecord).2.value) ::
      readLoop env storage rest

/-- The loop of `Worker::ProcessTransaction` over the write set; a failed `CHECK`
terminates it with the diagnostic (which also names the key in the source). -/
def writeLoop (env : WorkerEnv) (master_metadata : List (Key × MasterMetadata)) :
    List (Key × Value) → Storage → Except String Storage
  | [], storage => .ok storage
  | key_value :: rest, storage =>
    let key := key_value.1
    let value := key_value.2
    let read := storage.Read key env.defaultRecord
    let found := read.1
    let record := read.2
    if !found then
      match master_metadata.lookup key with
      | none => .error "Master metadata for key is missing"
      | some metadata =>
        let record := { record with metadata := metadata }
        let record := { record with value := value }
        writeLoop env master_metadata rest (storage.Write key record)
    else
      let record := { record with value := value }
      writeLoop env master_metadata rest (storage.Write key record)

/-- The loop of `Worker::ProcessTransaction` over the delete set. -/
def deleteLoop : List Key → Storage → Storage
  | [], storage => storage
  | key :: rest, storage => deleteLoop rest (storage.Delete key)

/-- The transaction that `Worker::ProcessTransaction` passes to the stored
procedure: the read set and the write set filled from the storage. -/
def readBuffers (env : WorkerEnv) (storage : Storage) (txn : Transaction) : Transaction :=
  { txn with
    read_set := readLoop env storage txn.read_set
    write_set := readLoop env storage txn.write_set }

/-- `Worker::ProcessTransaction`: the storage and the transaction it leaves. -/
def ProcessTransaction (env : WorkerEnv) (storage : Storage) (txn : Transaction) :
    Except String (Storage × Transaction) :=
  let txn := readBuffers env storage txn
  let txn := env.Execute txn
  let master_metadata := txn.internal.master_metadata
  match writeLoop env master_metadata txn.write_set storage with
  | .error e => .error e
  | .ok storage => .ok (deleteLoop txn.delete_set storage, txn)

end Worker

/-- A stored procedure that writes "new" to every key of the write set and
deletes the key "gone". -/
def sampleWorkerEnv : WorkerEnv :=
  ⟨fun txn =>
      { txn with
        write_set := txn.write_set.map (fun key_value => (key_value.1, "new"))
        delete_set := ["gone"] },
    ⟨"", ⟨0, 0⟩⟩⟩

/-- A storage with the keys "k" and "gone". -/
def sampleStorage : Storage :=
  Storage.Write (Storage.Write UMap.empty "k" ⟨"old", ⟨1, 5⟩⟩) "gone" ⟨"x", ⟨0, 0⟩⟩

/-- A transaction that reads "k" and writes "k" and the new key "fresh", whose
master is replica 1. -/
def sampleWorkerTxn : Transaction :=
  ⟨⟨1, .SINGLE_HOME, ⟨0, 0⟩, [("fresh", ⟨1, 0⟩)], [], [], []⟩,
    [("k", "")], [("k", ""), ("fresh", "")], [], .code "", .NOT_STARTED⟩

/-! ## What a worker reply is expected to send -/

namespace Scheduler

variable {LM : Type}

/-- The messages that the dispatch of `txn_id` is expected to send when its
holder has buffered the early reads `early`, oldest first: the `Worker` request
and then the buffered reads, the last buffered first, all to the worker channel
numbered `txn_id mod num_workers`. -/
def dispatchMessages (num_workers : Nat) (txn_id : TxnId) (early : List RemoteReadResult) :
    List Sent :=
  ⟨.worker txn_id, .worker (txn_id % num_workers), none⟩ ::
    early.reverse.map (fun r => ⟨.remote_read_result r, .worker (txn_id % num_workers), none⟩)

end Scheduler

/-- A lock manager whose release of the locks of transaction 10 unblocks
transaction 20, and which unblocks nothing otherwise. -/
def sampleUnblocking : LockManager Unit :=
  ⟨fun _ _ => ((), true), fun _ _ => ((), .WAITING),
    fun _ h =>
      ((), match h.txn_ with
        | some txn => if txn.internal.id = 10 then [20] else []
        | none => [])⟩

/-- The deployment `sampleEnv` with the lock manager `sampleUnblocking`. -/
def sampleUnblockingEnv : Env Unit :=
  ⟨sampleConfig, sampleUnblocking,
    fun txn => ⟨txn.write_set.map Prod.fst, [0], [0], [0, 1]⟩,
    fun txn => txn.internal.coordinating_server.replica⟩

/-- A scheduler tracking transaction 10, dispatched to worker 0, and transaction
20, which waits for a lock and has buffered one early read. -/
def sampleWaiting : Scheduler Unit :=
  ((Scheduler.init ()).setHolder 10
      { sampleHolder 10 .SINGLE_HOME with worker_ := some 0 }).setHolder 20
    { sampleHolder 20 .SINGLE_HOME with early_remote_reads_ := [⟨20, 1, false, [("a", "1")]⟩] }

/-! ## Samples for the replication of batch orders -/

namespace Interleaver

/-- A deployment of three replicas; this machine is partition 0 of replica 1. -/
def sampleThreeReplicas : Configuration := ⟨3, 2, 1, 0, 1, false, 0⟩

/-- An interleaver whose local log holds two ready pairs, `(0, 100)` and `(1, 101)`,
and which has no single-home log yet. -/
def sampleReady : Interleaver :=
  { Interleaver.init with
    local_log_ :=
      (((LocalLog.empty.AddBatchId 0 0 100).AddBatchId 0 1 101).AddSlot 0 0).AddSlot 1 0 }

end Interleaver

/-! # Theorems -/

/-! ## LocalLog: the join is determined by the entries supplied -/

theorem lookup_filter_ne {α : Type} (log : List (Nat × α)) (n k : Nat) (h : k ≠ n) :
    (log.filter (fun e => e.1 != n)).lookup k = log.lookup k := by
  induction log with
  | nil => rfl
  | cons e t ih =>
    obtain ⟨a, v⟩ := e
    by_cases ha : a = n
    · subst ha
      have : (k == a) = false := by simpa using h
      simp [List.filter_cons, List.lookup_cons, this, ih]
    · have hne : (a != n) = true := by simpa using ha
      simp only [List.filter_cons, hne, if_true, List.lookup_cons, ih]

theorem length_filter_lt_of_lookup {α : Type} (log : List (Nat × α)) (n : Nat) (v : α)
    (h : log.lookup n = some v) :
    (log.filter (fun e => e.1 != n)).length < log.length := by
  induction log with
  | nil => simp at h
  | cons e t ih =>
    obtain ⟨a, w⟩ := e
    by_cases ha : a = n
    · subst ha
      have hle := List.length_filter_le (fun e : Nat × α => e.1 != a) t
      simp [List.filter_cons]
      omega
    · have hne : (a != n) = true := by simpa using ha
      have hk : (n == a) = false := by simpa using (Ne.symm ha)
      rw [List.lookup_cons, hk] at h
      simp only [List.filter_cons, hne, if_true, List.length_cons]
      have := ih h
      omega

theorem namedBelow_congr {S S' : Nat → Option Nat} {n : Nat} (h : ∀ k, k < n → S' k = S k)
    (q : Nat) : namedBelow S' q n = namedBelow S q n := by
  unfold namedBelow
  congr 1
  apply List.filter_congr
  intro k hk
  rw [h k (List.mem_range.1 hk)]

theorem namedBelow_succ (S : Nat → Option Nat) (q n : Nat) :
    namedBelow S q (n + 1) = namedBelow S q n + (if S n = some q then 1 else 0) := by
  unfold namedBelow
  rw [List.range_succ, List.filter_append, List.length_append]
  by_cases h : S n = some q <;> simp [List.filter_cons, h]

namespace LocalLog

theorem Inv.step {S : Nat → Option Nat} {B : Nat → Nat → Option BatchId} {l : LocalLog}
    (h : l.Inv S B) {q : Nat} {queue : AsyncLog BatchId} {b : BatchId}
    (hs : l.slots_.log.lookup l.slots_.next = some q)
    (hq : l.batch_queues_ q = some queue)
    (hb : queue.log.lookup queue.next = some b) :
    Inv S B
      { slots_ := ⟨l.slots_.log.filter (fun e => e.1 != l.slots_.next), l.slots_.next + 1⟩
        batch_queues_ := l.batch_queues_.set q
          ⟨queue.log.filter (fun e => e.1 != queue.next), queue.next + 1⟩
        ready_batches_ := l.ready_batches_ ++ [(l.slots_.next, b)] } := by
  have hSn : S l.slots_.next = some q := by rw [← h.slots _ (le_refl _)]; exact hs
  obtain ⟨hqn, hql⟩ := h.queues q queue hq
  have hBn : B q (namedBelow S q l.slots_.next) = some b := by
    rw [← hqn, ← hql _ (le_refl _)]; exact hb
  refine ⟨?_, ?_, ?_, ?_, ?_⟩
  · intro k hk
    simp only at hk ⊢
    rw [lookup_filter_ne _ _ _ (by omega)]
    exact h.slots k (by omega)
  · intro q' hq'
    simp only [UMap.set] at hq'
    by_cases e : q' = q
    · simp [e] at hq'
    · rw [if_neg e] at hq'
      exact h.absent q' hq'
  · intro q' queue' hq'
    simp only [UMap.set] at hq'
    simp only
    rw [namedBelow_succ]
    by_cases e : q' = q
    · subst e
      rw [if_pos rfl] at hq'
      cases hq'
      simp only [hSn, if_true]
      refine ⟨by omega, ?_⟩
      intro p hp
      rw [lookup_filter_ne _ _ _ (by omega)]
      exact hql p (by omega)
    · rw [if_neg e] at hq'
      have hne : ¬ (S l.slots_.next = some q') := by
        rw [hSn]; intro hc; exact e (Option.some.inj hc).symm
      rw [if_neg hne]
      exact h.queues q' queue' hq'
  · intro i hi
    simp only at hi
    by_cases e : i = l.slots_.next
    · subst e; exact ⟨q, b, hSn, hBn⟩
    · exact h.emitted i (by omega)
  · simp only
    rw [List.range_succ, List.map_append, ← h.ready]
    simp [joined, hSn, hBn]

theorem Inv.loop {S : Nat → Option Nat} {B : Nat → Nat → Option BatchId} (fuel : Nat) :
    ∀ l : LocalLog, l.Inv S B → (UpdateReadyBatchesLoop fuel l).Inv S B := by
  induction fuel with
  | zero => intro l h; exact h
  | succ n ih =>
    intro l h
    unfold UpdateReadyBatchesLoop
    split
    · simp only [AsyncLog.Peek, AsyncLog.Next, AsyncLog.HasNext]
      cases hs : l.slots_.log.lookup l.slots_.next with
      | none => exact h
      | some q =>
        simp only
        cases hq : l.batch_queues_ q with
        | none => exact h
        | some queue =>
          simp only
          cases hb : queue.log.lookup queue.next with
          | none => simpa using h
          | some b =>
            simp only [Option.isSome_some, Bool.not_true, Bool.false_eq_true, if_false]
            exact ih _ (h.step hs hq hb)
    · exact h

theorem stalled_loop (fuel : Nat) :
    ∀ l : LocalLog, l.slots_.log.length ≤ fuel → (UpdateReadyBatchesLoop fuel l).Stalled := by
  induction fuel with
  | zero =>
    intro l hl q queue hp
    have : l.slots_.log = [] := List.length_eq_zero.1 (by omega)
    simp [UpdateReadyBatchesLoop, AsyncLog.Peek, this] at hp
  | succ n ih =>
    intro l hl
    unfold UpdateReadyBatchesLoop
    split
    · simp only [AsyncLog.Peek, AsyncLog.Next, AsyncLog.HasNext]
      cases hs : l.slots_.log.lookup l.slots_.next with
      | none =>
        intro q queue hp
        simp [AsyncLog.Peek, hs] at hp
      | some q =>
        simp only
        cases hq : l.batch_queues_ q with
        | none =>
          intro q' queue' hp hq'
          simp only [AsyncLog.Peek, hs, Option.some.injEq] at hp
          subst hp
          rw [hq] at hq'
          cases hq'
        | some queue =>
          simp only
          cases hb : queue.log.lookup queue.next with
          | none =>
            simp only [Option.isSome_none, Bool.not_false, if_true]
            intro q' queue' hp hq'
            simp only [AsyncLog.Peek, hs, Option.some.injEq] at hp
            subst hp
            rw [hq] at hq'
            cases hq'
            simp [AsyncLog.HasNext, hb]
          | some b =>
            simp only [Option.isSome_some, Bool.not_true, Bool.false_eq_true, if_false]
            apply ih
            have := length_filter_lt_of_lookup _ _ _ hs
            simp only
            omega
    · rename_i hn
      intro q queue hp
      simp only [AsyncLog.Peek] at hp
      simp [AsyncLog.HasNext, hp] at hn

theorem stalled_UpdateReadyBatches (l : LocalLog) : l.UpdateReadyBatches.Stalled :=
  stalled_loop _ l (le_refl _)

end LocalLog

theorem mem_of_lookup_eq_some {κ α : Type} [BEq κ] [LawfulBEq κ] (l : List (κ × α)) (k : κ)
    (v : α) (h : l.lookup k = some v) : (k, v) ∈ l := by
  induction l with
  | nil => simp at h
  | cons e t ih =>
    obtain ⟨a, w⟩ := e
    rw [List.lookup_cons] at h
    by_cases hk : k = a
    · subst hk
      simp at h
      subst h
      exact List.mem_cons_self _ _
    · have : (k == a) = false := by simpa using hk
      rw [this] at h
      exact List.mem_cons_of_mem _ (ih h)

theorem lookup_eq_some_of_mem {κ α : Type} [BEq κ] [LawfulBEq κ] (l : List (κ × α))
    (hnd : (l.map Prod.fst).Nodup) (k : κ) (v : α) (h : (k, v) ∈ l) :
    l.lookup k = some v := by
  induction l with
  | nil => simp at h
  | cons e t ih =>
    obtain ⟨a, w⟩ := e
    rw [List.map_cons, List.nodup_cons] at hnd
    rw [List.lookup_cons]
    rcases List.mem_cons.1 h with h1 | h1
    · cases h1
      simp
    · have hk : k ≠ a := by
        intro hc
        subst hc
        exact hnd.1 (List.mem_map.2 ⟨(k, v), h1, rfl⟩)
      have : (k == a) = false := by simpa using hk
      rw [this]
      exact ih hnd.2 h1

theorem lookup_perm {κ α : Type} [BEq κ] [LawfulBEq κ] {l l' : List (κ × α)}
    (hp : l.Perm l') (hnd : (l.map Prod.fst).Nodup) (k : κ) : l.lookup k = l'.lookup k := by
  have hnd' : (l'.map Prod.fst).Nodup := (hp.map Prod.fst).nodup_iff.1 hnd
  cases h : l.lookup k with
  | some v =>
    exact (lookup_eq_some_of_mem l' hnd' k v (hp.mem_iff.1 (mem_of_lookup_eq_some l k v h))).symm
  | none =>
    cases h' : l'.lookup k with
    | none => rfl
    | some v =>
      have := lookup_eq_some_of_mem l hnd k v (hp.mem_iff.2 (mem_of_lookup_eq_some l' k v h'))
      rw [h] at this
      cases this

theorem slotsOf_perm {cs cs' : List LogCall} (hp : cs.Perm cs')
    (hs : (LogCall.slotIds cs).Nodup) : slotsOf cs = slotsOf cs' := by
  funext k
  exact lookup_perm (hp.filterMap _) hs k

theorem batchesOf_perm {cs cs' : List LogCall} (hp : cs.Perm cs')
    (hb : (LogCall.batchKeys cs).Nodup) : batchesOf cs = batchesOf cs' := by
  funext q p
  exact lookup_perm (hp.filterMap _) hb (q, p)

theorem slotsOf_eq_some_iff (cs : List LogCall) (hs : (LogCall.slotIds cs).Nodup) (k q : Nat) :
    slotsOf cs k = some q ↔ LogCall.AddSlot k q ∈ cs := by
  constructor
  · intro h
    have := mem_of_lookup_eq_some _ _ _ h
    obtain ⟨c, hc, he⟩ := List.mem_filterMap.1 this
    cases c with
    | AddSlot s q' => simp [LogCall.slotEntry] at he; obtain ⟨rfl, rfl⟩ := he; exact hc
    | AddBatchId a b c => simp [LogCall.slotEntry] at he
  · intro h
    exact lookup_eq_some_of_mem _ hs _ _ (List.mem_filterMap.2 ⟨_, h, rfl⟩)

theorem batchesOf_eq_some (cs : List LogCall) (q p : Nat) (b : BatchId)
    (h : batchesOf cs q p = some b) : LogCall.AddBatchId q p b ∈ cs := by
  have := mem_of_lookup_eq_some _ _ _ h
  obtain ⟨c, hc, he⟩ := List.mem_filterMap.1 this
  cases c with
  | AddSlot s q' => simp [LogCall.batchEntry] at he
  | AddBatchId a b c =>
    simp [LogCall.batchEntry] at he
    obtain ⟨⟨rfl, rfl⟩, rfl⟩ := he
    exact hc

theorem namedBelow_slotsOf (cs : List LogCall) (hs : (LogCall.slotIds cs).Nodup) (q i : Nat) :
    namedBelow (slotsOf cs) q i = LogCall.earlierSlotsOf cs q i := by
  unfold namedBelow LogCall.earlierSlotsOf
  congr 1
  apply List.filter_congr
  intro k _
  simp only [slotsOf_eq_some_iff cs hs]

theorem slotsOf_concat_slot (cs : List LogCall) (s q k : Nat) :
    slotsOf (cs ++ [LogCall.AddSlot s q]) k =
      (slotsOf cs k).or (if k = s then some q else none) := by
  simp only [slotsOf, List.filterMap_append, List.lookup_append]
  congr 1
  by_cases h : k = s
  · simp [LogCall.slotEntry, List.lookup_cons, h]
  · have : (k == s) = false := by simpa using h
    simp [LogCall.slotEntry, List.lookup_cons, h, this]

theorem slotsOf_concat_batch (cs : List LogCall) (q p : Nat) (b : BatchId) :
    slotsOf (cs ++ [LogCall.AddBatchId q p b]) = slotsOf cs := by
  funext k
  simp [slotsOf, List.filterMap_append, LogCall.slotEntry]

theorem batchesOf_concat_slot (cs : List LogCall) (s q : Nat) :
    batchesOf (cs ++ [LogCall.AddSlot s q]) = batchesOf cs := by
  funext a b
  simp [batchesOf, List.filterMap_append, LogCall.batchEntry]

theorem batchesOf_concat_batch (cs : List LogCall) (q p : Nat) (b : BatchId) (q' p' : Nat) :
    batchesOf (cs ++ [LogCall.AddBatchId q p b]) q' p' =
      (batchesOf cs q' p').or (if q' = q ∧ p' = p then some b else none) := by
  simp only [batchesOf, List.filterMap_append, List.lookup_append]
  congr 1
  by_cases h : q' = q ∧ p' = p
  · obtain ⟨rfl, rfl⟩ := h
    simp [LogCall.batchEntry, List.lookup_cons]
  · have : ((q', p') == (q, p)) = false := by
      simp only [beq_eq_false_iff_ne, ne_eq, Prod.mk.injEq]; exact h
    simp [LogCall.batchEntry, List.lookup_cons, this, h]

namespace LocalLog

theorem Inv.extend {S S' : Nat → Option Nat} {B B' : Nat → Nat → Option BatchId}
    {l l' : LocalLog} (h : l.Inv S B)
    (hS : ∀ k v, S k = some v → S' k = some v)
    (hB : ∀ q p v, B q p = some v → B' q p = some v)
    (hnext : l'.slots_.next = l.slots_.next)
    (hready : l'.ready_batches_ = l.ready_batches_)
    (hslots : ∀ k, l.slots_.next ≤ k → l'.slots_.log.lookup k = S' k)
    (habsent : ∀ q, l'.batch_queues_ q = none → ∀ p, B' q p = none)
    (hqueues : ∀ q queue, l'.batch_queues_ q = some queue →
      queue.next = namedBelow S q l.slots_.next ∧
        ∀ p, queue.next ≤ p → queue.log.lookup p = B' q p) :
    l'.Inv S' B' := by
  have stable : ∀ i, i < l.slots_.next → S' i = S i := by
    intro i hi
    obtain ⟨q, b, hq, _⟩ := h.emitted i hi
    rw [hq, hS i q hq]
  have cstable : ∀ q i, i ≤ l.slots_.next → namedBelow S' q i = namedBelow S q i := by
    intro q i hi
    exact namedBelow_congr (fun k hk => stable k (by omega)) q
  refine ⟨?_, habsent, ?_, ?_, ?_⟩
  · intro k hk
    exact hslots k (by omega)
  · intro q queue hq
    rw [hnext, cstable q _ (le_refl _)]
    exact hqueues q queue hq
  · intro i hi
    rw [hnext] at hi
    obtain ⟨q, b, hq, hb⟩ := h.emitted i hi
    exact ⟨q, b, hS i q hq, by rw [cstable q i (by omega)]; exact hB _ _ _ hb⟩
  · rw [hready, hnext, h.ready]
    apply List.map_congr_left
    intro i hi
    have hi := List.mem_range.1 hi
    obtain ⟨q, b, hq, hb⟩ := h.emitted i hi
    simp only [joined, hq, hS i q hq, cstable q i (by omega), hb, hB _ _ _ hb]

theorem Inv.empty : LocalLog.empty.Inv (slotsOf []) (batchesOf []) := by
  refine ⟨?_, ?_, ?_, ?_, ?_⟩
  · intro k _; rfl
  · intro q _ p; rfl
  · intro q queue hq; simp [LocalLog.empty, UMap.empty] at hq
  · intro i hi; simp [LocalLog.empty, AsyncLog.empty] at hi
  · simp [LocalLog.empty, AsyncLog.empty]

theorem Inv.addSlot {cs : List LogCall} {l : LocalLog} (h : l.Inv (slotsOf cs) (batchesOf cs))
    (s q : Nat) :
    Inv (slotsOf (cs ++ [LogCall.AddSlot s q])) (batchesOf (cs ++ [LogCall.AddSlot s q]))
      { l with slots_ := l.slots_.Insert s q } := by
  rw [batchesOf_concat_slot]
  have hnext : (l.slots_.Insert s q).next = l.slots_.next := by
    unfold AsyncLog.Insert; split <;> rfl
  refine h.extend ?_ (fun _ _ _ hv => hv) hnext rfl ?_ h.absent h.queues
  · intro k v hv
    rw [slotsOf_concat_slot, hv]; rfl
  · intro k hk
    rw [slotsOf_concat_slot, ← h.slots k hk]
    simp only [AsyncLog.Insert]
    cases hl : l.slots_.log.lookup s with
    | some w =>
      simp only
      cases hk2 : l.slots_.log.lookup k with
      | some u => rfl
      | none =>
        have : k ≠ s := by intro hc; subst hc; rw [hl] at hk2; cases hk2
        simp [this]
    | none =>
      simp only [List.lookup_cons]
      by_cases hks : k = s
      · subst hks; simp [hl]
      · have : (k == s) = false := by simpa using hks
        simp only [this, hks, if_false]
        cases l.slots_.log.lookup k <;> rfl

theorem Inv.addBatchId {cs : List LogCall} {l : LocalLog}
    (h : l.Inv (slotsOf cs) (batchesOf cs)) (q p : Nat) (b : BatchId) :
    Inv (slotsOf (cs ++ [LogCall.AddBatchId q p b]))
      (batchesOf (cs ++ [LogCall.AddBatchId q p b]))
      { l with
        batch_queues_ := l.batch_queues_.set q
          ((l.batch_queues_.getD q AsyncLog.empty).Insert p b) } := by
  rw [slotsOf_concat_batch]
  -- the queue of `q` before the call, and what is known of it
  have hold : (l.batch_queues_.getD q AsyncLog.empty).next = namedBelow (slotsOf cs) q l.slots_.next ∧
      ∀ p', (l.batch_queues_.getD q AsyncLog.empty).next ≤ p' →
        (l.batch_queues_.getD q AsyncLog.empty).log.lookup p' = batchesOf cs q p' := by
    cases hq : l.batch_queues_ q with
    | some queue => simpa [UMap.getD, hq] using h.queues q queue hq
    | none =>
      have hnone := h.absent q hq
      simp only [UMap.getD, hq, Option.getD_none, AsyncLog.empty, List.lookup_nil]
      refine ⟨?_, fun p' _ => (hnone p').symm⟩
      unfold namedBelow
      symm
      rw [List.length_eq_zero, List.filter_eq_nil_iff]
      intro i hi hc
      obtain ⟨q', b', hq', hb'⟩ := h.emitted i (List.mem_range.1 hi)
      have hc := of_decide_eq_true hc
      rw [hq'] at hc
      cases hc
      rw [hnone] at hb'
      cases hb'
  refine h.extend (fun _ _ hv => hv) ?_ rfl rfl h.slots ?_ ?_
  · intro q' p' v hv
    rw [batchesOf_concat_batch, hv]; rfl
  · intro q' hq' p'
    simp only [UMap.set] at hq'
    by_cases e : q' = q
    · simp [e] at hq'
    · rw [if_neg e] at hq'
      rw [batchesOf_concat_batch, h.absent q' hq' p']
      simp [e]
  · intro q' queue hq'
    simp only [UMap.set] at hq'
    by_cases e : q' = q
    · subst e
      rw [if_pos rfl] at hq'
      cases hq'
      have hn : ((l.batch_queues_.getD q' AsyncLog.empty).Insert p b).next =
          (l.batch_queues_.getD q' AsyncLog.empty).next := by
        unfold AsyncLog.Insert; split <;> rfl
      refine ⟨hn.trans hold.1, ?_⟩
      intro p' hp'
      rw [hn] at hp'
      rw [batchesOf_concat_batch, ← hold.2 p' hp']
      simp only [AsyncLog.Insert, true_and]
      cases hl : (l.batch_queues_.getD q' AsyncLog.empty).log.lookup p with
      | some w =>
        simp only
        cases hk2 : (l.batch_queues_.getD q' AsyncLog.empty).log.lookup p' with
        | some u => rfl
        | none =>
          have : p' ≠ p := by intro hc; subst hc; rw [hl] at hk2; cases hk2
          simp [this]
      | none =>
        simp only [List.lookup_cons]
        by_cases hks : p' = p
        · subst hks; simp [hl]
        · have : (p' == p) = false := by simpa using hks
          simp only [this, hks, if_false]
          cases (l.batch_queues_.getD q' AsyncLog.empty).log.lookup p' <;> rfl
    · rw [if_neg e] at hq'
      obtain ⟨h1, h2⟩ := h.queues q' queue hq'
      refine ⟨h1, ?_⟩
      intro p' hp'
      rw [batchesOf_concat_batch, h2 p' hp']
      simp [e]

theorem Inv.runAll (cs : List LogCall) :
    (LogCall.runAll LocalLog.empty cs).Inv (slotsOf cs) (batchesOf cs) := by
  induction cs using List.reverseRecOn with
  | nil => exact Inv.empty
  | append_singleton cs c ih =>
    rw [LogCall.runAll, List.foldl_append]
    cases c with
    | AddSlot s q => exact Inv.loop _ _ (ih.addSlot s q)
    | AddBatchId q p b => exact Inv.loop _ _ (ih.addBatchId q p b)

theorem stalled_runAll (cs : List LogCall) : (LogCall.runAll LocalLog.empty cs).Stalled := by
  induction cs using List.reverseRecOn with
  | nil =>
    intro q queue hp
    simp [LogCall.runAll, LocalLog.empty, AsyncLog.empty, AsyncLog.Peek] at hp
  | append_singleton cs c _ =>
    rw [LogCall.runAll, List.foldl_append]
    cases c with
    | AddSlot s q => exact stalled_UpdateReadyBatches _
    | AddBatchId q p b => exact stalled_UpdateReadyBatches _

theorem Inv.not_joinable {S : Nat → Option Nat} {B : Nat → Nat → Option BatchId}
    {l : LocalLog} (h : l.Inv S B) (hst : l.Stalled) : ¬ Joinable S B l.slots_.next := by
  rintro ⟨q, b, hq, hb⟩
  have hp : l.slots_.Peek = some q := by
    rw [AsyncLog.Peek, h.slots _ (le_refl _)]; exact hq
  cases hbq : l.batch_queues_ q with
  | none =>
    rw [h.absent q hbq] at hb
    cases hb
  | some queue =>
    have hn := hst q queue hp hbq
    obtain ⟨h1, h2⟩ := h.queues q queue hbq
    rw [AsyncLog.HasNext, h2 _ (le_refl _), h1, hb] at hn
    cases hn

theorem Inv.ready_unique {S : Nat → Option Nat} {B : Nat → Nat → Option BatchId}
    {l l' : LocalLog} (h : l.Inv S B) (h' : l'.Inv S B) (hst : l.Stalled) (hst' : l'.Stalled) :
    l.ready_batches_ = l'.ready_batches_ := by
  have hn : l.slots_.next = l'.slots_.next := by
    rcases Nat.lt_trichotomy l.slots_.next l'.slots_.next with hlt | heq | hgt
    · exact absurd (h'.emitted _ hlt) (h.not_joinable hst)
    · exact heq
    · exact absurd (h.emitted _ hgt) (h'.not_joinable hst')
  rw [h.ready, h'.ready, hn]

theorem drainLoop_fst (fuel : Nat) :
    ∀ l : LocalLog, l.ready_batches_.length ≤ fuel → (drainLoop fuel l).1 = l.ready_batches_ := by
  induction fuel with
  | zero =>
    intro l hl
    have : l.ready_batches_ = [] := List.length_eq_zero.1 (by omega)
    simp [drainLoop, this]
  | succ n ih =>
    intro l hl
    cases hr : l.ready_batches_ with
    | nil => simp [drainLoop, HasNextBatch, hr]
    | cons p rest =>
      have hlen : rest.length ≤ n := by rw [hr] at hl; simpa using hl
      have := ih { l with ready_batches_ := rest } hlen
      simp [drainLoop, HasNextBatch, NextBatch, hr, this]

theorem drain_eq (l : LocalLog) : l.drain = l.ready_batches_ :=
  drainLoop_fst _ l (le_refl _)

end LocalLog

open LogCall in
/-- C1. `LocalLog` is insertion-order independent: two orderings of the same
calls, with pairwise distinct slot ids and pairwise distinct `(queue_id,
position)` keys, applied to an empty `LocalLog`, drain to the same sequence of
`(slot, batch)` pairs. -/
theorem LocalLog_insertion_order_independent (cs cs' : List LogCall) (hperm : cs.Perm cs')
    (hs : (slotIds cs).Nodup) (hb : (batchKeys cs).Nodup) :
    (runAll LocalLog.empty cs).drain = (runAll LocalLog.empty cs').drain := by
  rw [LocalLog.drain_eq, LocalLog.drain_eq]
  have h := LocalLog.Inv.runAll cs
  have h' := LocalLog.Inv.runAll cs'
  rw [← slotsOf_perm hperm hs, ← batchesOf_perm hperm hb] at h'
  exact h.ready_unique h' (LocalLog.stalled_runAll cs) (LocalLog.stalled_runAll cs')

open LogCall in
theorem LocalLog_insertion_order_independent_witness :
    (runAll LocalLog.empty
        [AddBatchId 0 2 102, AddBatchId 0 0 100, AddSlot 1 1, AddBatchId 0 1 101,
          AddSlot 0 0, AddBatchId 1 0 200, AddSlot 2 0]).drain =
      (runAll LocalLog.empty
        [AddSlot 2 0, AddSlot 1 1, AddSlot 0 0, AddBatchId 1 0 200, AddBatchId 0 0 100,
          AddBatchId 0 1 101, AddBatchId 0 2 102]).drain :=
  LocalLog_insertion_order_independent _ _ (by decide) (by decide) (by decide)

open LogCall in
/-- C2. `LocalLog` joins slots with batches FIFO per queue: after any calls with
distinct keys on an empty `LocalLog`, the emitted slot ids are 0, 1, 2, ... in
order (strictly increasing, none twice), and the `i`-th emitted pair is `(i, b)`
where the call `AddSlot i q` named queue `q` and `b` is the one batch that
`AddBatchId` gave queue `q` at position `j`, the number of slots smaller than `i`
naming `q`. -/
theorem LocalLog_join_fifo (cs : List LogCall)
    (hs : (slotIds cs).Nodup) (hb : (batchKeys cs).Nodup) :
    ((runAll LocalLog.empty cs).drain.map Prod.fst =
        List.range (runAll LocalLog.empty cs).drain.length) ∧
      List.Pairwise (fun a b => a.1 < b.1) (runAll LocalLog.empty cs).drain ∧
      ∀ i, i < (runAll LocalLog.empty cs).drain.length →
        ∃ q b, AddSlot i q ∈ cs ∧ AddBatchId q (earlierSlotsOf cs q i) b ∈ cs ∧
          (∀ b', AddBatchId q (earlierSlotsOf cs q i) b' ∈ cs → b' = b) ∧
          (runAll LocalLog.empty cs).drain[i]? = some (i, b) := by
  have h := LocalLog.Inv.runAll cs
  rw [LocalLog.drain_eq, h.ready]
  refine ⟨?_, ?_, ?_⟩
  · simp [List.map_map, Function.comp_def]
  · rw [List.pairwise_map]
    exact List.pairwise_lt_range _
  · intro i hi
    simp only [List.length_map, List.length_range] at hi
    obtain ⟨q, b, hq, hbq⟩ := h.emitted i hi
    rw [namedBelow_slotsOf cs hs] at hbq
    refine ⟨q, b, (slotsOf_eq_some_iff cs hs i q).1 hq, batchesOf_eq_some cs _ _ _ hbq, ?_, ?_⟩
    · intro b' hb'
      have h1 : batchesOf cs q (earlierSlotsOf cs q i) = some b' :=
        lookup_eq_some_of_mem _ hb _ _ (List.mem_filterMap.2 ⟨_, hb', rfl⟩)
      rw [hbq] at h1
      exact (Option.some.inj h1).symm
    · rw [← namedBelow_slotsOf cs hs] at hbq
      simp [List.getElem?_map, List.getElem?_range hi, joined, hq, hbq]

open LogCall in
theorem LocalLog_join_fifo_witness :
    (slotIds [AddBatchId 0 2 102, AddBatchId 0 0 100, AddBatchId 0 1 101,
        AddSlot 0 0, AddSlot 1 0, AddSlot 2 0]).Nodup ∧
      (runAll LocalLog.empty [AddBatchId 0 2 102, AddBatchId 0 0 100, AddBatchId 0 1 101,
        AddSlot 0 0, AddSlot 1 0, AddSlot 2 0]).drain = [(0, 100), (1, 101), (2, 102)] ∧
      List.Pairwise (fun a b => a.1 < b.1)
        (runAll LocalLog.empty [AddBatchId 0 2 102, AddBatchId 0 0 100, AddBatchId 0 1 101,
          AddSlot 0 0, AddSlot 1 0, AddSlot 2 0]).drain :=
  ⟨by decide, by decide,
    (LocalLog_join_fifo [AddBatchId 0 2 102, AddBatchId 0 0 100, AddBatchId 0 1 101,
      AddSlot 0 0, AddSlot 1 0, AddSlot 2 0] (by decide) (by decide)).2.1⟩

/-! ## Interleaver: `EmitBatch` and `AdvanceLogs` -/

namespace Interleaver

theorem releaseLoop_eq (batch : Batch) (fuel : Nat) :
    ∀ (transactions buffer : List Transaction), transactions.length ≤ fuel →
      releaseLoop batch fuel transactions buffer =
        ([], transactions.map (mergeBatchEvents batch) ++ buffer) := by
  induction fuel with
  | zero =>
    intro transactions buffer h
    have : transactions = [] := List.length_eq_zero.1 (by omega)
    simp [releaseLoop, this]
  | succ n ih =>
    intro transactions buffer h
    unfold releaseLoop
    cases hl : transactions.getLast? with
    | none =>
      have : transactions = [] := List.getLast?_eq_none_iff.1 hl
      simp [this]
    | some txn =>
      have hsplit : transactions.dropLast ++ [txn] = transactions :=
        List.dropLast_append_getLast? txn hl
      have hlen : transactions.dropLast.length ≤ n := by
        rw [List.length_dropLast]; omega
      simp only
      rw [ih _ _ hlen]
      conv_rhs => rw [← hsplit]
      simp

theorem sendLoop_outbox (cfg : Configuration) :
    ∀ (buffer : List Transaction) (st : Interleaver),
      (sendLoop cfg buffer st).outbox =
        st.outbox ++ buffer.map
          (fun txn => ⟨.forward_txn (txn.record cfg .EXIT_INTERLEAVER), .scheduler, none⟩) := by
  intro buffer
  induction buffer with
  | nil => intro st; simp [sendLoop]
  | cons txn rest ih =>
    intro st
    simp [sendLoop, ih, Send]

theorem sendLoop_frame (cfg : Configuration) :
    ∀ (buffer : List Transaction) (st : Interleaver),
      (sendLoop cfg buffer st).local_log_ = st.local_log_ ∧
        (sendLoop cfg buffer st).single_home_logs_ = st.single_home_logs_ ∧
        (sendLoop cfg buffer st).multi_home_log_ = st.multi_home_log_ := by
  intro buffer
  induction buffer with
  | nil => intro st; simp [sendLoop]
  | cons txn rest ih =>
    intro st
    simp [sendLoop, ih, Send]

theorem payload_relayed (cfg : Configuration) (batch : Batch) (txn : Transaction) :
    ((mergeBatchEvents batch txn).record cfg .EXIT_INTERLEAVER).payload = txn.payload := rfl

/-- C3. `Interleaver::EmitBatch` preserves intra-batch order: for a batch with
transactions `[t1, ..., tn]` it adds exactly `n` sends to the outbox, all
`ForwardTxn` requests to the scheduler channel, the `k`-th carrying `tk` (with the
batch events merged in and `EXIT_INTERLEAVER` recorded, payload unchanged), leaves
the transaction list of the batch empty and the logs untouched. -/
theorem EmitBatch_preserves_order (cfg : Configuration) (st : Interleaver) (batch : Batch) :
    (EmitBatch cfg st batch).1.outbox =
        st.outbox ++ batch.transactions.map (fun txn =>
          ⟨.forward_txn ((mergeBatchEvents batch txn).record cfg .EXIT_INTERLEAVER),
            .scheduler, none⟩) ∧
      (∀ txn, ((mergeBatchEvents batch txn).record cfg .EXIT_INTERLEAVER).payload =
        txn.payload) ∧
      (EmitBatch cfg st batch).2.transactions = [] ∧
      (EmitBatch cfg st batch).1.local_log_ = st.local_log_ ∧
      (EmitBatch cfg st batch).1.single_home_logs_ = st.single_home_logs_ ∧
      (EmitBatch cfg st batch).1.multi_home_log_ = st.multi_home_log_ := by
  have h := releaseLoop_eq batch batch.transactions.length batch.transactions [] (le_refl _)
  refine ⟨?_, fun txn => rfl, ?_, ?_⟩
  · simp only [EmitBatch, h, sendLoop_outbox, List.append_nil, List.map_map]
    rfl
  · simp only [EmitBatch, h]
  · simp only [EmitBatch]
    exact sendLoop_frame cfg _ st

end Interleaver

namespace Interleaver

theorem replicateLoop_spec (cfg : Configuration) (request : Request) (n : Nat) :
    ∀ (rep : Nat) (st : Interleaver),
      (replicateLoop cfg request n rep st).outbox =
          st.outbox ++
            (((List.range' rep n).filter (fun r => decide (r ≠ cfg.local_replica))).map
              (fun r => ⟨request, .interleaver,
                some (cfg.MakeMachineIdNum r cfg.local_partition)⟩)) ∧
        (replicateLoop cfg request n rep st).local_log_ = st.local_log_ ∧
        (replicateLoop cfg request n rep st).single_home_logs_ = st.single_home_logs_ ∧
        (replicateLoop cfg request n rep st).multi_home_log_ = st.multi_home_log_ := by
  induction n with
  | zero => intro rep st; simp [replicateLoop]
  | succ k ih =>
    intro rep st
    unfold replicateLoop
    obtain ⟨h1, h2, h3, h4⟩ := ih (rep + 1)
      (if rep ≠ cfg.local_replica then
        st.Send request .interleaver (some (cfg.MakeMachineIdNum rep cfg.local_partition))
      else st)
    rw [h1, h2, h3, h4]
    by_cases hr : rep = cfg.local_replica
    · simp [hr, List.range'_succ, List.filter_cons]
    · simp [hr, List.range'_succ, List.filter_cons, Send]

theorem replicateOrder_spec (cfg : Configuration) (st : Interleaver) (p : SlotId × BatchId) :
    (replicateOrder cfg st p).outbox = st.outbox ++ batchOrderMessages cfg p ∧
      (replicateOrder cfg st p).local_log_ = st.local_log_ ∧
      (replicateOrder cfg st p).single_home_logs_ =
        onSingleHomeLog st.single_home_logs_ cfg.local_replica (fun l => l.AddSlot p.1 p.2) ∧
      (replicateOrder cfg st p).multi_home_log_ = st.multi_home_log_ := by
  obtain ⟨h1, h2, h3, h4⟩ :=
    replicateLoop_spec cfg (.forward_batch_order p.2 p.1) cfg.num_replicas 0 st
  simp only [replicateOrder, h1, h2, h3, h4, batchOrderMessages, otherReplicas,
    List.range_eq_range', and_self]

theorem advanceLocalLog_spec (cfg : Configuration) (fuel : Nat) :
    ∀ st : Interleaver, st.local_log_.ready_batches_.length ≤ fuel →
      (advanceLocalLog cfg fuel st).outbox =
          st.outbox ++ st.local_log_.ready_batches_.flatMap (batchOrderMessages cfg) ∧
        (advanceLocalLog cfg fuel st).single_home_logs_ =
          recordSlots cfg st.single_home_logs_ st.local_log_.ready_batches_ ∧
        (advanceLocalLog cfg fuel st).local_log_ = { st.local_log_ with ready_batches_ := [] } ∧
        (advanceLocalLog cfg fuel st).multi_home_log_ = st.multi_home_log_ := by
  induction fuel with
  | zero =>
    intro st h
    have hr : st.local_log_.ready_batches_ = [] := List.length_eq_zero.1 (by omega)
    have e : st.local_log_ = { st.local_log_ with ready_batches_ := [] } := by
      cases hl : st.local_log_
      rw [hl] at hr
      simp only at hr
      rw [hr]
    simp only [advanceLocalLog]
    rw [hr]
    exact ⟨by simp, rfl, e, trivial⟩
  | succ n ih =>
    intro st h
    cases hr : st.local_log_.ready_batches_ with
    | nil =>
      have e : st.local_log_ = { st.local_log_ with ready_batches_ := [] } := by
        cases hl : st.local_log_
        rw [hl] at hr
        simp only at hr
        rw [hr]
      simp only [advanceLocalLog, LocalLog.HasNextBatch, hr, List.isEmpty_nil, Bool.not_true,
        Bool.false_eq_true, if_false]
      exact ⟨by simp, rfl, e, trivial⟩
    | cons p rest =>
      have hlen : rest.length ≤ n := by rw [hr] at h; simpa using h
      obtain ⟨g1, g2, g3, g4⟩ := replicateOrder_spec cfg
        { st with local_log_ := { st.local_log_ with ready_batches_ := rest } } p
      have hlen2 : (replicateOrder cfg
          { st with local_log_ := { st.local_log_ with ready_batches_ := rest } }
          p).local_log_.ready_batches_.length ≤ n := by rw [g2]; exact hlen
      obtain ⟨h1, h2, h3, h4⟩ := ih _ hlen2
      simp only [advanceLocalLog, LocalLog.HasNextBatch, LocalLog.NextBatch, hr,
        List.isEmpty_cons, Bool.not_false, if_true, Bool.not_true, Bool.false_eq_true, if_false]
      rw [h1, h2, h3, h4, g1, g2, g3, g4]
      simp [recordSlots, List.flatMap_cons]

theorem emitBatch_outbox (cfg : Configuration) (st : Interleaver) (batch : Batch) :
    toInterleaver (EmitBatch cfg st batch).1.outbox = toInterleaver st.outbox ∧
      (EmitBatch cfg st batch).1.local_log_ = st.local_log_ := by
  have h := releaseLoop_eq batch batch.transactions.length batch.transactions [] (le_refl _)
  refine ⟨?_, ?_⟩
  · simp only [EmitBatch, h, sendLoop_outbox, toInterleaver, List.filter_append]
    simp [List.filter_eq_nil_iff]
  · simp only [EmitBatch]
    exact (sendLoop_frame cfg _ st).1

theorem emitLoop_frame (cfg : Configuration) (fuel : Nat) :
    ∀ (log : BatchLog) (st : Interleaver),
      toInterleaver (emitLoop cfg fuel log st).2.outbox = toInterleaver st.outbox ∧
        (emitLoop cfg fuel log st).2.local_log_ = st.local_log_ := by
  induction fuel with
  | zero => intro log st; simp [emitLoop]
  | succ n ih =>
    intro log st
    unfold emitLoop
    split
    · split
      · rename_i next_batch log1 _
        obtain ⟨h1, h2⟩ := ih log1 (EmitBatch cfg st next_batch.2).1
        obtain ⟨g1, g2⟩ := emitBatch_outbox cfg st next_batch.2
        exact ⟨h1.trans g1, h2.trans g2⟩
      · simp
    · simp

theorem advanceSingleHomeLogs_frame (cfg : Configuration) :
    ∀ (todo done : List (Nat × BatchLog)) (st : Interleaver),
      toInterleaver (advanceSingleHomeLogs cfg todo done st).outbox = toInterleaver st.outbox ∧
        (advanceSingleHomeLogs cfg todo done st).local_log_ = st.local_log_ := by
  intro todo
  induction todo with
  | nil => intro done st; simp [advanceSingleHomeLogs]
  | cons e rest ih =>
    intro done st
    obtain ⟨replica, log⟩ := e
    simp only [advanceSingleHomeLogs]
    obtain ⟨h1, h2⟩ := ih (done ++ [(replica, (emitLoop cfg log.slots_.log.length log st).1)])
      (emitLoop cfg log.slots_.log.length log st).2
    obtain ⟨g1, g2⟩ := emitLoop_frame cfg log.slots_.log.length log st
    exact ⟨h1.trans g1, h2.trans g2⟩

theorem length_otherReplicas (cfg : Configuration) (h : cfg.local_replica < cfg.num_replicas) :
    (otherReplicas cfg).length = cfg.num_replicas - 1 := by
  have hnd : (List.range cfg.num_replicas).Nodup := List.nodup_range _
  have hmem : cfg.local_replica ∈ List.range cfg.num_replicas := List.mem_range.2 h
  have : otherReplicas cfg = (List.range cfg.num_replicas).erase cfg.local_replica := by
    rw [hnd.erase_eq_filter]
    unfold otherReplicas
    apply List.filter_congr
    intro x _
    by_cases hx : x = cfg.local_replica <;> simp [hx]
  rw [this, List.length_erase_of_mem hmem, List.length_range]

end Interleaver

/-! ## Scheduler: pre-dispatch abort and the relay of remote reads -/

namespace Scheduler

variable {LM : Type}

theorem touchHolder_of_some (s : Scheduler LM) (txn_id : TxnId) (h : TransactionHolder)
    (hh : s.all_txns_ txn_id = some h) : s.touchHolder txn_id = s := by
  cases s
  simp only [touchHolder, UMap.touch] at hh ⊢
  rw [hh]

theorem holder_of_some (s : Scheduler LM) (txn_id : TxnId) (h : TransactionHolder)
    (hh : s.all_txns_ txn_id = some h) : s.holder txn_id = h := by
  simp [holder, UMap.getD, hh]

theorem wrapped_pred (n : Nat) (h0 : 0 < n) (h1 : n < 2 ^ 64) :
    (n + (2 ^ 64 - 1)) % 2 ^ 64 = n - 1 := by
  omega

end Scheduler

namespace Scheduler

variable {LM : Type}

theorem TriggerPreDispatchAbort_without_worker (env : Env LM) (s : Scheduler LM)
    (txn_id : TxnId) (ha : s.aborting_txns_ txn_id = false)
    (hw : (s.holder txn_id).worker_ = none) :
    TriggerPreDispatchAbort env s txn_id =
      .error ⟨"Dispatched transactions are handled by the worker", s.outbox⟩ := by
  have hh : (s.touchHolder txn_id).holder txn_id = s.holder txn_id := by
    simp only [holder, touchHolder, UMap.getD, UMap.touch]
    cases h : s.all_txns_ txn_id <;> simp [h, UMap.set]
  simp only [TriggerPreDispatchAbort, ha, Bool.false_eq_true, if_false, hh, hw,
    Option.isSome_none, Bool.not_false, if_true, fatal]
  rfl

/-- C4. What `Scheduler::TriggerPreDispatchAbort(txn_id)` does: it terminates
with "Abort was triggered twice" when `txn_id` is aborting, and otherwise with
"Dispatched transactions are handled by the worker" when the holder of `txn_id`
has NO worker assigned, which is every transaction that has not been dispatched,
one whose body has not arrived included; with a worker assigned and no body it
does not fail and marks `txn_id` aborting. -/
theorem TriggerPreDispatchAbort_check_on_worker (env : Env LM) (s : Scheduler LM)
    (txn_id : TxnId) :
    (s.aborting_txns_ txn_id = true →
      TriggerPreDispatchAbort env s txn_id = .error ⟨"Abort was triggered twice", s.outbox⟩) ∧
    (s.aborting_txns_ txn_id = false → (s.holder txn_id).worker_ = none →
      TriggerPreDispatchAbort env s txn_id =
        .error ⟨"Dispatched transactions are handled by the worker", s.outbox⟩) ∧
    (∀ w, s.aborting_txns_ txn_id = false → (s.holder txn_id).worker_ = some w →
      (s.holder txn_id).txn_ = none →
      TriggerPreDispatchAbort env s txn_id =
        .ok { s.touchHolder txn_id with
          aborting_txns_ := fun t => if t = txn_id then true else s.aborting_txns_ t }) := by
  have hh : (s.touchHolder txn_id).holder txn_id = s.holder txn_id := by
    simp only [holder, touchHolder, UMap.getD, UMap.touch]
    cases h : s.all_txns_ txn_id <;> simp [h, UMap.set]
  refine ⟨?_, ?_, ?_⟩
  · intro ha
    simp only [TriggerPreDispatchAbort, ha, if_true, fatal]
  · intro ha hw
    simp only [TriggerPreDispatchAbort, ha, Bool.false_eq_true, if_false, hh, hw,
      Option.isSome_none, Bool.not_false, if_true, fatal]
    rfl
  · intro w ha hw ht
    simp only [TriggerPreDispatchAbort, ha, Bool.false_eq_true, if_false, hh, hw, ht,
      Option.isSome_some, Option.isSome_none, Bool.not_true]
    rfl

theorem TriggerPreDispatchAbort_check_on_worker_witness :
    TriggerPreDispatchAbort sampleEnv (Scheduler.init ()) 1 =
      .error ⟨"Dispatched transactions are handled by the worker", []⟩ :=
  (TriggerPreDispatchAbort_check_on_worker sampleEnv (Scheduler.init ()) 1).2.1 rfl rfl

/-- C8. What `Scheduler::ProcessRemoteReadResult` does with a message `r`: when
the holder of `r.txn_id` has a body and a worker, `r` is forwarded to that worker
and nothing is buffered; otherwise nothing is sent and `r` is appended to the
early remote reads of the holder (created if absent), after which an aborting
transaction is passed to `MaybeFinishAbort`, and for a transaction that is not
aborting a message without `will_abort` changes nothing more, while a message
with `will_abort` whose holder has no worker terminates the process in the check
of `TriggerPreDispatchAbort`. -/
theorem ProcessRemoteReadResult_relay (env : Env LM) (s : Scheduler LM) (r : RemoteReadResult) :
    (∀ txn w, (s.holder r.txn_id).txn_ = some txn → (s.holder r.txn_id).worker_ = some w →
      ProcessRemoteReadResult env s r =
        .ok ((s.touchHolder r.txn_id).Send (.remote_read_result r) (.worker w) none)) ∧
    (((s.holder r.txn_id).txn_ = none ∨ (s.holder r.txn_id).worker_ = none) →
      (s.aborting_txns_ r.txn_id = true →
        ProcessRemoteReadResult env s r =
          .ok (MaybeFinishAbort env
            (s.setHolder r.txn_id
              { s.holder r.txn_id with
                early_remote_reads_ := (s.holder r.txn_id).early_remote_reads_ ++ [r] })
            r.txn_id)) ∧
      (s.aborting_txns_ r.txn_id = false → r.will_abort = false →
        ProcessRemoteReadResult env s r =
          .ok (s.setHolder r.txn_id
            { s.holder r.txn_id with
              early_remote_reads_ := (s.holder r.txn_id).early_remote_reads_ ++ [r] })) ∧
      (s.aborting_txns_ r.txn_id = false → r.will_abort = true →
        (s.holder r.txn_id).worker_ = none →
        ProcessRemoteReadResult env s r =
          .error ⟨"Dispatched transactions are handled by the worker", s.outbox⟩)) := by
  have hh : (s.touchHolder r.txn_id).holder r.txn_id = s.holder r.txn_id := by
    simp only [holder, touchHolder, UMap.getD, UMap.touch]
    cases h : s.all_txns_ r.txn_id <;> simp [h, UMap.set]
  have hset : ∀ h, (s.touchHolder r.txn_id).setHolder r.txn_id h = s.setHolder r.txn_id h := by
    intro h
    simp only [setHolder, touchHolder, UMap.touch]
    cases hc : s.all_txns_ r.txn_id
    · simp only [UMap.set]
      congr 1
      funext k
      by_cases hk : k = r.txn_id <;> simp [UMap.set, hk]
    · rfl
  have hbuf : ∀ h, ((s.setHolder r.txn_id h).holder r.txn_id) = h := by
    intro h
    simp [holder, setHolder, UMap.getD, UMap.set]
  have hbt : ∀ h, (s.setHolder r.txn_id h).touchHolder r.txn_id = s.setHolder r.txn_id h := by
    intro h
    exact touchHolder_of_some _ _ h (by simp [setHolder, UMap.set])
  refine ⟨?_, ?_⟩
  · intro txn w ht hw
    simp only [ProcessRemoteReadResult, hh, ht, hw]
  · intro hor
    have hunf : ProcessRemoteReadResult env s r =
        if s.aborting_txns_ r.txn_id = true then
          .ok (MaybeFinishAbort env
            (s.setHolder r.txn_id
              { s.holder r.txn_id with
                early_remote_reads_ := (s.holder r.txn_id).early_remote_reads_ ++ [r] })
            r.txn_id)
        else if r.will_abort = true then
          TriggerPreDispatchAbort env
            (s.setHolder r.txn_id
              { s.holder r.txn_id with
                early_remote_reads_ := (s.holder r.txn_id).early_remote_reads_ ++ [r] })
            r.txn_id
        else
          .ok (s.setHolder r.txn_id
            { s.holder r.txn_id with
              early_remote_reads_ := (s.holder r.txn_id).early_remote_reads_ ++ [r] }) := by
      simp only [ProcessRemoteReadResult, hh, hset]
      rcases hor with hn | hn
      · rw [hn]
        cases (s.holder r.txn_id).worker_ <;> rfl
      · rw [hn]
        cases (s.holder r.txn_id).txn_ <;> rfl
    rw [hunf]
    refine ⟨fun ha => by rw [if_pos ha], fun ha hw => ?_, fun ha hw hnw => ?_⟩
    · simp [ha, hw]
    · simp only [ha, hw, Bool.false_eq_true, if_false, if_true]
      have := TriggerPreDispatchAbort_without_worker env
        (s.setHolder r.txn_id
          { s.holder r.txn_id with
            early_remote_reads_ := (s.holder r.txn_id).early_remote_reads_ ++ [r] })
        r.txn_id ha (by rw [hbuf]; exact hnw)
      rw [this]
      rfl

theorem ProcessRemoteReadResult_relay_witness :
    ProcessRemoteReadResult sampleEnv (Scheduler.init ()) ⟨1, 1, true, []⟩ =
      .error ⟨"Dispatched transactions are handled by the worker", []⟩ :=
  ((ProcessRemoteReadResult_relay sampleEnv (Scheduler.init ()) ⟨1, 1, true, []⟩).2
    (Or.inl rfl)).2.2 rfl rfl rfl

end Scheduler

/-! ## Scheduler: a dispatch precedes the remote reads of its transaction -/

theorem DispatchFirst.nil : DispatchFirst [] := by
  intro i r w mid h
  simp at h

theorem DispatchFirst.append_quiet {o extra : List Sent} (h : DispatchFirst o)
    (hx : ∀ m ∈ extra, ∀ w, m.to_channel ≠ .worker w) : DispatchFirst (o ++ extra) := by
  intro i r w mid hi
  by_cases hlt : i < o.length
  · rw [List.getElem?_append_left hlt] at hi
    obtain ⟨j, hj, hjo⟩ := h i r w mid hi
    exact ⟨j, hj, by rw [List.getElem?_append_left (by omega)]; exact hjo⟩
  · rw [List.getElem?_append_right (by omega)] at hi
    have hm := List.getElem?_mem hi
    exact absurd rfl (hx _ hm w)

theorem DispatchFirst.append_dispatch {o : List Sent} (h : DispatchFirst o) (t w : Nat)
    (reads : List RemoteReadResult) (hr : ∀ r ∈ reads, r.txn_id = t) :
    DispatchFirst
      (o ++ (⟨.worker t, .worker w, none⟩ : Sent) ::
        reads.map (fun r => (⟨.remote_read_result r, .worker w, none⟩ : Sent))) := by
  intro i r w' mid hi
  by_cases hlt : i < o.length
  · rw [List.getElem?_append_left hlt] at hi
    obtain ⟨j, hj, hjo⟩ := h i r w' mid hi
    exact ⟨j, hj, by rw [List.getElem?_append_left (by omega)]; exact hjo⟩
  · rw [List.getElem?_append_right (by omega)] at hi
    cases hk : i - o.length with
    | zero =>
      rw [hk] at hi
      simp at hi
    | succ k =>
      rw [hk, List.getElem?_cons_succ] at hi
      have hm := List.getElem?_mem hi
      obtain ⟨r0, hr0, he⟩ := List.mem_map.1 hm
      injection he with he1 he2 he3
      injection he1 with he1
      injection he2 with he2
      subst he1 he2
      refine ⟨o.length, by omega, ?_⟩
      rw [List.getElem?_append_right (le_refl _), Nat.sub_self, hr r0 hr0,
        List.getElem?_cons_zero]

theorem DispatchFirst.append_forward {o : List Sent} (h : DispatchFirst o)
    (r : RemoteReadResult) (w : Nat)
    (hd : (⟨.worker r.txn_id, .worker w, none⟩ : Sent) ∈ o) :
    DispatchFirst (o ++ [(⟨.remote_read_result r, .worker w, none⟩ : Sent)]) := by
  intro i r' w' mid hi
  by_cases hlt : i < o.length
  · rw [List.getElem?_append_left hlt] at hi
    obtain ⟨j, hj, hjo⟩ := h i r' w' mid hi
    exact ⟨j, hj, by rw [List.getElem?_append_left (by omega)]; exact hjo⟩
  · rw [List.getElem?_append_right (by omega)] at hi
    cases hk : i - o.length with
    | zero =>
      rw [hk] at hi
      simp only [List.getElem?_cons_zero, Option.some.injEq] at hi
      injection hi with he1 he2 he3
      injection he1 with he1
      injection he2 with he2
      subst he1 he2
      obtain ⟨j, hj, hjo⟩ := List.getElem_of_mem hd
      refine ⟨j, by omega, ?_⟩
      rw [List.getElem?_append_left hj, List.getElem?_eq_getElem hj, hjo]
    | succ k =>
      rw [hk] at hi
      simp at hi

namespace Scheduler

variable {LM : Type}

theorem Quiet.same (s : Scheduler LM) (s' : Scheduler LM) (ho : s'.outbox = s.outbox)
    (ha : s'.all_txns_ = s.all_txns_) : Quiet s s' := by
  refine ⟨⟨[], by simp [ho], by simp⟩, ?_⟩
  intro t h' ht
  rw [ha] at ht
  exact Or.inr ⟨h', ht, rfl, rfl⟩

theorem Quiet.trans {s1 s2 s3 : Scheduler LM} (h12 : Quiet s1 s2) (h23 : Quiet s2 s3) :
    Quiet s1 s3 := by
  obtain ⟨x1, hx1, hq1⟩ := h12.sent
  obtain ⟨x2, hx2, hq2⟩ := h23.sent
  refine ⟨⟨x1 ++ x2, by rw [hx2, hx1, List.append_assoc], ?_⟩, ?_⟩
  · intro m hm w
    rcases List.mem_append.1 hm with h | h
    · exact hq1 m h w
    · exact hq2 m h w
  · intro t h3 ht
    rcases h23.holders t h3 ht with hp | ⟨h2, e2, a, b⟩
    · exact Or.inl hp
    · rcases h12.holders t h2 e2 with hp | ⟨h1, e1, c, d⟩
      · exact Or.inl ⟨a.trans hp.1, b.trans hp.2⟩
      · exact Or.inr ⟨h1, e1, a.trans c, b.trans d⟩

theorem WorkerInv.quiet {s s' : Scheduler LM} (h : WorkerInv s) (q : Quiet s s') :
    WorkerInv s' := by
  obtain ⟨x, hx, hq⟩ := q.sent
  refine ⟨?_, ?_, ?_⟩
  · rw [hx]; exact h.ordered.append_quiet hq
  · intro t h' w ht hw
    rcases q.holders t h' ht with hp | ⟨h0, e0, a, _⟩
    · rw [hp.1] at hw; cases hw
    · rw [hx]
      exact List.mem_append_left _ (h.assigned t h0 w e0 (a ▸ hw))
  · intro t h' r ht hr
    rcases q.holders t h' ht with hp | ⟨h0, e0, _, b⟩
    · rw [hp.2] at hr; cases hr
    · exact h.buffered t h0 r e0 (b ▸ hr)

/-- A change of `all_txns_` alone that keeps, drops or replaces holders without
touching their worker and buffered reads. -/
theorem Quiet.of_holders (s s' : Scheduler LM) (ho : s'.outbox = s.outbox)
    (hh : ∀ t h', s'.all_txns_ t = some h' →
      h'.worker_ = (s.holder t).worker_ ∧
        h'.early_remote_reads_ = (s.holder t).early_remote_reads_) : Quiet s s' := by
  refine ⟨⟨[], by simp [ho], by simp⟩, ?_⟩
  intro t h' ht
  obtain ⟨a, b⟩ := hh t h' ht
  cases h0 : s.all_txns_ t with
  | none =>
    have e : s.holder t = TransactionHolder.empty := by simp [holder, UMap.getD, h0]
    rw [e] at a b
    exact Or.inl ⟨a, b⟩
  | some v =>
    have e : s.holder t = v := by simp [holder, UMap.getD, h0]
    rw [e] at a b
    exact Or.inr ⟨v, rfl, a, b⟩

theorem Quiet.send (s : Scheduler LM) (req : Request) (ch : Channel) (mid : Option Nat)
    (hch : ∀ w, ch ≠ .worker w) : Quiet s (s.Send req ch mid) := by
  refine ⟨⟨[⟨req, ch, mid⟩], rfl, ?_⟩, ?_⟩
  · intro m hm w
    rw [List.mem_singleton] at hm
    subst hm
    exact hch w
  · intro t h' ht
    exact Or.inr ⟨h', ht, rfl, rfl⟩

theorem holder_touchHolder (s : Scheduler LM) (t u : TxnId) :
    (s.touchHolder t).holder u = s.holder u := by
  simp only [holder, touchHolder, UMap.getD, UMap.touch]
  cases h : s.all_txns_ t with
  | some v => rfl
  | none =>
    simp only [UMap.set]
    by_cases hu : u = t
    · subst hu; simp [h, TransactionHolder.empty]
    · simp [hu]

theorem touchHolder_lookup (s : Scheduler LM) (t : TxnId) :
    (s.touchHolder t).all_txns_ t = some (s.holder t) := by
  simp only [holder, touchHolder, UMap.getD, UMap.touch]
  cases h : s.all_txns_ t with
  | some v => simp [h]
  | none => simp [UMap.set]

theorem Quiet.touch (s : Scheduler LM) (t : TxnId) : Quiet s (s.touchHolder t) := by
  refine Quiet.of_holders s (s.touchHolder t) rfl ?_
  intro u h' hu
  have : (s.touchHolder t).holder u = h' := by simp [holder, UMap.getD, hu]
  rw [← this, holder_touchHolder]
  exact ⟨rfl, rfl⟩

theorem Quiet.setHolder (s : Scheduler LM) (t : TxnId) (h : TransactionHolder)
    (hw : h.worker_ = (s.holder t).worker_)
    (he : h.early_remote_reads_ = (s.holder t).early_remote_reads_) :
    Quiet s (s.setHolder t h) := by
  refine Quiet.of_holders s (s.setHolder t h) rfl ?_
  intro u h' hu
  simp only [Scheduler.setHolder, UMap.set] at hu
  by_cases e : u = t
  · subst e
    rw [if_pos rfl] at hu
    cases hu
    exact ⟨hw, he⟩
  · rw [if_neg e] at hu
    simp [holder, UMap.getD, hu]

theorem Quiet.erase (s s' : Scheduler LM) (t : TxnId) (ho : s'.outbox = s.outbox)
    (ha : s'.all_txns_ = s.all_txns_.erase t) : Quiet s s' := by
  refine Quiet.of_holders s s' ho ?_
  intro u h' hu
  rw [ha] at hu
  simp only [UMap.erase] at hu
  by_cases e : u = t
  · rw [if_pos e] at hu; cases hu
  · rw [if_neg e] at hu
    simp [holder, UMap.getD, hu]

end Scheduler

namespace Scheduler

variable {LM : Type}

theorem sendEarlyReads_eq (ch : Channel) :
    ∀ (reads : List RemoteReadResult) (s : Scheduler LM),
      sendEarlyReads ch reads s =
        { s with
          outbox := s.outbox ++ reads.map (fun r => ⟨.remote_read_result r, ch, none⟩) } := by
  intro reads
  induction reads with
  | nil => intro s; simp [sendEarlyReads]
  | cons r rest ih =>
    intro s
    simp [sendEarlyReads, ih, Send]

theorem DispatchTransaction_ok (env : Env LM) (s : Scheduler LM) (u : TxnId)
    (h : TransactionHolder) (txn : Transaction) (hu : s.all_txns_ u = some h)
    (ht : h.txn_ = some txn) (hw : env.config.num_workers ≠ 0) :
    DispatchTransaction env s u = .ok (dispatched env s u h txn) := by
  have hg := holder_of_some s u h hu
  simp only [DispatchTransaction, UMap.contains, hu, Option.isSome_some, Bool.not_true,
    Bool.false_eq_true, if_false, hg, ht, SelectWorkerForTxn, hw, sendEarlyReads_eq, dispatched,
    setHolder, Send]
  split <;> simp

theorem DispatchTransaction_no_worker (env : Env LM) (s : Scheduler LM) (u : TxnId)
    (h : TransactionHolder) (txn : Transaction) (hu : s.all_txns_ u = some h)
    (ht : h.txn_ = some txn) (hw : env.config.num_workers = 0) :
    DispatchTransaction env s u =
      .error ⟨"division by zero in SelectWorkerForTxn", s.outbox⟩ := by
  have hg := holder_of_some s u h hu
  simp only [DispatchTransaction, UMap.contains, hu, Option.isSome_some, Bool.not_true,
    Bool.false_eq_true, if_false, hg, ht, SelectWorkerForTxn, hw, if_true, fatal]
  split <;> rfl

theorem DispatchTransaction_fatal (env : Env LM) (s : Scheduler LM) (u : TxnId)
    (hu : ∀ h txn, s.all_txns_ u = some h → h.txn_ ≠ some txn) :
    ∃ d, DispatchTransaction env s u = .error ⟨d, s.outbox⟩ := by
  cases hc : s.all_txns_ u with
  | none =>
    exact ⟨"Txn not in all_txns_", by simp [DispatchTransaction, UMap.contains, hc, fatal]⟩
  | some h =>
    have hg := holder_of_some s u h hc
    cases ht : h.txn_ with
    | some txn => exact absurd ht (hu h txn hc)
    | none =>
      exact ⟨"null transaction dereferenced in DispatchTransaction",
        by simp [DispatchTransaction, UMap.contains, hc, hg, ht, fatal]⟩

theorem WorkerInv.of_dispatched (env : Env LM) {s : Scheduler LM} (hi : WorkerInv s) (u : TxnId)
    (h : TransactionHolder) (txn : Transaction) (hu : s.all_txns_ u = some h) :
    WorkerInv (dispatched env s u h txn) := by
  refine ⟨?_, ?_, ?_⟩
  · simp only [Scheduler.dispatched]
    apply hi.ordered.append_dispatch
    intro r hr
    exact hi.buffered u h r hu (List.mem_reverse.1 hr)
  · intro t h' w ht hw
    simp only [Scheduler.dispatched, UMap.set] at ht ⊢
    by_cases e : t = u
    · subst e
      rw [if_pos rfl] at ht
      cases ht
      simp only at hw
      cases hw
      simp
    · rw [if_neg e] at ht
      exact List.mem_append_left _ (hi.assigned t h' w ht hw)
  · intro t h' r ht hr
    simp only [Scheduler.dispatched, UMap.set] at ht
    by_cases e : t = u
    · subst e
      rw [if_pos rfl] at ht
      cases ht
      simp at hr
    · rw [if_neg e] at ht
      exact hi.buffered t h' r ht hr

theorem Good.dispatch (env : Env LM) {s : Scheduler LM} (hi : WorkerInv s) (u : TxnId) :
    Good (DispatchTransaction env s u) := by
  cases hc : s.all_txns_ u with
  | none =>
    obtain ⟨d, hd⟩ := DispatchTransaction_fatal env s u (by intro h txn hh; rw [hc] at hh; cases hh)
    rw [hd]; exact hi.ordered
  | some h =>
    cases ht : h.txn_ with
    | none =>
      obtain ⟨d, hd⟩ := DispatchTransaction_fatal env s u
        (by intro h' txn hh; rw [hc] at hh; cases hh; rw [ht]; simp)
      rw [hd]; exact hi.ordered
    | some txn =>
      by_cases hw : env.config.num_workers = 0
      · rw [DispatchTransaction_no_worker env s u h txn hc ht hw]
        exact hi.ordered
      · rw [DispatchTransaction_ok env s u h txn hc ht hw]
        exact hi.of_dispatched env u h txn hc

theorem Good.dispatchAll_ordered (env : Env LM) (us : List TxnId) :
    ∀ s : Scheduler LM, WorkerInv s → Good (dispatchAll env us s) := by
  induction us with
  | nil => intro s hi; exact hi
  | cons u rest ih =>
    intro s hi
    have hg := Good.dispatch env hi u
    simp only [Scheduler.dispatchAll]
    cases hd : DispatchTransaction env s u with
    | ok s1 => rw [hd] at hg; exact ih s1 hg
    | error e => rw [hd] at hg; exact hg

/-- The outcome of a function that is quiet when it returns and has sent nothing
when it terminates the process. -/
theorem Good.of_quiet {s : Scheduler LM} (hi : WorkerInv s) (r : Except Fatal (Scheduler LM))
    (hok : ∀ s', r = .ok s' → Quiet s s') (herr : ∀ e, r = .error e → e.sent = s.outbox) :
    Good r := by
  cases r with
  | ok s' => exact hi.quiet (hok s' rfl)
  | error e => show DispatchFirst e.sent; rw [herr e rfl]; exact hi.ordered

theorem Quiet.then_touch {s s1 : Scheduler LM} (q : Quiet s s1) (t : TxnId) :
    Quiet s (s1.touchHolder t) := q.trans (Quiet.touch s1 t)

theorem Quiet.then_send {s s1 : Scheduler LM} (q : Quiet s s1) (req : Request) (ch : Channel)
    (mid : Option Nat) (hch : ∀ w, ch ≠ .worker w) : Quiet s (s1.Send req ch mid) :=
  q.trans (Quiet.send s1 req ch mid hch)

theorem Quiet.then_setHolder {s s1 : Scheduler LM} (q : Quiet s s1) (t : TxnId)
    (h : TransactionHolder) (hw : h.worker_ = (s1.holder t).worker_)
    (he : h.early_remote_reads_ = (s1.holder t).early_remote_reads_) :
    Quiet s (s1.setHolder t h) := q.trans (Quiet.setHolder s1 t h hw he)

theorem Quiet.then_same {s s1 : Scheduler LM} (q : Quiet s s1) (s' : Scheduler LM)
    (ho : s'.outbox = s1.outbox) (ha : s'.all_txns_ = s1.all_txns_) : Quiet s s' :=
  q.trans (Quiet.same s1 s' ho ha)

theorem Quiet.then_erase {s s1 : Scheduler LM} (q : Quiet s s1) (s' : Scheduler LM) (t : TxnId)
    (ho : s'.outbox = s1.outbox) (ha : s'.all_txns_ = s1.all_txns_.erase t) : Quiet s s' :=
  q.trans (Quiet.erase s1 s' t ho ha)

theorem Quiet.here (s : Scheduler LM) : Quiet s s := Quiet.same s s rfl rfl

theorem SendToCoordinatingServer_quiet (env : Env LM) {s0 s : Scheduler LM} (q : Quiet s0 s)
    (t : TxnId) :
    (∀ s', SendToCoordinatingServer env s t = .ok s' → Quiet s0 s') ∧
      (∀ e, SendToCoordinatingServer env s t = .error e → e.sent = s.outbox) := by
  unfold SendToCoordinatingServer
  dsimp only
  cases ht : ((s.touchHolder t).holder t).txn_ with
  | none =>
    dsimp only [fatal]
    constructor
    · intro s' h; cases h
    · intro e h; cases h; rfl
  | some txn =>
    dsimp only
    constructor
    · intro s' h
      cases h
      apply Quiet.then_setHolder
      · apply Quiet.then_send
        · exact q.then_touch t
        · intro w; simp
      · rfl
      · rfl
    · intro e h; cases h

theorem sendAbortLoop_quiet (env : Env LM) (request : Request) :
    ∀ (ps : List Nat) {s0 s : Scheduler LM}, Quiet s0 s →
      Quiet s0 (sendAbortLoop env request ps s) := by
  intro ps
  induction ps with
  | nil => intro s0 s q; exact q
  | cons p rest ih =>
    intro s0 s q
    simp only [sendAbortLoop]
    apply ih
    split
    · exact q.then_send _ _ _ (by intro w; simp)
    · exact q

theorem SendAbortToPartitions_quiet (env : Env LM) {s0 s : Scheduler LM} (q : Quiet s0 s)
    (t : TxnId) : Quiet s0 (SendAbortToPartitions env s t) :=
  sendAbortLoop_quiet env _ _ (q.then_touch t)

theorem finishAbort_quiet {s0 s : Scheduler LM} (q : Quiet s0 s) (t : TxnId)
    (ty : TransactionType) : Quiet s0 (finishAbort s t ty) := by
  unfold finishAbort
  split
  · split
    · exact q
    · exact q.then_erase _ t rfl rfl
  · exact q.then_erase _ t rfl rfl

theorem MaybeFinishAbort_quiet (env : Env LM) {s0 s : Scheduler LM} (q : Quiet s0 s)
    (t : TxnId) : Quiet s0 (MaybeFinishAbort env s t) := by
  unfold MaybeFinishAbort
  dsimp only
  cases ht : ((s.touchHolder t).holder t).txn_ with
  | none => exact q.then_touch t
  | some txn =>
    dsimp only
    split
    · exact q.then_touch t
    · exact finishAbort_quiet (q.then_touch t) _ _

theorem collectLoop_quiet (t : TxnId) :
    ∀ (rs : List Nat) {s0 s : Scheduler LM}, Quiet s0 s → Quiet s0 (collectLoop t rs s) := by
  intro rs
  induction rs with
  | nil => intro s0 s q; exact q
  | cons r rest ih =>
    intro s0 s q
    simp only [collectLoop]
    apply ih
    split
    · exact q.then_same _ rfl rfl
    · exact q

theorem CollectLockOnlyTransactionsForAbort_quiet {s0 s : Scheduler LM} (q : Quiet s0 s)
    (t : TxnId) : Quiet s0 (CollectLockOnlyTransactionsForAbort s t) := by
  unfold CollectLockOnlyTransactionsForAbort
  exact collectLoop_quiet t _ ((q.then_touch t).then_same _ rfl rfl)

theorem AcceptTransaction_quiet (env : Env LM) {s0 s : Scheduler LM} (q : Quiet s0 s)
    (txn : Transaction) : Quiet s0 (AcceptTransaction env s txn).1 := by
  unfold AcceptTransaction
  split
  · dsimp only
    split
    · exact (q.then_touch _).then_erase _ _ rfl rfl
    · exact (q.then_touch _).then_setHolder _ _ rfl rfl
  · dsimp only
    split
    · exact (q.then_touch _).then_erase _ _ rfl rfl
    · exact (q.then_touch _).then_setHolder _ _ rfl rfl
  · dsimp only
    split
    · exact q.then_same _ rfl rfl
    · exact q.then_same _ rfl rfl
  · exact q

theorem MaybeContinuePreDispatchAbortLockOnly_quiet (env : Env LM) {s0 s : Scheduler LM}
    (q : Quiet s0 s) (p : TxnId × Nat) :
    Quiet s0 (MaybeContinuePreDispatchAbortLockOnly env s p).1 := by
  unfold MaybeContinuePreDispatchAbortLockOnly
  dsimp only
  split
  · exact q
  · apply MaybeFinishAbort_quiet
    exact q.then_same _ rfl rfl

end Scheduler

namespace Scheduler

variable {LM : Type}

theorem GoodWith.MaybeContinuePreDispatchAbort (env : Env LM) {s : Scheduler LM}
    (hi : WorkerInv s) (t : TxnId) : GoodWith (MaybeContinuePreDispatchAbort env s t) := by
  unfold Scheduler.MaybeContinuePreDispatchAbort
  dsimp only
  split
  · exact hi
  · cases ht : ((s.touchHolder t).holder t).txn_ with
    | none => exact hi.ordered
    | some txn =>
      dsimp only
      have q2 : Quiet s ((s.touchHolder t).setHolder t
          { (s.touchHolder t).holder t with txn_ := some { txn with status := .ABORTED } }) :=
        ((Quiet.here s).then_touch t).then_setHolder _ _ rfl rfl
      obtain ⟨hok, herr⟩ := SendToCoordinatingServer_quiet env q2 t
      split
      · rename_i e he
        have := herr e he
        show DispatchFirst e.sent
        rw [this]
        exact (hi.quiet q2).ordered
      · rename_i s3 he
        have q3 := hok s3 he
        have q4 : Quiet s (if (s3.holder t).involved_partitions_.length > 1 then
            SendAbortToPartitions env s3 t else s3) := by
          split
          · exact SendAbortToPartitions_quiet env q3 t
          · exact q3
        have hd := Good.dispatchAll_ordered env
          (env.lock_manager.ReleaseLocks
            ((if (s3.holder t).involved_partitions_.length > 1 then
              SendAbortToPartitions env s3 t else s3).touchHolder t).lock_manager_
            (((if (s3.holder t).involved_partitions_.length > 1 then
              SendAbortToPartitions env s3 t else s3).touchHolder t).holder t)).2
          _ (hi.quiet ((q4.then_touch t).then_same
            { (if (s3.holder t).involved_partitions_.length > 1 then
                SendAbortToPartitions env s3 t else s3).touchHolder t with
              lock_manager_ :=
                (env.lock_manager.ReleaseLocks
                  ((if (s3.holder t).involved_partitions_.length > 1 then
                    SendAbortToPartitions env s3 t else s3).touchHolder t).lock_manager_
                  (((if (s3.holder t).involved_partitions_.length > 1 then
                    SendAbortToPartitions env s3 t else s3).touchHolder t).holder t)).1 }
            rfl rfl))
        split
        · rename_i e he2
          rw [he2] at hd
          exact hd
        · rename_i s7 he2
          rw [he2] at hd
          show WorkerInv _
          apply hd.quiet
          apply MaybeFinishAbort_quiet
          split
          · exact CollectLockOnlyTransactionsForAbort_quiet (Quiet.here s7) t
          · exact Quiet.here s7

theorem Good.TriggerPreDispatchAbort (env : Env LM) {s : Scheduler LM} (hi : WorkerInv s)
    (t : TxnId) : Good (TriggerPreDispatchAbort env s t) := by
  unfold Scheduler.TriggerPreDispatchAbort
  dsimp only
  split
  · exact hi.ordered
  · split
    · exact hi.ordered
    · have hi2 : WorkerInv
          { s.touchHolder t with
            aborting_txns_ := fun u => if u = t then true else (s.touchHolder t).aborting_txns_ u } :=
        hi.quiet (((Quiet.here s).then_touch t).then_same _ rfl rfl)
      split
      · have hg := GoodWith.MaybeContinuePreDispatchAbort env hi2 t
        split
        · rename_i r he
          rw [he] at hg
          exact hg
        · rename_i e he
          rw [he] at hg
          exact hg
      · exact hi2

theorem Good.ProcessRemoteReadResult (env : Env LM) {s : Scheduler LM} (hi : WorkerInv s)
    (r : RemoteReadResult) : Good (ProcessRemoteReadResult env s r) := by
  unfold Scheduler.ProcessRemoteReadResult
  dsimp only
  have hi1 : WorkerInv (s.touchHolder r.txn_id) := hi.quiet (Quiet.touch s r.txn_id)
  split
  · rename_i txn w htx hw
    refine ⟨?_, ?_, ?_⟩
    · exact hi1.ordered.append_forward r w
        (hi1.assigned r.txn_id _ w (touchHolder_lookup s r.txn_id)
          (by rw [← holder_touchHolder s r.txn_id r.txn_id]; exact hw))
    · intro u h' w' hu hw'
      exact List.mem_append_left _ (hi1.assigned u h' w' hu hw')
    · exact hi1.buffered
  · have hi2 : WorkerInv ((s.touchHolder r.txn_id).setHolder r.txn_id
        { (s.touchHolder r.txn_id).holder r.txn_id with
          early_remote_reads_ :=
            ((s.touchHolder r.txn_id).holder r.txn_id).early_remote_reads_ ++ [r] }) := by
      refine ⟨hi1.ordered, ?_, ?_⟩
      · intro u h' w hu hw
        simp only [setHolder, UMap.set] at hu
        by_cases e : u = r.txn_id
        · rw [if_pos e] at hu
          cases hu
          subst e
          exact hi1.assigned r.txn_id _ w (touchHolder_lookup s r.txn_id)
            (by rw [← holder_touchHolder s r.txn_id r.txn_id]; exact hw)
        · rw [if_neg e] at hu
          exact hi1.assigned u h' w hu hw
      · intro u h' r' hu hr'
        simp only [setHolder, UMap.set] at hu
        by_cases e : u = r.txn_id
        · rw [if_pos e] at hu
          cases hu
          subst e
          rcases List.mem_append.1 hr' with hm | hm
          · exact hi1.buffered _ _ r' (touchHolder_lookup s r.txn_id)
              (by rw [← holder_touchHolder s r.txn_id r.txn_id]; exact hm)
          · rw [List.mem_singleton] at hm
            rw [hm]
        · rw [if_neg e] at hu
          exact hi1.buffered u h' r' hu hr'
    split
    · exact hi2.quiet (MaybeFinishAbort_quiet env (Quiet.here _) _)
    · split
      · exact Good.TriggerPreDispatchAbort env hi2 _
      · exact hi2

end Scheduler

namespace Scheduler

variable {LM : Type}

theorem Quiet.then_assign {s0 s : Scheduler LM} (q : Quiet s0 s) (ref : HolderRef)
    (h : TransactionHolder) (hw : h.worker_ = (s.deref ref).worker_)
    (he : h.early_remote_reads_ = (s.deref ref).early_remote_reads_) :
    Quiet s0 (s.assign ref h) := by
  cases ref with
  | main t => exact q.then_setHolder t h hw he
  | lock_only p => exact q.then_same _ rfl rfl

theorem Good.AcquireLocksAndProcessResult (env : Env LM) {s : Scheduler LM} (hi : WorkerInv s)
    (ref : HolderRef) : Good (AcquireLocksAndProcessResult env s ref) := by
  unfold Scheduler.AcquireLocksAndProcessResult
  dsimp only
  split
  · exact hi.ordered
  · have hi1 : WorkerInv
        { s with
          lock_manager_ := (env.lock_manager.AcquireLocks s.lock_manager_ (s.deref ref)).1 } :=
      hi.quiet (Quiet.same s _ rfl rfl)
    split
    · exact Good.dispatch env hi1 _
    · exact Good.TriggerPreDispatchAbort env hi1 _
    · exact hi1

theorem Good.SendToLockManager (env : Env LM) {s : Scheduler LM} (hi : WorkerInv s)
    (ref : HolderRef) : Good (SendToLockManager env s ref) := by
  unfold Scheduler.SendToLockManager
  dsimp only
  split
  · exact hi.ordered
  · split
    · refine Good.AcquireLocksAndProcessResult env ?_ ref
      exact hi.quiet (Quiet.same s _ rfl rfl)
    · split
      · apply Good.dispatch
        apply hi.quiet
        apply Quiet.then_assign
        · exact Quiet.same s _ rfl rfl
        · rfl
        · rfl
      · exact hi.quiet (Quiet.same s _ rfl rfl)
    · exact Good.AcquireLocksAndProcessResult env hi ref
    · exact hi

theorem GoodWith.MaybeAbortRemasterTransaction (env : Env LM) {s : Scheduler LM}
    (hi : WorkerInv s) (txn : Transaction) :
    GoodWith (MaybeAbortRemasterTransaction env s txn) := by
  unfold Scheduler.MaybeAbortRemasterTransaction
  dsimp only
  split
  · exact hi.ordered
  · split
    · have hg := Good.TriggerPreDispatchAbort env hi txn.internal.id
      split
      · rename_i s1 he
        rw [he] at hg
        exact hg
      · rename_i e he
        rw [he] at hg
        exact hg
    · exact hi

theorem Good.ProcessTransaction (env : Env LM) {s : Scheduler LM} (hi : WorkerInv s)
    (txn : Transaction) : Good (ProcessTransaction env s txn) := by
  unfold Scheduler.ProcessTransaction
  dsimp only
  have hi1 : WorkerInv (AcceptTransaction env s (txn.record env.config .ENTER_SCHEDULER)).1 :=
    hi.quiet (AcceptTransaction_quiet env (Quiet.here s) _)
  split
  · exact hi1
  · split
    · have hg := GoodWith.MaybeContinuePreDispatchAbort env hi1
        (txn.record env.config .ENTER_SCHEDULER).internal.id
      split
      · rename_i e he
        rw [he] at hg
        exact hg
      · rename_i s2 he
        rw [he] at hg
        exact hg
      · rename_i s2 he
        rw [he] at hg
        exact Good.SendToLockManager env (hg.quiet (Quiet.touch _ _)) _
    · have q := MaybeContinuePreDispatchAbortLockOnly_quiet env (Quiet.here
        (AcceptTransaction env s (txn.record env.config .ENTER_SCHEDULER)).1)
        ((txn.record env.config .ENTER_SCHEDULER).internal.id,
          env.lockOnlyReplica (txn.record env.config .ENTER_SCHEDULER))
      split
      · rename_i s2 he
        rw [he] at q
        exact hi1.quiet q
      · rename_i s2 he
        rw [he] at q
        refine Good.SendToLockManager env ?_ _
        exact (hi1.quiet q).quiet (Quiet.same _ _ rfl rfl)
    · have hi2 := hi1.quiet (Quiet.touch
        (AcceptTransaction env s (txn.record env.config .ENTER_SCHEDULER)).1
        (txn.record env.config .ENTER_SCHEDULER).internal.id)
      split
      · have hg := GoodWith.MaybeContinuePreDispatchAbort env hi2
          (txn.record env.config .ENTER_SCHEDULER).internal.id
        split
        · rename_i e he
          rw [he] at hg
          exact hg
        · rename_i r he
          rw [he] at hg
          exact hg
      · split
        · have hg := GoodWith.MaybeAbortRemasterTransaction env hi2
            (txn.record env.config .ENTER_SCHEDULER)
          split
          · rename_i e he
            rw [he] at hg
            exact hg
          · rename_i s2 he
            rw [he] at hg
            exact hg
          · rename_i s2 he
            rw [he] at hg
            exact Good.SendToLockManager env hg _
        · exact Good.SendToLockManager env hi2 _
    · exact hi1

theorem Good.completeTxn (env : Env LM) {s : Scheduler LM} (hi : WorkerInv s) (t : TxnId) :
    Good (completeTxn env s t) := by
  unfold Scheduler.completeTxn
  obtain ⟨hok, herr⟩ := SendToCoordinatingServer_quiet env (Quiet.here s) t
  split
  · rename_i s1 he
    exact hi.quiet ((hok s1 he).then_erase _ t rfl rfl)
  · rename_i e he
    show DispatchFirst e.sent
    rw [herr e he]
    exact hi.ordered

theorem Good.HandleInternalResponse (env : Env LM) {s : Scheduler LM} (hi : WorkerInv s)
    (t : TxnId) : Good (HandleInternalResponse env s t) := by
  unfold Scheduler.HandleInternalResponse
  dsimp only
  have hd := Good.dispatchAll_ordered env
    (env.lock_manager.ReleaseLocks (s.touchHolder t).lock_manager_
      ((s.touchHolder t).holder t)).2
    { s.touchHolder t with
      lock_manager_ :=
        (env.lock_manager.ReleaseLocks (s.touchHolder t).lock_manager_
          ((s.touchHolder t).holder t)).1 }
    (hi.quiet ((Quiet.touch s t).then_same _ rfl rfl))
  split
  · rename_i e he
    rw [he] at hd
    exact hd
  · rename_i s1 he
    rw [he] at hd
    split
    · exact hd.ordered
    · refine Good.completeTxn env ?_ t
      exact hd.quiet (Quiet.setHolder s1 t _ rfl rfl)

theorem Good.step_ordered (env : Env LM) {s : Scheduler LM} (hi : WorkerInv s) (e : SchedulerStep) :
    Good (step env s e) := by
  cases e with
  | ProcessTransaction txn => exact Good.ProcessTransaction env hi txn
  | ProcessRemoteReadResult r => exact Good.ProcessRemoteReadResult env hi r
  | WorkerReply t => exact Good.HandleInternalResponse env hi t

theorem Good.steps (env : Env LM) (es : List SchedulerStep) :
    ∀ s : Scheduler LM, WorkerInv s → Good (steps env es s) := by
  induction es with
  | nil => intro s hi; exact hi
  | cons e rest ih =>
    intro s hi
    have hg := Good.step_ordered env hi e
    simp only [Scheduler.steps]
    cases hd : Scheduler.step env s e with
    | ok s1 => rw [hd] at hg; exact ih s1 hg
    | error f => rw [hd] at hg; exact hg

theorem WorkerInv.init (lm : LM) : WorkerInv (Scheduler.init lm) := by
  refine ⟨DispatchFirst.nil, ?_, ?_⟩
  · intro t h w ht; simp [Scheduler.init, UMap.empty] at ht
  · intro t h r ht; simp [Scheduler.init, UMap.empty] at ht

/-- C7. Early-read ordering: in the messages sent by any sequence of scheduler
steps (`ProcessTransaction`, `ProcessRemoteReadResult`, worker replies) from a
fresh scheduler, whether the run ends or terminates the process, every
`RemoteReadResult` sent to a worker channel comes after a dispatch message for
the same transaction on the same worker channel; and `DispatchTransaction` on a
holder with a body, when there is a worker (`0 < num_workers`), sends the
dispatch message first, then exactly the buffered early reads (the last
buffered first), all to worker `txn_id mod num_workers`, one of the workers, and
leaves the holder with that worker and no early read; with no worker it
terminates the process (a division by zero) having sent nothing. -/
theorem early_read_ordering (env : Env LM) (lm : LM) (es : List SchedulerStep) :
    DispatchFirst (sentBy (steps env es (Scheduler.init lm))) ∧
      ∀ (s : Scheduler LM) (txn_id : TxnId) (h : TransactionHolder) (txn : Transaction),
        s.all_txns_ txn_id = some h → h.txn_ = some txn →
          (0 < env.config.num_workers →
            ∃ s', DispatchTransaction env s txn_id = .ok s' ∧
              s'.outbox =
                s.outbox ++
                  ⟨.worker txn_id, .worker (txn_id % env.config.num_workers), none⟩ ::
                    h.early_remote_reads_.reverse.map (fun r =>
                      ⟨.remote_read_result r, .worker (txn_id % env.config.num_workers),
                        none⟩) ∧
              (s'.holder txn_id).early_remote_reads_ = [] ∧
              (s'.holder txn_id).worker_ = some (txn_id % env.config.num_workers) ∧
              txn_id % env.config.num_workers < env.config.num_workers) ∧
            (env.config.num_workers = 0 →
              ∃ diagnostic, DispatchTransaction env s txn_id = .error ⟨diagnostic, s.outbox⟩) := by
  constructor
  · have hg := Good.steps env es (Scheduler.init lm) (WorkerInv.init lm)
    cases hr : steps env es (Scheduler.init lm) with
    | ok s => rw [hr] at hg; exact hg.ordered
    | error e => rw [hr] at hg; exact hg
  · intro s txn_id h txn hh ht
    constructor
    · intro hw
      refine ⟨dispatched env s txn_id h txn,
        DispatchTransaction_ok env s txn_id h txn hh ht (by omega), rfl, ?_, ?_,
        Nat.mod_lt _ hw⟩ <;> simp [dispatched, holder, UMap.getD, UMap.set]
    · intro hw
      exact ⟨_, DispatchTransaction_no_worker env s txn_id h txn hh ht hw⟩

theorem early_read_ordering_witness :
    0 < sampleEnv.config.num_workers ∧
      ∃ s', DispatchTransaction sampleEnv
          ((Scheduler.init ()).setHolder 3
            { sampleHolder 3 .SINGLE_HOME with
              early_remote_reads_ := [⟨3, 1, false, [("a", "1")]⟩, ⟨3, 1, false, [("b", "2")]⟩] })
          3 = .ok s' ∧
        s'.outbox =
          [] ++ (⟨.worker 3, .worker (3 % sampleEnv.config.num_workers), none⟩ : Sent) ::
            ([⟨3, 1, false, [("a", "1")]⟩, ⟨3, 1, false, [("b", "2")]⟩] :
              List RemoteReadResult).reverse.map (fun r =>
                (⟨.remote_read_result r, .worker (3 % sampleEnv.config.num_workers), none⟩ :
                  Sent)) ∧
        (s'.holder 3).early_remote_reads_ = [] ∧
        (s'.holder 3).worker_ = some (3 % sampleEnv.config.num_workers) ∧
        3 % sampleEnv.config.num_workers < sampleEnv.config.num_workers :=
  ⟨by decide,
    ((early_read_ordering sampleEnv () []).2
      ((Scheduler.init ()).setHolder 3
        { sampleHolder 3 .SINGLE_HOME with
          early_remote_reads_ := [⟨3, 1, false, [("a", "1")]⟩, ⟨3, 1, false, [("b", "2")]⟩] })
      3 _ (sampleTxn 3 .SINGLE_HOME 0) rfl rfl).1 (by decide)⟩

end Scheduler

/-! ## Scheduler: the worker reply -/

namespace Scheduler

variable {LM : Type}

theorem DispatchTransaction_ok_inv (env : Env LM) (s s' : Scheduler LM) (u : TxnId)
    (hd : DispatchTransaction env s u = .ok s') :
    ∃ h txn, s.all_txns_ u = some h ∧ h.txn_ = some txn ∧ s' = dispatched env s u h txn := by
  cases hc : s.all_txns_ u with
  | none =>
    obtain ⟨d, he⟩ := DispatchTransaction_fatal env s u
      (by intro h txn hh; rw [hc] at hh; cases hh)
    rw [he] at hd
    cases hd
  | some h =>
    cases ht : h.txn_ with
    | none =>
      obtain ⟨d, he⟩ := DispatchTransaction_fatal env s u
        (by intro h' txn hh; rw [hc] at hh; cases hh; rw [ht]; simp)
      rw [he] at hd
      cases hd
    | some txn =>
      by_cases hw : env.config.num_workers = 0
      · rw [DispatchTransaction_no_worker env s u h txn hc ht hw] at hd
        cases hd
      · rw [DispatchTransaction_ok env s u h txn hc ht hw] at hd
        cases hd
        exact ⟨h, txn, rfl, ht, rfl⟩

theorem Kept.refl_kept (s : Scheduler LM) : Kept s s :=
  ⟨fun _ h => h, fun _ h txn hh ht => ⟨h, txn, hh, ht, rfl, rfl⟩⟩

theorem Kept.trans_kept {s1 s2 s3 : Scheduler LM} (a : Kept s1 s2) (b : Kept s2 s3) : Kept s1 s3 := by
  refine ⟨fun t h => b.absent t (a.absent t h), ?_⟩
  intro t h txn hh ht
  obtain ⟨h2, txn2, e2, t2, p2, i2⟩ := a.present t h txn hh ht
  obtain ⟨h3, txn3, e3, t3, p3, i3⟩ := b.present t h2 txn2 e2 t2
  exact ⟨h3, txn3, e3, t3, p3.trans p2, i3.trans i2⟩

theorem Kept.dispatched_kept (env : Env LM) (s : Scheduler LM) (u : TxnId) (h : TransactionHolder)
    (txn : Transaction) (hu : s.all_txns_ u = some h) (ht : h.txn_ = some txn) :
    Kept s (dispatched env s u h txn) := by
  refine ⟨?_, ?_⟩
  · intro t hn
    simp only [Scheduler.dispatched, UMap.set]
    by_cases e : t = u
    · subst e; rw [hu] at hn; cases hn
    · rw [if_neg e]; exact hn
  · intro t h0 txn0 h0e t0e
    simp only [Scheduler.dispatched, UMap.set]
    by_cases e : t = u
    · subst e
      rw [hu] at h0e
      cases h0e
      rw [ht] at t0e
      cases t0e
      refine ⟨_, _, if_pos rfl, rfl, ?_, rfl⟩
      rfl
    · exact ⟨h0, txn0, by rw [if_neg e]; exact h0e, t0e, rfl, rfl⟩

theorem Kept.dispatchAll_kept (env : Env LM) (us : List TxnId) :
    ∀ s s' : Scheduler LM, dispatchAll env us s = .ok s' → Kept s s' := by
  induction us with
  | nil =>
    intro s s' h
    simp only [Scheduler.dispatchAll] at h
    cases h
    exact Kept.refl_kept s
  | cons u rest ih =>
    intro s s' h
    simp only [Scheduler.dispatchAll] at h
    cases hd : DispatchTransaction env s u with
    | error e => rw [hd] at h; cases h
    | ok s1 =>
      rw [hd] at h
      obtain ⟨h0, txn0, e0, t0, rfl⟩ := DispatchTransaction_ok_inv env s s1 u hd
      exact (Kept.dispatched_kept env s u h0 txn0 e0 t0).trans_kept (ih _ s' h)

theorem erase_set {K V : Type} [DecidableEq K] (m : UMap K V) (k : K) (v : V) :
    (m.set k v).erase k = m.erase k := by
  funext k'
  by_cases hk : k' = k <;> simp [UMap.erase, UMap.set, hk]

theorem completeTxn_ok (env : Env LM) (s : Scheduler LM) (t : TxnId) (h : TransactionHolder)
    (txn : Transaction) (hh : s.all_txns_ t = some h) (ht : h.txn_ = some txn) :
    completeTxn env s t =
      .ok { s with
        outbox :=
          s.outbox ++
            [⟨.completed_subtxn (txn.record env.config .EXIT_SCHEDULER)
                env.config.local_partition h.involved_partitions_,
              .server,
              some (env.config.MakeMachineIdNum txn.internal.coordinating_server.replica
                txn.internal.coordinating_server.partition)⟩]
        all_txns_ := s.all_txns_.erase t } := by
  simp only [completeTxn, SendToCoordinatingServer, touchHolder_of_some _ _ _ hh,
    holder_of_some _ _ _ hh, ht, setHolder, Send, erase_set]
  rfl

theorem HandleInternalResponse_after_dispatch (env : Env LM) (s : Scheduler LM) (t : TxnId) :
    (∀ e, dispatchAll env
        (env.lock_manager.ReleaseLocks s.lock_manager_ (s.holder t)).2
        { s.touchHolder t with
          lock_manager_ := (env.lock_manager.ReleaseLocks s.lock_manager_ (s.holder t)).1 } =
          .error e → HandleInternalResponse env s t = .error e) ∧
    (∀ s2, dispatchAll env
        (env.lock_manager.ReleaseLocks s.lock_manager_ (s.holder t)).2
        { s.touchHolder t with
          lock_manager_ := (env.lock_manager.ReleaseLocks s.lock_manager_ (s.holder t)).1 } =
          .ok s2 →
      (∀ h2 txn2, s2.all_txns_ t = some h2 → h2.txn_ = some txn2 →
        HandleInternalResponse env s t = .ok (completed env s2 t h2 txn2)) ∧
      ((s2.holder t).txn_ = none → ∃ e, HandleInternalResponse env s t = .error e)) := by
  have hh := holder_touchHolder s t t
  constructor
  · intro e he
    unfold HandleInternalResponse
    dsimp only
    rw [hh]
    have hl : (s.touchHolder t).lock_manager_ = s.lock_manager_ := rfl
    rw [hl]
    dsimp only at he
    rw [he]
  · intro s2 he
    have hunf : HandleInternalResponse env s t =
        match (s2.holder t).txn_ with
        | none => s2.fatal "null transaction dereferenced in HandleInternalResponse"
        | some txn =>
          completeTxn env (s2.setHolder t
            { s2.holder t with txn_ := some (txn.record env.config .RELEASE_LOCKS) }) t := by
      unfold HandleInternalResponse
      dsimp only
      rw [hh]
      have hl : (s.touchHolder t).lock_manager_ = s.lock_manager_ := rfl
      rw [hl]
      dsimp only at he
      rw [he]
      try rfl
    constructor
    · intro h2 txn2 e2 t2
      have hg := holder_of_some s2 t h2 e2
      rw [hunf, hg, t2]
      dsimp only
      have hlk : (s2.setHolder t
          { h2 with txn_ := some (txn2.record env.config .RELEASE_LOCKS) }).all_txns_ t =
          some { h2 with txn_ := some (txn2.record env.config .RELEASE_LOCKS) } := by
        simp [setHolder, UMap.set]
      rw [completeTxn_ok env _ t _ _ hlk rfl]
      simp only [completed, setHolder, erase_set]
      rfl
    · intro hn
      rw [hunf, hn]
      exact ⟨_, rfl⟩

end Scheduler

namespace Scheduler

variable {LM : Type}

theorem HandleInternalResponse_domain (env : Env LM) (s s' : Scheduler LM) (t : TxnId)
    (hr : HandleInternalResponse env s t = .ok s') :
    ∀ u, s'.all_txns_ u ≠ none → s.all_txns_ u ≠ none ∧ u ≠ t := by
  obtain ⟨herr, hok⟩ := HandleInternalResponse_after_dispatch env s t
  cases hd : dispatchAll env
      (env.lock_manager.ReleaseLocks s.lock_manager_ (s.holder t)).2
      { s.touchHolder t with
        lock_manager_ := (env.lock_manager.ReleaseLocks s.lock_manager_ (s.holder t)).1 } with
  | error e =>
    rw [herr e hd] at hr
    cases hr
  | ok s2 =>
    obtain ⟨hsome, hnone⟩ := hok s2 hd
    have hk := Kept.dispatchAll_kept env _ _ s2 hd
    cases hc : s2.all_txns_ t with
    | none =>
      obtain ⟨e, he⟩ := hnone (by simp [holder, UMap.getD, hc, TransactionHolder.empty])
      rw [he] at hr
      cases hr
    | some h2 =>
      cases ht : h2.txn_ with
      | none =>
        obtain ⟨e, he⟩ := hnone (by simp [holder, UMap.getD, hc, ht])
        rw [he] at hr
        cases hr
      | some txn2 =>
        rw [hsome h2 txn2 hc ht] at hr
        cases hr
        intro u hu
        simp only [completed, UMap.erase] at hu
        by_cases e : u = t
        · rw [if_pos e] at hu
          exact absurd rfl hu
        · rw [if_neg e] at hu
          refine ⟨?_, e⟩
          intro hn
          apply hu
          apply hk.absent
          simp only [touchHolder, UMap.touch]
          cases hst : s.all_txns_ t with
          | none => simp only [UMap.set, if_neg e]; exact hn
          | some v => exact hn

theorem replies_empty (env : Env LM) (ids : List TxnId) :
    ∀ s s' : Scheduler LM, (∀ t, s.all_txns_ t ≠ none → t ∈ ids) →
      steps env (ids.map .WorkerReply) s = .ok s' → ∀ t, s'.all_txns_ t = none := by
  induction ids with
  | nil =>
    intro s s' hcov hr t
    simp only [List.map_nil, steps] at hr
    cases hr
    by_contra hc
    exact absurd (hcov t hc) (List.not_mem_nil t)
  | cons i rest ih =>
    intro s s' hcov hr
    simp only [List.map_cons, steps, step] at hr
    cases hd : HandleInternalResponse env s i with
    | error e => rw [hd] at hr; cases hr
    | ok s1 =>
      rw [hd] at hr
      refine ih s1 s' ?_ hr
      intro t ht
      obtain ⟨h1, h2⟩ := HandleInternalResponse_domain env s s1 i hd t ht
      rcases List.mem_cons.1 (hcov t h1) with e | e
      · exact absurd e h2
      · exact e

theorem HandleInternalResponse_quiet_locks (env : Env LM)
    (hrel : ∀ lm h, (env.lock_manager.ReleaseLocks lm h).2 = []) (s : Scheduler LM) (t : TxnId)
    (h : TransactionHolder) (txn : Transaction) (hh : s.all_txns_ t = some h)
    (ht : h.txn_ = some txn) :
    ∃ s', HandleInternalResponse env s t = .ok s' ∧ s'.all_txns_ = s.all_txns_.erase t := by
  obtain ⟨_, hok⟩ := HandleInternalResponse_after_dispatch env s t
  have hd : dispatchAll env
      (env.lock_manager.ReleaseLocks s.lock_manager_ (s.holder t)).2
      { s.touchHolder t with
        lock_manager_ := (env.lock_manager.ReleaseLocks s.lock_manager_ (s.holder t)).1 } =
      .ok { s.touchHolder t with
        lock_manager_ := (env.lock_manager.ReleaseLocks s.lock_manager_ (s.holder t)).1 } := by
    rw [hrel]; rfl
  have hs := (hok _ hd).1 h txn (by rw [touchHolder_of_some s t h hh]; exact hh) ht
  refine ⟨_, hs, ?_⟩
  simp only [completed, touchHolder_of_some s t h hh]

theorem replies_total (env : Env LM)
    (hrel : ∀ lm h, (env.lock_manager.ReleaseLocks lm h).2 = []) (ids : List TxnId) :
    ∀ s : Scheduler LM, ids.Nodup →
      (∀ t ∈ ids, ∃ h txn, s.all_txns_ t = some h ∧ h.txn_ = some txn) →
      ∃ s', steps env (ids.map .WorkerReply) s = .ok s' := by
  induction ids with
  | nil => intro s _ _; exact ⟨s, rfl⟩
  | cons i rest ih =>
    intro s hnd hall
    obtain ⟨h, txn, hh, ht⟩ := hall i (List.mem_cons_self _ _)
    obtain ⟨s1, h1, hdom⟩ := HandleInternalResponse_quiet_locks env hrel s i h txn hh ht
    rw [List.nodup_cons] at hnd
    obtain ⟨s', hs'⟩ := ih s1 hnd.2 (by
      intro t htm
      obtain ⟨h', txn', e1, e2⟩ := hall t (List.mem_cons_of_mem _ htm)
      refine ⟨h', txn', ?_, e2⟩
      rw [hdom]
      have : t ≠ i := by intro hc; subst hc; exact hnd.1 htm
      simp only [UMap.erase, if_neg this]
      exact e1)
    exact ⟨s', by simp only [List.map_cons, steps, step, h1]; exact hs'⟩

end Scheduler

/-! ## Scheduler: a multi-home abort is finalized by the last arrival -/

namespace Scheduler

variable {LM : Type}

theorem eraseLockOnly_apply (id : TxnId) :
    ∀ (rs : List Nat) (m : UMap (TxnId × Nat) TransactionHolder) (k : TxnId × Nat),
      eraseLockOnly id rs m k = if k.1 = id ∧ k.2 ∈ rs then none else m k := by
  intro rs
  induction rs with
  | nil => intro m k; simp [eraseLockOnly]
  | cons r rest ih =>
    intro m k
    simp only [eraseLockOnly, ih, UMap.erase, List.mem_cons]
    by_cases h1 : k.1 = id ∧ k.2 ∈ rest
    · rw [if_pos h1, if_pos ⟨h1.1, Or.inr h1.2⟩]
    · rw [if_neg h1]
      by_cases h2 : k = (id, r)
      · rw [if_pos h2, if_pos]
        subst h2
        exact ⟨rfl, Or.inl rfl⟩
      · rw [if_neg h2, if_neg]
        rintro ⟨a, b | b⟩
        · exact h2 (Prod.ext a b)
        · exact h1 ⟨a, b⟩

theorem collectLoop_spec (t : TxnId) :
    ∀ (rs : List Nat) (s : Scheduler LM), rs.Nodup →
      (collectLoop t rs s).all_txns_ = s.all_txns_ ∧
      (collectLoop t rs s).aborting_txns_ = s.aborting_txns_ ∧
      (collectLoop t rs s).outbox = s.outbox ∧
      (collectLoop t rs s).lock_manager_ = s.lock_manager_ ∧
      (∀ k, (collectLoop t rs s).lock_only_txns_ k =
        if k.1 = t ∧ k.2 ∈ rs then none else s.lock_only_txns_ k) ∧
      (∀ u, u ≠ t → (collectLoop t rs s).mh_abort_waiting_on_ u = s.mh_abort_waiting_on_ u) ∧
      ((collectLoop t rs s).mh_abort_waiting_on_.getD t 0 =
        s.mh_abort_waiting_on_.getD t 0 - (storedLockOnly s.lock_only_txns_ t rs : Int)) := by
  intro rs
  induction rs with
  | nil =>
    intro s _
    simp [collectLoop, storedLockOnly]
  | cons r rest ih =>
    intro s hnd
    rw [List.nodup_cons] at hnd
    simp only [collectLoop]
    by_cases hc : s.lock_only_txns_.contains (t, r) = true
    · rw [if_pos hc]
      obtain ⟨h1, h2, h3, h4, h5, h6, h7⟩ := ih
        { s with
          lock_only_txns_ := s.lock_only_txns_.erase (t, r)
          mh_abort_waiting_on_ :=
            s.mh_abort_waiting_on_.set t (s.mh_abort_waiting_on_.getD t 0 - 1) } hnd.2
      refine ⟨h1, h2, h3, h4, ?_, ?_, ?_⟩
      · intro k
        rw [h5 k]
        simp only [UMap.erase, List.mem_cons]
        by_cases a : k.1 = t ∧ k.2 ∈ rest
        · rw [if_pos a, if_pos ⟨a.1, Or.inr a.2⟩]
        · rw [if_neg a]
          by_cases b : k = (t, r)
          · rw [if_pos b, if_pos]
            subst b
            exact ⟨rfl, Or.inl rfl⟩
          · rw [if_neg b, if_neg]
            rintro ⟨x, y | y⟩
            · exact b (Prod.ext x y)
            · exact a ⟨x, y⟩
      · intro u hu
        rw [h6 u hu]
        simp [UMap.set, hu]
      · rw [h7]
        have hst : storedLockOnly (s.lock_only_txns_.erase (t, r)) t rest =
            storedLockOnly s.lock_only_txns_ t rest := by
          unfold storedLockOnly
          congr 1
          apply List.filter_congr
          intro x hx
          have : (t, x) ≠ (t, r) := by
            intro e
            injection e with _ e2
            subst e2
            exact hnd.1 hx
          simp [UMap.erase, this]
        have hsr : storedLockOnly s.lock_only_txns_ t (r :: rest) =
            storedLockOnly s.lock_only_txns_ t rest + 1 := by
          unfold storedLockOnly
          simp only [UMap.contains] at hc
          simp [List.filter_cons, hc]
        rw [hst, hsr]
        simp only [UMap.getD, UMap.set, if_true, Option.getD_some]
        push_cast
        ring
    · rw [if_neg hc]
      obtain ⟨h1, h2, h3, h4, h5, h6, h7⟩ := ih s hnd.2
      refine ⟨h1, h2, h3, h4, ?_, h6, ?_⟩
      · intro k
        rw [h5 k]
        simp only [List.mem_cons]
        by_cases a : k.1 = t ∧ k.2 ∈ rest
        · rw [if_pos a, if_pos ⟨a.1, Or.inr a.2⟩]
        · rw [if_neg a]
          by_cases b : k = (t, r)
          · rw [if_pos]
            · subst b
              simp only [UMap.contains, Bool.not_eq_true, Option.not_isSome,
                Option.isNone_iff_eq_none] at hc
              exact hc
            · subst b
              exact ⟨rfl, Or.inl rfl⟩
          · rw [if_neg]
            rintro ⟨x, y | y⟩
            · exact b (Prod.ext x y)
            · exact a ⟨x, y⟩
      · rw [h7]
        have hsr : storedLockOnly s.lock_only_txns_ t (r :: rest) =
            storedLockOnly s.lock_only_txns_ t rest := by
          unfold storedLockOnly
          simp only [UMap.contains] at hc
          simp [List.filter_cons, hc]
        rw [hsr]

end Scheduler

namespace Scheduler

variable {LM : Type}

theorem SameAbort.trans_same {t : TxnId} {s1 s2 s3 : Scheduler LM} (a : SameAbort t s1 s2)
    (b : SameAbort t s2 s3) : SameAbort t s1 s3 :=
  ⟨b.holder.trans a.holder, b.aborting.trans a.aborting, b.waiting.trans a.waiting,
    fun r => (b.lock_only r).trans (a.lock_only r)⟩

theorem SameAbort.dispatched_same (env : Env LM) (t : TxnId) (s : Scheduler LM) (u : TxnId)
    (h : TransactionHolder) (txn : Transaction) (hu : u ≠ t) (hid : txn.internal.id ≠ t) :
    SameAbort t s (dispatched env s u h txn) := by
  refine ⟨?_, rfl, rfl, ?_⟩
  · simp only [Scheduler.dispatched, UMap.set, if_neg (Ne.symm hu)]
  · intro r
    simp only [Scheduler.dispatched]
    split
    · rw [eraseLockOnly_apply, if_neg]
      rintro ⟨a, _⟩
      exact hid a.symm
    · rfl

theorem dispatchAll_unrelated (env : Env LM) (hw : env.config.num_workers ≠ 0) (t : TxnId)
    (us : List TxnId) :
    ∀ s : Scheduler LM,
      (∀ u ∈ us, u ≠ t ∧ ∃ hu tu, s.all_txns_ u = some hu ∧ hu.txn_ = some tu ∧
        tu.internal.id ≠ t) →
      ∃ s', dispatchAll env us s = .ok s' ∧ SameAbort t s s' := by
  induction us with
  | nil => intro s _; exact ⟨s, rfl, ⟨rfl, rfl, rfl, fun _ => rfl⟩⟩
  | cons u rest ih =>
    intro s hall
    obtain ⟨hu, h0, t0, e0, b0, i0⟩ := hall u (List.mem_cons_self _ _)
    have hk := Kept.dispatched_kept env s u h0 t0 e0 b0
    obtain ⟨s', hs', hsame⟩ := ih (dispatched env s u h0 t0) (by
      intro v hv
      obtain ⟨hv1, h1, t1, e1, b1, i1⟩ := hall v (List.mem_cons_of_mem _ hv)
      obtain ⟨h2, t2, e2, b2, p2, _⟩ := hk.present v h1 t1 e1 b1
      refine ⟨hv1, h2, t2, e2, b2, ?_⟩
      have : t2.internal.id = t1.internal.id := congrArg (fun x => x.internal.id) p2
      rw [this]
      exact i1)
    refine ⟨s', ?_, (SameAbort.dispatched_same env t s u h0 t0 hu i0).trans_same hsame⟩
    simp only [Scheduler.dispatchAll, DispatchTransaction_ok env s u h0 t0 e0 b0 hw]
    exact hs'

theorem SendToCoordinatingServer_ok (env : Env LM) (s : Scheduler LM) (t : TxnId)
    (h : TransactionHolder) (txn : Transaction) (hh : s.all_txns_ t = some h)
    (ht : h.txn_ = some txn) :
    SendToCoordinatingServer env s t =
      .ok { s with
        outbox :=
          s.outbox ++
            [⟨.completed_subtxn (txn.record env.config .EXIT_SCHEDULER)
                env.config.local_partition h.involved_partitions_,
              .server,
              some (env.config.MakeMachineIdNum txn.internal.coordinating_server.replica
                txn.internal.coordinating_server.partition)⟩]
        all_txns_ :=
          s.all_txns_.set t { h with txn_ := some (txn.record env.config .EXIT_SCHEDULER) } } := by
  simp only [SendToCoordinatingServer, touchHolder_of_some _ _ _ hh, holder_of_some _ _ _ hh, ht,
    setHolder, Send]
  rfl

theorem sendAbortLoop_fields (env : Env LM) (request : Request) :
    ∀ (ps : List Nat) (s : Scheduler LM),
      (sendAbortLoop env request ps s).all_txns_ = s.all_txns_ ∧
      (sendAbortLoop env request ps s).lock_only_txns_ = s.lock_only_txns_ ∧
      (sendAbortLoop env request ps s).aborting_txns_ = s.aborting_txns_ ∧
      (sendAbortLoop env request ps s).mh_abort_waiting_on_ = s.mh_abort_waiting_on_ ∧
      (sendAbortLoop env request ps s).lock_manager_ = s.lock_manager_ := by
  intro ps
  induction ps with
  | nil => intro s; simp [sendAbortLoop]
  | cons p rest ih =>
    intro s
    simp only [sendAbortLoop]
    obtain ⟨h1, h2, h3, h4, h5⟩ := ih
      (if p ≠ env.config.local_partition then
        s.Send request .scheduler (some (env.config.MakeMachineIdNum env.config.local_replica p))
      else s)
    rw [h1, h2, h3, h4, h5]
    split <;> simp [Send]

theorem MaybeFinishAbort_no_reads (env : Env LM) (s : Scheduler LM) (t : TxnId)
    (h : TransactionHolder) (txn : Transaction) (hh : s.all_txns_ t = some h)
    (ht : h.txn_ = some txn)
    (hreads : env.config.local_partition ∉ h.active_partitions_ ∨
      h.involved_partitions_.length = 1) :
    MaybeFinishAbort env s t = finishAbort s t txn.internal.type := by
  simp only [MaybeFinishAbort, touchHolder_of_some _ _ _ hh, holder_of_some _ _ _ hh, ht]
  rw [if_neg]
  rcases hreads with hr | hr
  · simp [hr]
  · simp [hr]

theorem MaybeFinishAbort_no_body (env : Env LM) (s : Scheduler LM) (t : TxnId)
    (hb : (s.holder t).txn_ = none) : MaybeFinishAbort env s t = s.touchHolder t := by
  simp only [MaybeFinishAbort, holder_touchHolder, hb]

end Scheduler

namespace Scheduler

variable {LM : Type}

theorem record_type (cfg : Configuration) (txn : Transaction) (e : TransactionEvent) :
    (txn.record cfg e).internal.type = txn.internal.type := rfl

theorem record_id (cfg : Configuration) (txn : Transaction) (e : TransactionEvent) :
    (txn.record cfg e).internal.id = txn.internal.id := rfl

/-- What processing a lock-only transaction of an aborting `t` comes to. -/
theorem ProcessTransaction_lock_only_aborting (env : Env LM) (s : Scheduler LM)
    (lo : Transaction) (hty : lo.internal.type = .LOCK_ONLY)
    (hab : s.aborting_txns_ lo.internal.id = true)
    (hkeys : (env.holderSets (lo.record env.config .ENTER_SCHEDULER)).keys_in_partition ≠ []) :
    ProcessTransaction env s lo =
      .ok (MaybeFinishAbort env
        { s with
          lock_only_txns_ :=
            s.lock_only_txns_.erase
              (lo.internal.id, env.lockOnlyReplica (lo.record env.config .ENTER_SCHEDULER))
          mh_abort_waiting_on_ :=
            s.mh_abort_waiting_on_.set lo.internal.id
              (s.mh_abort_waiting_on_.getD lo.internal.id 0 - 1) }
        lo.internal.id) := by
  have hne : ((env.holderSets (lo.record env.config .ENTER_SCHEDULER)).keys_in_partition).isEmpty
      = false := by
    cases hk : (env.holderSets (lo.record env.config .ENTER_SCHEDULER)).keys_in_partition with
    | nil => exact absurd hk hkeys
    | cons a b => rfl
  simp only [ProcessTransaction, AcceptTransaction, record_type, record_id, hty,
    TransactionHolder.SetTransaction, hne, Bool.false_eq_true, if_false, Bool.not_true,
    MaybeContinuePreDispatchAbortLockOnly, hab, Bool.not_true, erase_set]

/-- What `MaybeContinuePreDispatchAbort` comes to for an aborting multi-home
transaction that needs no remote read, when the lock release unblocks only other
transactions: with `c` the lock-only transactions still to come, the abort is
finalized if `c = 0` and waits for `c` of them otherwise. -/
theorem MaybeContinuePreDispatchAbort_multi_home (env : Env LM) (s : Scheduler LM) (t : TxnId)
    (h : TransactionHolder) (txn : Transaction) (hh : s.all_txns_ t = some h)
    (ht : h.txn_ = some txn) (hty : txn.internal.type = .MULTI_HOME)
    (hab : s.aborting_txns_ t = true) (hnd : h.involved_replicas_.Nodup)
    (hreads : env.config.local_partition ∉ h.active_partitions_ ∨
      h.involved_partitions_.length = 1)
    (hrel : ∀ lm h0 u, u ∈ (env.lock_manager.ReleaseLocks lm h0).2 →
      u ≠ t ∧ ∃ hu tu, s.all_txns_ u = some hu ∧ hu.txn_ = some tu ∧ tu.internal.id ≠ t)
    (hworkers : env.config.num_workers ≠ 0) :
    ∃ s', MaybeContinuePreDispatchAbort env s t = .ok (s', true) ∧
      (∀ r ∈ h.involved_replicas_, s'.lock_only_txns_ (t, r) = none) ∧
      (s.mh_abort_waiting_on_.getD t 0 + (h.involved_replicas_.length : Int) -
          (storedLockOnly s.lock_only_txns_ t h.involved_replicas_ : Int) = 0 →
        s'.all_txns_ t = none ∧ s'.aborting_txns_ t = false ∧
          s'.mh_abort_waiting_on_ t = none) ∧
      (s.mh_abort_waiting_on_.getD t 0 + (h.involved_replicas_.length : Int) -
          (storedLockOnly s.lock_only_txns_ t h.involved_replicas_ : Int) ≠ 0 →
        s'.aborting_txns_ t = true ∧
          s'.mh_abort_waiting_on_.getD t 0 =
            s.mh_abort_waiting_on_.getD t 0 + (h.involved_replicas_.length : Int) -
              (storedLockOnly s.lock_only_txns_ t h.involved_replicas_ : Int) ∧
          ∃ h' txn', s'.all_txns_ t = some h' ∧ h'.txn_ = some txn' ∧
            txn'.internal.type = .MULTI_HOME ∧
            h'.active_partitions_ = h.active_partitions_ ∧
            h'.involved_partitions_ = h.involved_partitions_ ∧
            h'.involved_replicas_ = h.involved_replicas_) := by
  -- the state handed to the dispatch loop
  have hset : (s.setHolder t { h with txn_ := some { txn with status := .ABORTED } }).all_txns_ t =
      some { h with txn_ := some { txn with status := .ABORTED } } := by
    simp [setHolder, UMap.set]
  have hsend := SendToCoordinatingServer_ok env
    (s.setHolder t { h with txn_ := some { txn with status := .ABORTED } }) t _ _ hset rfl
  generalize hs3 : ({ s.setHolder t { h with txn_ := some { txn with status := .ABORTED } } with
      outbox :=
        (s.setHolder t { h with txn_ := some { txn with status := .ABORTED } }).outbox ++
          [⟨.completed_subtxn
              (({ txn with status := .ABORTED } : Transaction).record env.config .EXIT_SCHEDULER)
              env.config.local_partition
              ({ h with txn_ := some { txn with status := .ABORTED } } :
                TransactionHolder).involved_partitions_,
            .server,
            some (env.config.MakeMachineIdNum
              ({ txn with status := .ABORTED } : Transaction).internal.coordinating_server.replica
              ({ txn with status := .ABORTED } :
                Transaction).internal.coordinating_server.partition)⟩]
      all_txns_ :=
        (s.setHolder t { h with txn_ := some { txn with status := .ABORTED } }).all_txns_.set t
          { ({ h with txn_ := some { txn with status := .ABORTED } } : TransactionHolder) with
            txn_ := some (({ txn with status := .ABORTED } : Transaction).record env.config
              .EXIT_SCHEDULER) } } : Scheduler LM) = s3 at hsend
  have f3 : s3.all_txns_ t = some { h with
        txn_ := some (({ txn with status := .ABORTED } : Transaction).record env.config
          .EXIT_SCHEDULER) } ∧
      (∀ u, u ≠ t → s3.all_txns_ u = s.all_txns_ u) ∧
      s3.lock_only_txns_ = s.lock_only_txns_ ∧ s3.aborting_txns_ = s.aborting_txns_ ∧
      s3.mh_abort_waiting_on_ = s.mh_abort_waiting_on_ := by
    subst hs3
    refine ⟨by simp [UMap.set], ?_, rfl, rfl, rfl⟩
    intro u hu
    simp [setHolder, UMap.set, hu]
  obtain ⟨f3a, f3b, f3c, f3d, f3e⟩ := f3
  generalize hs4 : (if (s3.holder t).involved_partitions_.length > 1 then
      SendAbortToPartitions env s3 t else s3) = s4
  have f4 : s4.all_txns_ = s3.all_txns_ ∧ s4.lock_only_txns_ = s3.lock_only_txns_ ∧
      s4.aborting_txns_ = s3.aborting_txns_ ∧
      s4.mh_abort_waiting_on_ = s3.mh_abort_waiting_on_ := by
    subst hs4
    split
    · obtain ⟨a, b, c, d, _⟩ := sendAbortLoop_fields env
        (Request.remote_read_result
          { txn_id := t, partition := env.config.local_partition, will_abort := true,
            reads := [] })
        ((s3.touchHolder t).holder t).active_partitions_ (s3.touchHolder t)
      simp only [SendAbortToPartitions]
      rw [a, b, c, d, touchHolder_of_some s3 t _ f3a]
      exact ⟨rfl, rfl, rfl, rfl⟩
    · exact ⟨rfl, rfl, rfl, rfl⟩
  obtain ⟨f4a, f4b, f4c, f4d⟩ := f4
  have h4t : s4.all_txns_ t = some { h with
        txn_ := some (({ txn with status := .ABORTED } : Transaction).record env.config
          .EXIT_SCHEDULER) } := by rw [f4a]; exact f3a
  obtain ⟨s7, hd, hsame⟩ := dispatchAll_unrelated env hworkers t
    (env.lock_manager.ReleaseLocks (s4.touchHolder t).lock_manager_
      ((s4.touchHolder t).holder t)).2
    { s4.touchHolder t with
      lock_manager_ := (env.lock_manager.ReleaseLocks (s4.touchHolder t).lock_manager_
        ((s4.touchHolder t).holder t)).1 }
    (by
      intro u hu
      obtain ⟨hne, hu0, tu0, e0, b0, i0⟩ := hrel _ _ u hu
      refine ⟨hne, hu0, tu0, ?_, b0, i0⟩
      show (s4.touchHolder t).all_txns_ u = some hu0
      rw [touchHolder_of_some s4 t _ h4t, f4a, f3b u hne]
      exact e0)
  have h7t : s7.all_txns_ t = some { h with
        txn_ := some (({ txn with status := .ABORTED } : Transaction).record env.config
          .EXIT_SCHEDULER) } := by
    rw [hsame.holder]
    show (s4.touchHolder t).all_txns_ t = _
    rw [touchHolder_of_some s4 t _ h4t]
    exact h4t
  have h7ab : s7.aborting_txns_ = s.aborting_txns_ := by
    rw [hsame.aborting]
    show (s4.touchHolder t).aborting_txns_ = _
    rw [touchHolder_of_some s4 t _ h4t, f4c, f3d]
  have h7w : s7.mh_abort_waiting_on_ = s.mh_abort_waiting_on_ := by
    rw [hsame.waiting]
    show (s4.touchHolder t).mh_abort_waiting_on_ = _
    rw [touchHolder_of_some s4 t _ h4t, f4d, f3e]
  have h7l : ∀ r, s7.lock_only_txns_ (t, r) = s.lock_only_txns_ (t, r) := by
    intro r
    rw [hsame.lock_only]
    show (s4.touchHolder t).lock_only_txns_ (t, r) = _
    rw [touchHolder_of_some s4 t _ h4t, f4b, f3c]
  -- the collection of the lock-only transactions
  obtain ⟨c1, c2, _, _, c5, _, c7⟩ := collectLoop_spec t h.involved_replicas_
    { s7 with
      mh_abort_waiting_on_ :=
        s7.mh_abort_waiting_on_.set t
          (s7.mh_abort_waiting_on_.getD t 0 + h.involved_replicas_.length) } hnd
  generalize hs8 : collectLoop t h.involved_replicas_
    { s7 with
      mh_abort_waiting_on_ :=
        s7.mh_abort_waiting_on_.set t
          (s7.mh_abort_waiting_on_.getD t 0 + h.involved_replicas_.length) } = s8 at c1 c2 c5 c7
  have hcol : CollectLockOnlyTransactionsForAbort s7 t = s8 := by
    simp only [CollectLockOnlyTransactionsForAbort, touchHolder_of_some s7 t _ h7t,
      holder_of_some s7 t _ h7t]
    exact hs8
  have h8t : s8.all_txns_ t = some { h with
        txn_ := some (({ txn with status := .ABORTED } : Transaction).record env.config
          .EXIT_SCHEDULER) } := by rw [c1]; exact h7t
  have hstored : storedLockOnly s7.lock_only_txns_ t h.involved_replicas_ =
      storedLockOnly s.lock_only_txns_ t h.involved_replicas_ := by
    unfold storedLockOnly
    congr 1
    apply List.filter_congr
    intro r _
    rw [h7l r]
  have h8w : s8.mh_abort_waiting_on_.getD t 0 =
      s.mh_abort_waiting_on_.getD t 0 + (h.involved_replicas_.length : Int) -
        (storedLockOnly s.lock_only_txns_ t h.involved_replicas_ : Int) := by
    rw [c7]
    simp only [UMap.getD, UMap.set, if_true, Option.getD_some]
    rw [hstored, h7w]
  have h8l : ∀ r ∈ h.involved_replicas_, s8.lock_only_txns_ (t, r) = none := by
    intro r hr
    rw [c5, if_pos ⟨rfl, hr⟩]
  have hfin : MaybeFinishAbort env s8 t = finishAbort s8 t .MULTI_HOME := by
    rw [MaybeFinishAbort_no_reads env s8 t _ _ h8t rfl hreads]
    show finishAbort s8 t txn.internal.type = _
    rw [hty]
  have hunf : MaybeContinuePreDispatchAbort env s t =
      .ok (finishAbort s8 t .MULTI_HOME, true) := by
    unfold MaybeContinuePreDispatchAbort
    simp only [hab, Bool.not_true, Bool.false_eq_true, if_false, touchHolder_of_some s t h hh,
      holder_of_some s t h hh, ht, hsend, hs4, hd, hty, if_true, hcol, hfin]
  refine ⟨_, hunf, ?_, ?_, ?_⟩
  · intro r hr
    unfold finishAbort
    simp only [if_true]
    split
    · exact h8l r hr
    · exact h8l r hr
  · intro hc
    rw [← h8w] at hc
    simp [finishAbort, hc, UMap.erase]
  · intro hc
    rw [← h8w] at hc
    simp only [finishAbort, if_true, hc, ne_eq, not_false_eq_true]
    refine ⟨?_, h8w, _, _, h8t, rfl, hty, rfl, rfl, rfl⟩
    rw [c2]
    show s7.aborting_txns_ t = true
    rw [h7ab]
    exact hab

end Scheduler

namespace Scheduler

variable {LM : Type}

theorem length_filter_isSome_add {α : Type} (f : Nat → Option α) (R : List Nat) :
    (R.filter (fun r => (f r).isSome)).length + (R.filter (fun r => (f r).isNone)).length =
      R.length := by
  induction R with
  | nil => rfl
  | cons r rest ih =>
    cases h : f r with
    | none => simp [List.filter_cons, h]; omega
    | some v => simp [List.filter_cons, h]; omega

theorem touch_apply_ne {K V : Type} [DecidableEq K] (m : UMap K V) (k u : K) (d : V)
    (hu : u ≠ k) : (m.touch k d) u = m u := by
  unfold UMap.touch
  cases m k with
  | some v => rfl
  | none => simp [UMap.set, hu]

theorem AbortPending.lock_only_arrives {env : Env LM} {s0 s : Scheduler LM} {t : TxnId}
    {R : List Nat} {k : Nat} (hp : AbortPending s0 t R s k) (lo : Transaction)
    (hlo : PendingLockOnly env s0 t lo) :
    ∃ s', ProcessTransaction env s lo = .ok s' ∧ AbortPending s0 t R s' (k + 1) := by
  have hab : s.aborting_txns_ lo.internal.id = true := by rw [hlo.id]; exact hp.aborting
  have hstep := ProcessTransaction_lock_only_aborting env s lo hlo.type hab hlo.keys
  rw [hlo.id] at hstep
  have hb : (({ s with
      lock_only_txns_ :=
        s.lock_only_txns_.erase (t, env.lockOnlyReplica (lo.record env.config .ENTER_SCHEDULER))
      mh_abort_waiting_on_ :=
        s.mh_abort_waiting_on_.set t (s.mh_abort_waiting_on_.getD t 0 - 1) } :
      Scheduler LM).holder t).txn_ = none := hp.body
  rw [MaybeFinishAbort_no_body env _ t hb] at hstep
  refine ⟨_, hstep, ?_⟩
  refine ⟨hp.aborting, ?_, ?_, ?_, ?_⟩
  · rw [holder_touchHolder]; exact hp.body
  · show (s.mh_abort_waiting_on_.set t (s.mh_abort_waiting_on_.getD t 0 - 1)).getD t 0 = _
    simp only [UMap.getD, UMap.set, if_true, Option.getD_some]
    have := hp.waiting
    simp only [UMap.getD] at this
    rw [this]
    push_cast
    ring
  · intro r hr
    show (s.lock_only_txns_.erase
      (t, env.lockOnlyReplica (lo.record env.config .ENTER_SCHEDULER))) (t, r) = _
    simp only [UMap.erase]
    by_cases e : (t, r) = (t, env.lockOnlyReplica (lo.record env.config .ENTER_SCHEDULER))
    · rw [if_pos e, e, hlo.fresh]
    · rw [if_neg e]; exact hp.lock_only r hr
  · intro u hu
    rw [← hp.others u hu]
    exact touch_apply_ne _ _ _ _ hu

theorem AbortWaiting.lock_only_counts {env : Env LM} {s : Scheduler LM} {t : TxnId}
    {sets : HolderSets} {c : Nat} (hw : AbortWaiting env t sets s (c + 1))
    (hreads : env.config.local_partition ∉ sets.active_partitions ∨
      sets.involved_partitions.length = 1)
    (lo : Transaction) (hty : lo.internal.type = .LOCK_ONLY) (hid : lo.internal.id = t)
    (hkeys : (env.holderSets (lo.record env.config .ENTER_SCHEDULER)).keys_in_partition ≠ []) :
    ∃ s', ProcessTransaction env s lo = .ok s' ∧
      (c = 0 → AbortDone t sets.involved_replicas s') ∧
      (c ≠ 0 → AbortWaiting env t sets s' c) := by
  have hab : s.aborting_txns_ lo.internal.id = true := by rw [hid]; exact hw.aborting
  have hstep := ProcessTransaction_lock_only_aborting env s lo hty hab hkeys
  rw [hid] at hstep
  obtain ⟨h, txn, hh, ht, htm, hact, hinv⟩ := hw.holder
  have hh2 : ({ s with
      lock_only_txns_ :=
        s.lock_only_txns_.erase (t, env.lockOnlyReplica (lo.record env.config .ENTER_SCHEDULER))
      mh_abort_waiting_on_ :=
        s.mh_abort_waiting_on_.set t (s.mh_abort_waiting_on_.getD t 0 - 1) } :
      Scheduler LM).all_txns_ t = some h := hh
  rw [MaybeFinishAbort_no_reads env _ t h txn hh2 ht (by rw [hact, hinv]; exact hreads), htm]
    at hstep
  have hcount : (s.mh_abort_waiting_on_.set t (s.mh_abort_waiting_on_.getD t 0 - 1)).getD t 0 =
      (c : Int) := by
    simp only [UMap.getD, UMap.set, if_true, Option.getD_some]
    have := hw.waiting
    simp only [UMap.getD] at this
    rw [this]
    push_cast
    ring
  have hlock : ∀ r ∈ sets.involved_replicas,
      (s.lock_only_txns_.erase
        (t, env.lockOnlyReplica (lo.record env.config .ENTER_SCHEDULER))) (t, r) = none := by
    intro r hr
    simp only [UMap.erase]
    split
    · rfl
    · exact hw.lock_only r hr
  refine ⟨_, hstep, ?_, ?_⟩
  · intro hc
    subst hc
    have hz : (s.mh_abort_waiting_on_.set t (s.mh_abort_waiting_on_.getD t 0 - 1)).getD t 0 =
        0 := by rw [hcount]; rfl
    refine ⟨?_, ?_, ?_, ?_⟩
    · simp [finishAbort, hz, UMap.erase]
    · simp [finishAbort, hz]
    · simp [finishAbort, hz, UMap.erase]
    · intro r hr
      simp only [finishAbort, if_true, hz, ne_eq, not_true_eq_false, if_false]
      exact hlock r hr
  · intro hc
    have hz : (s.mh_abort_waiting_on_.set t (s.mh_abort_waiting_on_.getD t 0 - 1)).getD t 0 ≠
        0 := by
      rw [hcount]
      exact_mod_cast hc
    simp only [finishAbort, if_true, hz, ne_eq, not_false_eq_true]
    exact ⟨hw.aborting, hcount, hlock, h, txn, hh, ht, htm, hact, hinv⟩

theorem AbortPending.multi_home_step {env : Env LM} {s0 s : Scheduler LM} {t : TxnId}
    {k : Nat} (mh : Transaction)
    (hp : AbortPending s0 t
      (env.holderSets (mh.record env.config .ENTER_SCHEDULER)).involved_replicas s k)
    (hty : mh.internal.type = .MULTI_HOME) (hid : mh.internal.id = t)
    (hkeys : (env.holderSets (mh.record env.config .ENTER_SCHEDULER)).keys_in_partition ≠ [])
    (hnd : (env.holderSets (mh.record env.config .ENTER_SCHEDULER)).involved_replicas.Nodup)
    (hreads : env.config.local_partition ∉
        (env.holderSets (mh.record env.config .ENTER_SCHEDULER)).active_partitions ∨
      (env.holderSets (mh.record env.config .ENTER_SCHEDULER)).involved_partitions.length = 1)
    (hrel : ∀ lm h0 u, u ∈ (env.lock_manager.ReleaseLocks lm h0).2 →
      u ≠ t ∧ ∃ hu tu, s0.all_txns_ u = some hu ∧ hu.txn_ = some tu ∧ tu.internal.id ≠ t)
    (hworkers : env.config.num_workers ≠ 0)
    (c : Nat)
    (hc : (c : Int) = -(k : Int) +
      ((env.holderSets (mh.record env.config .ENTER_SCHEDULER)).involved_replicas.length : Int) -
      (storedLockOnly s0.lock_only_txns_ t
        (env.holderSets (mh.record env.config .ENTER_SCHEDULER)).involved_replicas : Int)) :
    ∃ s', ProcessTransaction env s mh = .ok s' ∧
      (c = 0 → AbortDone t
        (env.holderSets (mh.record env.config .ENTER_SCHEDULER)).involved_replicas s') ∧
      (c ≠ 0 → AbortWaiting env t (env.holderSets (mh.record env.config .ENTER_SCHEDULER)) s' c) := by
  have hne : ((env.holderSets (mh.record env.config .ENTER_SCHEDULER)).keys_in_partition).isEmpty
      = false := by
    cases hk : (env.holderSets (mh.record env.config .ENTER_SCHEDULER)).keys_in_partition with
    | nil => exact absurd hk hkeys
    | cons a b => rfl
  -- the state after `AcceptTransaction`
  generalize hs1 : (s.touchHolder t).setHolder t
    (((s.touchHolder t).holder t).SetTransaction
      (env.holderSets (mh.record env.config .ENTER_SCHEDULER))
      (mh.record env.config .ENTER_SCHEDULER)) = s1
  have h1t : s1.all_txns_ t = some (((s.touchHolder t).holder t).SetTransaction
      (env.holderSets (mh.record env.config .ENTER_SCHEDULER))
      (mh.record env.config .ENTER_SCHEDULER)) := by
    subst hs1
    simp [setHolder, UMap.set]
  have h1o : ∀ u, u ≠ t → s1.all_txns_ u = s0.all_txns_ u := by
    intro u hu
    subst hs1
    rw [← hp.others u hu]
    simp only [setHolder, touchHolder, UMap.set, if_neg hu]
    exact touch_apply_ne _ _ _ _ hu
  have h1f : s1.aborting_txns_ = s.aborting_txns_ ∧
      s1.mh_abort_waiting_on_ = s.mh_abort_waiting_on_ ∧
      s1.lock_only_txns_ = s.lock_only_txns_ := by
    subst hs1
    exact ⟨rfl, rfl, rfl⟩
  obtain ⟨h1a, h1w, h1l⟩ := h1f
  have hunf : ProcessTransaction env s mh =
      match MaybeContinuePreDispatchAbort env s1 t with
      | .error e => .error e
      | .ok r => .ok r.1 := by
    have hab1 : (s1.touchHolder t).aborting_txns_ t = true := by
      show s1.aborting_txns_ t = true
      rw [h1a]; exact hp.aborting
    simp only [ProcessTransaction, AcceptTransaction, record_type, record_id, hty, hid, hne,
      TransactionHolder.SetTransaction, Bool.false_eq_true, if_false, Bool.not_true]
    simp only [TransactionHolder.SetTransaction] at hs1
    rw [hs1]
    have hab2 : s1.aborting_txns_ t = true := hab1
    simp only [hab1, hab2, if_true, touchHolder_of_some s1 t _ h1t]
    try rfl
  obtain ⟨s', hmc, hl, hz, hnz⟩ := MaybeContinuePreDispatchAbort_multi_home env s1 t _ _ h1t rfl
    (by rw [record_type]; exact hty) (by rw [h1a]; exact hp.aborting) hnd hreads
    (by
      intro lm h0 u hu
      obtain ⟨a, hu0, tu0, e0, b0, i0⟩ := hrel lm h0 u hu
      exact ⟨a, hu0, tu0, by rw [h1o u a]; exact e0, b0, i0⟩) hworkers
  have hcount : s1.mh_abort_waiting_on_.getD t 0 +
      ((env.holderSets (mh.record env.config .ENTER_SCHEDULER)).involved_replicas.length : Int) -
      (storedLockOnly s1.lock_only_txns_ t
        (env.holderSets (mh.record env.config .ENTER_SCHEDULER)).involved_replicas : Int) =
      (c : Int) := by
    have hst : storedLockOnly s1.lock_only_txns_ t
        (env.holderSets (mh.record env.config .ENTER_SCHEDULER)).involved_replicas =
        storedLockOnly s0.lock_only_txns_ t
          (env.holderSets (mh.record env.config .ENTER_SCHEDULER)).involved_replicas := by
      unfold storedLockOnly
      congr 1
      apply List.filter_congr
      intro r hr
      rw [h1l, hp.lock_only r hr]
    rw [hst, h1w, hp.waiting, hc]
  refine ⟨s', by rw [hunf, hmc], ?_, ?_⟩
  · intro hc0
    obtain ⟨a, b, d⟩ := hz (Eq.trans hcount (by rw [hc0]; rfl))
    exact ⟨a, b, d, hl⟩
  · intro hc0
    obtain ⟨a, b, h', txn', e1, e2, e3, e4, e5, _⟩ := hnz (by
      intro h2
      have h3 : (c : Int) = 0 := hcount.symm.trans h2
      exact hc0 (by exact_mod_cast h3))
    exact ⟨a, b.trans hcount, hl, h', txn', e1, e2, e3, e4, e5⟩

end Scheduler

namespace Scheduler

variable {LM : Type}

theorem AbortProgress.aborting {env : Env LM} {s0 s : Scheduler LM} {t : TxnId}
    {mh : Transaction} {sets : HolderSets} {n : Nat} {rem : List Transaction}
    (hg : AbortProgress env s0 t mh sets n s rem) (hne : rem ≠ []) :
    s.aborting_txns_ t = true := by
  rcases hg with ⟨_, k, _, hp⟩ | ⟨_, _, hw⟩ | ⟨he, _⟩
  · exact hp.aborting
  · exact hw.aborting
  · exact absurd he hne

theorem AbortProgress.advance {env : Env LM} {s0 s : Scheduler LM} {t : TxnId}
    {mh : Transaction} {n : Nat} {e : Transaction} {rem : List Transaction}
    (hty : mh.internal.type = .MULTI_HOME) (hid : mh.internal.id = t)
    (hkeys : (env.holderSets (mh.record env.config .ENTER_SCHEDULER)).keys_in_partition ≠ [])
    (hnd : (env.holderSets (mh.record env.config .ENTER_SCHEDULER)).involved_replicas.Nodup)
    (hreads : env.config.local_partition ∉
        (env.holderSets (mh.record env.config .ENTER_SCHEDULER)).active_partitions ∨
      (env.holderSets (mh.record env.config .ENTER_SCHEDULER)).involved_partitions.length = 1)
    (hrel : ∀ lm h0 u, u ∈ (env.lock_manager.ReleaseLocks lm h0).2 →
      u ≠ t ∧ ∃ hu tu, s0.all_txns_ u = some hu ∧ hu.txn_ = some tu ∧ tu.internal.id ≠ t)
    (hworkers : env.config.num_workers ≠ 0)
    (hn : (n : Int) =
      ((env.holderSets (mh.record env.config .ENTER_SCHEDULER)).involved_replicas.length : Int) -
      (storedLockOnly s0.lock_only_txns_ t
        (env.holderSets (mh.record env.config .ENTER_SCHEDULER)).involved_replicas : Int))
    (hvalid : ∀ x ∈ e :: rem, x = mh ∨ PendingLockOnly env s0 t x)
    (hcount : (e :: rem).count mh ≤ 1)
    (hg : AbortProgress env s0 t mh (env.holderSets (mh.record env.config .ENTER_SCHEDULER)) n s
      (e :: rem)) :
    ∃ s', ProcessTransaction env s e = .ok s' ∧
      AbortProgress env s0 t mh (env.holderSets (mh.record env.config .ENTER_SCHEDULER)) n s'
        rem := by
  rcases hg with ⟨hm, k, hk, hp⟩ | ⟨hm, _, hw⟩ | ⟨he, _⟩
  · by_cases hemh : e = mh
    · subst hemh
      have hnot : e ∉ rem := by
        intro hc
        have : 0 < rem.count e := List.count_pos_iff.2 hc
        rw [List.count_cons_self] at hcount
        omega
      simp only [List.length_cons] at hk
      obtain ⟨s', hs', hz, hnz⟩ := hp.multi_home_step e hty hid hkeys hnd hreads hrel hworkers rem.length
        (by omega)
      refine ⟨s', hs', ?_⟩
      by_cases hr : rem = []
      · exact Or.inr (Or.inr ⟨hr, hz (by rw [hr]; rfl)⟩)
      · exact Or.inr (Or.inl ⟨hnot, hr, hnz (by
          intro hc; exact hr (List.length_eq_zero.1 hc))⟩)
    · have hlo : PendingLockOnly env s0 t e := by
        rcases hvalid e (List.mem_cons_self _ _) with h | h
        · exact absurd h hemh
        · exact h
      have hm' : mh ∈ rem := by
        rcases List.mem_cons.1 hm with h | h
        · exact absurd h.symm hemh
        · exact h
      obtain ⟨s', hs', hp'⟩ := hp.lock_only_arrives e hlo
      refine ⟨s', hs', Or.inl ⟨hm', k + 1, ?_, hp'⟩⟩
      simp only [List.length_cons] at hk
      omega
  · have hemh : e ≠ mh := by
      intro hc
      exact hm (hc ▸ List.mem_cons_self _ _)
    have hlo : PendingLockOnly env s0 t e := by
      rcases hvalid e (List.mem_cons_self _ _) with h | h
      · exact absurd h hemh
      · exact h
    have hm' : mh ∉ rem := fun hc => hm (List.mem_cons_of_mem _ hc)
    simp only [List.length_cons] at hw
    obtain ⟨s', hs', hz, hnz⟩ := hw.lock_only_counts hreads e hlo.type hlo.id hlo.keys
    refine ⟨s', hs', ?_⟩
    by_cases hr : rem = []
    · exact Or.inr (Or.inr ⟨hr, hz (by rw [hr]; rfl)⟩)
    · exact Or.inr (Or.inl ⟨hm', hr, hnz (by
        intro hc; exact hr (List.length_eq_zero.1 hc))⟩)
  · cases he

theorem AbortProgress.run {env : Env LM} {s0 : Scheduler LM} {t : TxnId}
    {mh : Transaction} {n : Nat}
    (hty : mh.internal.type = .MULTI_HOME) (hid : mh.internal.id = t)
    (hkeys : (env.holderSets (mh.record env.config .ENTER_SCHEDULER)).keys_in_partition ≠ [])
    (hnd : (env.holderSets (mh.record env.config .ENTER_SCHEDULER)).involved_replicas.Nodup)
    (hreads : env.config.local_partition ∉
        (env.holderSets (mh.record env.config .ENTER_SCHEDULER)).active_partitions ∨
      (env.holderSets (mh.record env.config .ENTER_SCHEDULER)).involved_partitions.length = 1)
    (hrel : ∀ lm h0 u, u ∈ (env.lock_manager.ReleaseLocks lm h0).2 →
      u ≠ t ∧ ∃ hu tu, s0.all_txns_ u = some hu ∧ hu.txn_ = some tu ∧ tu.internal.id ≠ t)
    (hworkers : env.config.num_workers ≠ 0)
    (hn : (n : Int) =
      ((env.holderSets (mh.record env.config .ENTER_SCHEDULER)).involved_replicas.length : Int) -
      (storedLockOnly s0.lock_only_txns_ t
        (env.holderSets (mh.record env.config .ENTER_SCHEDULER)).involved_replicas : Int))
    (rem : List Transaction) :
    ∀ s : Scheduler LM, (∀ x ∈ rem, x = mh ∨ PendingLockOnly env s0 t x) →
      rem.count mh ≤ 1 →
      AbortProgress env s0 t mh (env.holderSets (mh.record env.config .ENTER_SCHEDULER)) n s rem →
      (∀ pre post, rem = pre ++ post → post ≠ [] →
        ∃ s', steps env (pre.map .ProcessTransaction) s = .ok s' ∧
          s'.aborting_txns_ t = true) ∧
      ∃ s', steps env (rem.map .ProcessTransaction) s = .ok s' ∧
        AbortDone t (env.holderSets (mh.record env.config .ENTER_SCHEDULER)).involved_replicas
          s' := by
  induction rem with
  | nil =>
    intro s _ _ hg
    constructor
    · intro pre post hsplit hpost
      have := List.append_eq_nil.1 hsplit.symm
      exact absurd this.2 hpost
    · rcases hg with ⟨hm, _⟩ | ⟨_, hne, _⟩ | ⟨_, hd⟩
      · exact absurd hm (List.not_mem_nil _)
      · exact absurd rfl hne
      · exact ⟨s, rfl, hd⟩
  | cons e rest ih =>
    intro s hvalid hcount hg
    obtain ⟨s1, hs1, hg1⟩ := AbortProgress.advance hty hid hkeys hnd hreads hrel hworkers hn hvalid hcount hg
    have hcount' : rest.count mh ≤ 1 := by
      have := List.count_le_count_cons mh e rest
      omega
    obtain ⟨hpre, s', hs', hd⟩ := ih s1 (fun x hx => hvalid x (List.mem_cons_of_mem _ hx))
      hcount' hg1
    constructor
    · intro pre post hsplit hpost
      cases pre with
      | nil => exact ⟨s, rfl, hg.aborting (List.cons_ne_nil _ _)⟩
      | cons p pre' =>
        rw [List.cons_append] at hsplit
        injection hsplit with h1 h2
        subst h1
        obtain ⟨s'', hs'', hab⟩ := hpre pre' post h2 hpost
        exact ⟨s'', by simp only [List.map_cons, Scheduler.steps, Scheduler.step, hs1]; exact hs'', hab⟩
    · exact ⟨s', by simp only [List.map_cons, Scheduler.steps, Scheduler.step, hs1]; exact hs', hd⟩

/-- C5. A multi-home abort finalizes exactly once whatever the arrival order.
From a state `s0` where `txn_id` is aborting, its body has not arrived and
`mh_abort_waiting_on` has no entry for it, let the `MULTI_HOME` body `mh` (with a
key in the local partition, needing no remote read here) and one `LOCK_ONLY`
transaction for each involved replica that has none stored in `s0` be processed
in any order `evs`, the lock releases unblocking only other tracked
transactions and `num_workers` being positive, so that these can be dispatched.
Then after every proper part of the order the run has not failed
and `txn_id` is still aborting, and after the whole order the run has not failed
and `all_txns`, `aborting_txns` and `mh_abort_waiting_on` have nothing for
`txn_id`, and `lock_only_txns` has no `(txn_id, r)` for any involved replica
`r`. -/
theorem multi_home_abort_finalizes_once (env : Env LM) (s0 : Scheduler LM) (txn_id : TxnId)
    (mh : Transaction) (los evs : List Transaction)
    (hab : s0.aborting_txns_ txn_id = true)
    (hbody : (s0.holder txn_id).txn_ = none)
    (hwait : s0.mh_abort_waiting_on_ txn_id = none)
    (hty : mh.internal.type = .MULTI_HOME) (hid : mh.internal.id = txn_id)
    (hkeys : (env.holderSets (mh.record env.config .ENTER_SCHEDULER)).keys_in_partition ≠ [])
    (hnd : (env.holderSets (mh.record env.config .ENTER_SCHEDULER)).involved_replicas.Nodup)
    (hreads : env.config.local_partition ∉
        (env.holderSets (mh.record env.config .ENTER_SCHEDULER)).active_partitions ∨
      (env.holderSets (mh.record env.config .ENTER_SCHEDULER)).involved_partitions.length = 1)
    (hlos : ∀ lo ∈ los, lo.internal.type = .LOCK_ONLY ∧ lo.internal.id = txn_id ∧
      (env.holderSets (lo.record env.config .ENTER_SCHEDULER)).keys_in_partition ≠ [])
    (hpending : (los.map (fun lo =>
        env.lockOnlyReplica (lo.record env.config .ENTER_SCHEDULER))).Perm
      ((env.holderSets (mh.record env.config .ENTER_SCHEDULER)).involved_replicas.filter
        (fun r => (s0.lock_only_txns_ (txn_id, r)).isNone)))
    (hrel : ∀ lm h0 u, u ∈ (env.lock_manager.ReleaseLocks lm h0).2 →
      u ≠ txn_id ∧
        ∃ hu tu, s0.all_txns_ u = some hu ∧ hu.txn_ = some tu ∧ tu.internal.id ≠ txn_id)
    (hworkers : 0 < env.config.num_workers)
    (hperm : evs.Perm (mh :: los)) :
    (∀ pre post, evs = pre ++ post → post ≠ [] →
      ∃ s, steps env (pre.map .ProcessTransaction) s0 = .ok s ∧
        s.aborting_txns_ txn_id = true) ∧
    ∃ s, steps env (evs.map .ProcessTransaction) s0 = .ok s ∧
      s.all_txns_ txn_id = none ∧ s.aborting_txns_ txn_id = false ∧
      s.mh_abort_waiting_on_ txn_id = none ∧
      ∀ r ∈ (env.holderSets (mh.record env.config .ENTER_SCHEDULER)).involved_replicas,
        s.lock_only_txns_ (txn_id, r) = none := by
  have hmh_notin : mh ∉ los := by
    intro hc
    have := (hlos mh hc).1
    rw [hty] at this
    cases this
  have hvalid : ∀ x ∈ evs, x = mh ∨ PendingLockOnly env s0 txn_id x := by
    intro x hx
    rcases List.mem_cons.1 (hperm.mem_iff.1 hx) with h | h
    · exact Or.inl h
    · obtain ⟨a, b, c⟩ := hlos x h
      refine Or.inr ⟨a, b, c, ?_⟩
      have hm : env.lockOnlyReplica (x.record env.config .ENTER_SCHEDULER) ∈
          (env.holderSets (mh.record env.config .ENTER_SCHEDULER)).involved_replicas.filter
            (fun r => (s0.lock_only_txns_ (txn_id, r)).isNone) :=
        hpending.mem_iff.1 (List.mem_map.2 ⟨x, h, rfl⟩)
      have := (List.mem_filter.1 hm).2
      simpa using this
  have hcount : evs.count mh ≤ 1 := by
    rw [hperm.count_eq, List.count_cons_self, List.count_eq_zero_of_not_mem hmh_notin]
  have hn : (los.length : Int) =
      ((env.holderSets (mh.record env.config .ENTER_SCHEDULER)).involved_replicas.length : Int) -
      (storedLockOnly s0.lock_only_txns_ txn_id
        (env.holderSets (mh.record env.config .ENTER_SCHEDULER)).involved_replicas : Int) := by
    have h1 := hpending.length_eq
    rw [List.length_map] at h1
    have h2 := length_filter_isSome_add (fun r => s0.lock_only_txns_ (txn_id, r))
      (env.holderSets (mh.record env.config .ENTER_SCHEDULER)).involved_replicas
    unfold storedLockOnly
    omega
  have hg0 : AbortProgress env s0 txn_id mh
      (env.holderSets (mh.record env.config .ENTER_SCHEDULER)) los.length s0 evs := by
    refine Or.inl ⟨hperm.mem_iff.2 (List.mem_cons_self _ _), 0, ?_, hab, hbody, ?_,
      fun _ _ => rfl, fun _ _ => rfl⟩
    · rw [hperm.length_eq, List.length_cons]; omega
    · simp [UMap.getD, hwait]
  obtain ⟨hpre, s, hs, hd⟩ := AbortProgress.run hty hid hkeys hnd hreads hrel
    (Nat.pos_iff_ne_zero.1 hworkers) hn evs s0 hvalid
    hcount hg0
  exact ⟨hpre, s, hs, hd.holder, hd.aborting, hd.waiting, hd.lock_only⟩

end Scheduler

namespace Scheduler

theorem multi_home_abort_finalizes_once_witness :
    ∃ s, steps sampleEnv
        ([sampleTxn 7 .LOCK_ONLY 0, sampleTxn 7 .MULTI_HOME 0].map .ProcessTransaction)
        sampleAborting = .ok s ∧
      s.all_txns_ 7 = none ∧ s.aborting_txns_ 7 = false ∧
      s.mh_abort_waiting_on_ 7 = none ∧
      ∀ r ∈ (sampleEnv.holderSets
          ((sampleTxn 7 .MULTI_HOME 0).record sampleEnv.config .ENTER_SCHEDULER)).involved_replicas,
        s.lock_only_txns_ (7, r) = none :=
  (multi_home_abort_finalizes_once sampleEnv sampleAborting 7 (sampleTxn 7 .MULTI_HOME 0)
    [sampleTxn 7 .LOCK_ONLY 0] [sampleTxn 7 .LOCK_ONLY 0, sampleTxn 7 .MULTI_HOME 0]
    rfl rfl rfl rfl rfl (by decide) (by decide) (Or.inr rfl)
    (by
      intro lo hlo
      rw [List.mem_singleton] at hlo
      subst hlo
      exact ⟨rfl, rfl, by decide⟩)
    (by decide)
    (fun _ _ u hu => absurd hu (List.not_mem_nil u))
    (by decide)
    (List.Perm.swap _ _ _)).2

end Scheduler

/-! ## Interleaver: the routing of forwarded batches -/

namespace Interleaver

theorem lookup_onSingleHomeLog_self (logs : List (Nat × BatchLog)) (replica : Nat)
    (f : BatchLog → BatchLog) :
    (onSingleHomeLog logs replica f).lookup replica =
      some (f ((logs.lookup replica).getD BatchLog.empty)) := by
  unfold onSingleHomeLog
  cases h : logs.lookup replica with
  | none =>
    simp only [Option.getD_none]
    induction logs with
    | nil => simp [List.lookup]
    | cons e rest ih =>
      obtain ⟨k, v⟩ := e
      simp only [List.lookup_cons] at h
      by_cases hk : replica = k
      · subst hk; simp at h
      · have hb : (replica == k) = false := by simpa using hk
        rw [hb] at h
        simp only [List.cons_append, List.lookup_cons, hb]
        exact ih h
  | some log =>
    simp only [Option.getD_some]
    induction logs with
    | nil => simp [List.lookup] at h
    | cons e rest ih =>
      obtain ⟨k, v⟩ := e
      simp only [List.lookup_cons] at h
      by_cases hk : replica = k
      · subst hk
        simp only [beq_self_eq_true] at h
        cases h
        simp [List.lookup_cons]
      · have hb : (replica == k) = false := by simpa using hk
        rw [hb] at h
        have hk' : ¬ k = replica := fun e => hk e.symm
        simp only [List.map_cons, hk', if_false, List.lookup_cons, hb]
        exact ih h

theorem lookup_onSingleHomeLog_other (logs : List (Nat × BatchLog)) (replica r : Nat)
    (f : BatchLog → BatchLog) (hr : r ≠ replica) :
    (onSingleHomeLog logs replica f).lookup r = logs.lookup r := by
  unfold onSingleHomeLog
  have hmap : (logs.map (fun e => if e.1 = replica then (e.1, f e.2) else e)).lookup r =
      logs.lookup r := by
    induction logs with
    | nil => rfl
    | cons e rest ih =>
      obtain ⟨k, v⟩ := e
      by_cases hk : k = replica
      · subst hk
        have hb : (r == k) = false := by simpa using hr
        simp only [List.map_cons, if_true, List.lookup_cons, hb]
        exact ih
      · simp only [List.map_cons, hk, if_false, List.lookup_cons]
        rw [ih]
  have happ : (logs ++ [(replica, f BatchLog.empty)]).lookup r = logs.lookup r := by
    clear hmap
    induction logs with
    | nil =>
      have hb : (r == replica) = false := by simpa using hr
      simp [List.lookup_cons, hb]
    | cons e rest ih =>
      obtain ⟨k, v⟩ := e
      simp only [List.cons_append, List.lookup_cons]
      rw [ih]
  cases h : logs.lookup replica with
  | none => simpa using happ
  | some log => simpa using hmap

theorem emitLoop_idle (cfg : Configuration) (fuel : Nat) (log : BatchLog) (st : Interleaver)
    (h : log.HasNextBatch = false) : emitLoop cfg fuel log st = (log, st) := by
  cases fuel with
  | zero => rfl
  | succ n => simp [emitLoop, h]

theorem EmitBatch_multi_home_log (cfg : Configuration) (st : Interleaver) (batch : Batch) :
    (EmitBatch cfg st batch).1.multi_home_log_ = st.multi_home_log_ := by
  unfold EmitBatch
  exact (sendLoop_frame cfg _ st).2.2

theorem emitLoop_multi_home_log (cfg : Configuration) (fuel : Nat) :
    ∀ (log : BatchLog) (st : Interleaver),
      (emitLoop cfg fuel log st).2.multi_home_log_ = st.multi_home_log_ := by
  induction fuel with
  | zero => intro log st; rfl
  | succ n ih =>
    intro log st
    unfold emitLoop
    split
    · split
      · rw [ih]; exact EmitBatch_multi_home_log cfg st _
      · rfl
    · rfl

theorem advanceSingleHomeLogs_multi_home_log (cfg : Configuration) :
    ∀ (todo done : List (Nat × BatchLog)) (st : Interleaver),
      (advanceSingleHomeLogs cfg todo done st).multi_home_log_ = st.multi_home_log_ := by
  intro todo
  induction todo with
  | nil => intro done st; rfl
  | cons e rest ih =>
    intro done st
    obtain ⟨replica, log⟩ := e
    unfold advanceSingleHomeLogs
    dsimp only
    rw [ih]
    exact emitLoop_multi_home_log cfg _ log st

theorem AdvanceLogs_local_log (cfg : Configuration) (st : Interleaver) :
    (AdvanceLogs cfg st).local_log_ = { st.local_log_ with ready_batches_ := [] } := by
  unfold AdvanceLogs
  dsimp only
  rw [(emitLoop_frame cfg _ _ _).2, (advanceSingleHomeLogs_frame cfg _ _ _).2]
  exact (advanceLocalLog_spec cfg _ st (Nat.le_refl _)).2.2.1

theorem AdvanceLogs_multi_home_log_idle (cfg : Configuration) (st : Interleaver)
    (h : st.multi_home_log_.HasNextBatch = false) :
    (AdvanceLogs cfg st).multi_home_log_ = st.multi_home_log_ := by
  unfold AdvanceLogs
  dsimp only
  have h1 : (advanceSingleHomeLogs cfg
      (advanceLocalLog cfg st.local_log_.ready_batches_.length st).single_home_logs_ []
      (advanceLocalLog cfg st.local_log_.ready_batches_.length st)).multi_home_log_ =
      st.multi_home_log_ := by
    rw [advanceSingleHomeLogs_multi_home_log]
    exact (advanceLocalLog_spec cfg _ st (Nat.le_refl _)).2.2.2
  rw [h1, emitLoop_idle cfg _ _ _ h]

end Interleaver

namespace Interleaver

/-- C11. Routing of SINGLE_HOME batch data by `Interleaver::HandleInternalRequest`:
for a `ForwardBatch` with `BatchData` of type SINGLE_HOME received from machine
`src = (from_replica, from_partition)`, the handler is `AdvanceLogs` run from the
state in which the batch (with `ENTER_INTERLEAVER_IN_BATCH` recorded) was added to
`single_home_logs_[from_replica]` in every case, `LocalLog::AddBatchId(from_partition,
same_origin_position, batch.id)` was performed when `from_replica` is the local
replica and the local log was left as it was otherwise, and neither the
multi-home log, the other single-home logs nor the outbox were touched.  Over the
whole handler: the local log it leaves is that log with its ready pairs drained
(so unchanged for a remote origin when nothing was ready), and the multi-home log
is unchanged when it had no batch to emit. -/
theorem HandleInternalRequest_routes_single_home (cfg : Configuration) (st : Interleaver)
    (batch : Batch) (same_origin_position src : Nat)
    (hty : batch.transaction_type = .SINGLE_HOME) :
    (HandleInternalRequest cfg st (.forward_batch_data batch same_origin_position) src =
      AdvanceLogs cfg
        { local_log_ :=
            if (cfg.UnpackMachineId src).1 = cfg.local_replica then
              st.local_log_.AddBatchId (cfg.UnpackMachineId src).2 same_origin_position batch.id
            else st.local_log_
          single_home_logs_ :=
            onSingleHomeLog st.single_home_logs_ (cfg.UnpackMachineId src).1
              (fun l => l.AddBatch (RecordBatchEvent cfg batch .ENTER_INTERLEAVER_IN_BATCH))
          multi_home_log_ := st.multi_home_log_
          outbox := st.outbox }) ∧
      (∃ log,
        (onSingleHomeLog st.single_home_logs_ (cfg.UnpackMachineId src).1
            (fun l => l.AddBatch (RecordBatchEvent cfg batch .ENTER_INTERLEAVER_IN_BATCH))).lookup
          (cfg.UnpackMachineId src).1 = some log ∧
        log.batches_ batch.id = some (RecordBatchEvent cfg batch .ENTER_INTERLEAVER_IN_BATCH) ∧
        log.slots_ =
          ((st.single_home_logs_.lookup (cfg.UnpackMachineId src).1).getD BatchLog.empty).slots_ ∧
        ∀ id, id ≠ batch.id →
          log.batches_ id =
            ((st.single_home_logs_.lookup (cfg.UnpackMachineId src).1).getD
              BatchLog.empty).batches_ id) ∧
      (∀ r, r ≠ (cfg.UnpackMachineId src).1 →
        (onSingleHomeLog st.single_home_logs_ (cfg.UnpackMachineId src).1
            (fun l => l.AddBatch (RecordBatchEvent cfg batch .ENTER_INTERLEAVER_IN_BATCH))).lookup r =
          st.single_home_logs_.lookup r) ∧
      ((cfg.UnpackMachineId src).1 = cfg.local_replica →
        (HandleInternalRequest cfg st
            (.forward_batch_data batch same_origin_position) src).local_log_ =
          { st.local_log_.AddBatchId (cfg.UnpackMachineId src).2 same_origin_position batch.id with
            ready_batches_ := [] }) ∧
      ((cfg.UnpackMachineId src).1 ≠ cfg.local_replica →
        (HandleInternalRequest cfg st
            (.forward_batch_data batch same_origin_position) src).local_log_ =
          { st.local_log_ with ready_batches_ := [] }) ∧
      ((cfg.UnpackMachineId src).1 ≠ cfg.local_replica → st.local_log_.HasNextBatch = false →
        (HandleInternalRequest cfg st
            (.forward_batch_data batch same_origin_position) src).local_log_ = st.local_log_) ∧
      (st.multi_home_log_.HasNextBatch = false →
        (HandleInternalRequest cfg st
            (.forward_batch_data batch same_origin_position) src).multi_home_log_ =
          st.multi_home_log_) := by
  have hrec : (RecordBatchEvent cfg batch .ENTER_INTERLEAVER_IN_BATCH).transaction_type =
      .SINGLE_HOME := hty
  have hid : (RecordBatchEvent cfg batch .ENTER_INTERLEAVER_IN_BATCH).id = batch.id := rfl
  have hroute : HandleInternalRequest cfg st (.forward_batch_data batch same_origin_position) src =
      AdvanceLogs cfg
        { local_log_ :=
            if (cfg.UnpackMachineId src).1 = cfg.local_replica then
              st.local_log_.AddBatchId (cfg.UnpackMachineId src).2 same_origin_position batch.id
            else st.local_log_
          single_home_logs_ :=
            onSingleHomeLog st.single_home_logs_ (cfg.UnpackMachineId src).1
              (fun l => l.AddBatch (RecordBatchEvent cfg batch .ENTER_INTERLEAVER_IN_BATCH))
          multi_home_log_ := st.multi_home_log_
          outbox := st.outbox } := by
    unfold HandleInternalRequest
    simp only [hrec, hid]
    by_cases hl : (cfg.UnpackMachineId src).1 = cfg.local_replica
    · simp only [hl, if_true]
    · simp only [hl, if_false]
  refine ⟨hroute, ?_, ?_, ?_, ?_, ?_, ?_⟩
  · refine ⟨_, lookup_onSingleHomeLog_self _ _ _, ?_, rfl, ?_⟩
    · simp [BatchLog.AddBatch, UMap.set, hid]
    · intro id hne
      simp [BatchLog.AddBatch, UMap.set, hid, hne]
  · intro r hr
    exact lookup_onSingleHomeLog_other _ _ _ _ hr
  · intro hl
    rw [hroute, AdvanceLogs_local_log]
    simp only [hl, if_true]
  · intro hl
    rw [hroute, AdvanceLogs_local_log]
    simp only [hl, if_false]
  · intro hl hready
    rw [hroute, AdvanceLogs_local_log]
    simp only [hl, if_false]
    have : st.local_log_.ready_batches_ = [] := by
      simpa [LocalLog.HasNextBatch] using hready
    cases hst : st.local_log_ with
    | mk a b c =>
      rw [hst] at this
      simp only at this
      subst this
      rfl
  · intro hmh
    rw [hroute]
    exact AdvanceLogs_multi_home_log_idle cfg _ hmh

theorem HandleInternalRequest_routes_single_home_witness :
    sampleBatch.transaction_type = .SINGLE_HOME ∧
      ((sampleConfig.UnpackMachineId 1).1 = sampleConfig.local_replica ∧
        (sampleConfig.UnpackMachineId 2).1 ≠ sampleConfig.local_replica) ∧
      (HandleInternalRequest sampleConfig Interleaver.init
          (.forward_batch_data sampleBatch 0) 1).local_log_ =
        { LocalLog.empty.AddBatchId 1 0 100 with ready_batches_ := [] } ∧
      (HandleInternalRequest sampleConfig Interleaver.init
          (.forward_batch_data sampleBatch 0) 2).local_log_ = LocalLog.empty :=
  ⟨rfl, ⟨by decide, by decide⟩,
    (HandleInternalRequest_routes_single_home sampleConfig Interleaver.init sampleBatch 0 1
      rfl).2.2.2.1 (by decide),
    (HandleInternalRequest_routes_single_home sampleConfig Interleaver.init sampleBatch 0 2
      rfl).2.2.2.2.2.1 (by decide) rfl⟩

end Interleaver

/-! ## LocalLog: the join is drained as far as it can be -/

namespace LocalLog

theorem canAdvance_of_stalled (l : LocalLog) (h : l.Stalled) : l.canAdvance = false := by
  unfold canAdvance
  cases hp : l.slots_.Peek with
  | none => simp
  | some q =>
    cases hq : l.batch_queues_ q with
    | none => simp [hq]
    | some queue => simp [hq, h q queue hp hq]

theorem stalled_of_canAdvance (l : LocalLog) (h : l.canAdvance = false) : l.Stalled := by
  intro q queue hp hq
  unfold canAdvance at h
  have hn : l.slots_.HasNext = true := by
    simp only [AsyncLog.Peek] at hp
    simp [AsyncLog.HasNext, hp]
  simpa [hn, hp, hq] using h

theorem UpdateReadyBatchesLoop_more_fuel (fuel : Nat) :
    ∀ (l : LocalLog) (extra : Nat), l.slots_.log.length ≤ fuel →
      UpdateReadyBatchesLoop (fuel + extra) l = UpdateReadyBatchesLoop fuel l := by
  induction fuel with
  | zero =>
    intro l extra hl
    have hnil : l.slots_.log = [] := List.length_eq_zero.1 (by omega)
    cases extra with
    | zero => rfl
    | succ e =>
      have : 0 + (e + 1) = e + 1 := by omega
      rw [this]
      simp [UpdateReadyBatchesLoop, AsyncLog.HasNext, hnil]
  | succ n ih =>
    intro l extra hl
    have hfuel : n + 1 + extra = (n + extra) + 1 := by omega
    rw [hfuel]
    unfold UpdateReadyBatchesLoop
    split
    · simp only [AsyncLog.Peek, AsyncLog.Next, AsyncLog.HasNext]
      cases hs : l.slots_.log.lookup l.slots_.next with
      | none => rfl
      | some q =>
        simp only
        cases hq : l.batch_queues_ q with
        | none => rfl
        | some queue =>
          simp only
          cases hb : queue.log.lookup queue.next with
          | none => simp
          | some b =>
            simp only [Option.isSome_some, Bool.not_true, Bool.false_eq_true, if_false]
            apply ih
            have := length_filter_lt_of_lookup _ _ _ hs
            simp only
            omega
    · rfl

theorem UpdateReadyBatchesLoop_enough (l : LocalLog) (fuel : Nat)
    (h : l.slots_.log.length ≤ fuel) :
    UpdateReadyBatchesLoop fuel l = l.UpdateReadyBatches := by
  obtain ⟨extra, rfl⟩ := Nat.exists_eq_add_of_le h
  exact UpdateReadyBatchesLoop_more_fuel _ l extra (le_refl _)

theorem Inv.next_gt {S : Nat → Option Nat} {B : Nat → Nat → Option BatchId} {l : LocalLog}
    (h : l.Inv S B) (hst : l.Stalled) (n : Nat) (hsup : ∀ i, i ≤ n → Joinable S B i) :
    n < l.slots_.next := by
  by_contra hle
  exact h.not_joinable hst (hsup _ (by omega))

theorem Inv.ready_at {S : Nat → Option Nat} {B : Nat → Nat → Option BatchId} {l : LocalLog}
    (h : l.Inv S B) (hst : l.Stalled) (n : Nat) (hsup : ∀ i, i ≤ n → Joinable S B i) :
    l.ready_batches_[n]? = some (n, joined S B n) := by
  have hn := h.next_gt hst n hsup
  rw [h.ready]
  simp [List.getElem?_map, List.getElem?_range hn]

end LocalLog

open LogCall in
/-- C12. `LocalLog` drains maximally.  The loop of `UpdateReadyBatches` has left
by the time its bound on the iterations (the number of buffered slots) is used
up: any larger bound gives the same result, so the function terminates on every
state, and in the state it leaves, hence after every `AddSlot` and `AddBatchId`, it
is not the case that the slot stream has a next slot whose queue exists and has
a next batch.  Hence, for calls on an empty log, once the slots `0..S` and for
each of them the batch its queue owes are among the calls made so far, the pair
for slot `S` is in the ready queue, at index `S`; with distinct keys that pair is
`(S, b)` for the calls `AddSlot S q` and `AddBatchId q j b`, `j` the number of
smaller slots naming `q`. -/
theorem LocalLog_maximal_draining :
    (∀ (l : LocalLog) (fuel : Nat), l.slots_.log.length ≤ fuel →
        LocalLog.UpdateReadyBatchesLoop fuel l = l.UpdateReadyBatches) ∧
      (∀ l : LocalLog, l.UpdateReadyBatches.canAdvance = false) ∧
      (∀ (l : LocalLog) (slot_id queue_id : Nat), (l.AddSlot slot_id queue_id).canAdvance = false) ∧
      (∀ (l : LocalLog) (queue_id position : Nat) (batch_id : BatchId),
        (l.AddBatchId queue_id position batch_id).canAdvance = false) ∧
      (∀ (cs : List LogCall) (S : Nat),
        (∀ i, i ≤ S → Joinable (slotsOf cs) (batchesOf cs) i) →
          (runAll LocalLog.empty cs).ready_batches_[S]? =
              some (S, joined (slotsOf cs) (batchesOf cs) S) ∧
            (runAll LocalLog.empty cs).drain[S]? =
              some (S, joined (slotsOf cs) (batchesOf cs) S)) ∧
      (∀ (cs : List LogCall) (S : Nat), (slotIds cs).Nodup → (batchKeys cs).Nodup →
        (∀ i, i ≤ S → ∃ q b, AddSlot i q ∈ cs ∧ AddBatchId q (earlierSlotsOf cs q i) b ∈ cs) →
          ∃ q b, AddSlot S q ∈ cs ∧ AddBatchId q (earlierSlotsOf cs q S) b ∈ cs ∧
            (runAll LocalLog.empty cs).ready_batches_[S]? = some (S, b)) := by
  refine ⟨LocalLog.UpdateReadyBatchesLoop_enough, ?_, ?_, ?_, ?_, ?_⟩
  · intro l
    exact LocalLog.canAdvance_of_stalled _ (LocalLog.stalled_UpdateReadyBatches l)
  · intro l s q
    exact LocalLog.canAdvance_of_stalled _ (LocalLog.stalled_UpdateReadyBatches _)
  · intro l q p b
    exact LocalLog.canAdvance_of_stalled _ (LocalLog.stalled_UpdateReadyBatches _)
  · intro cs S hsup
    have h := (LocalLog.Inv.runAll cs).ready_at (LocalLog.stalled_runAll cs) S hsup
    exact ⟨h, by rw [LocalLog.drain_eq]; exact h⟩
  · intro cs S hs hb hsup
    have hj : ∀ i, i ≤ S → Joinable (slotsOf cs) (batchesOf cs) i := by
      intro i hi
      obtain ⟨q, b, hq, hbq⟩ := hsup i hi
      refine ⟨q, b, (slotsOf_eq_some_iff cs hs i q).2 hq, ?_⟩
      rw [namedBelow_slotsOf cs hs]
      exact lookup_eq_some_of_mem _ hb _ _ (List.mem_filterMap.2 ⟨_, hbq, rfl⟩)
    obtain ⟨q, b, hq, hbq⟩ := hsup S (le_refl _)
    have hq' := (slotsOf_eq_some_iff cs hs S q).2 hq
    have hb' : batchesOf cs q (namedBelow (slotsOf cs) q S) = some b := by
      rw [namedBelow_slotsOf cs hs]
      exact lookup_eq_some_of_mem _ hb _ _ (List.mem_filterMap.2 ⟨_, hbq, rfl⟩)
    refine ⟨q, b, hq, hbq, ?_⟩
    rw [(LocalLog.Inv.runAll cs).ready_at (LocalLog.stalled_runAll cs) S hj]
    simp [joined, hq', hb']

open LogCall in
theorem LocalLog_maximal_draining_witness :
    (∀ i, i ≤ 1 → ∃ q b,
        AddSlot i q ∈ [AddBatchId 0 1 101, AddSlot 1 0, AddSlot 0 0, AddBatchId 0 0 100] ∧
          AddBatchId q
              (earlierSlotsOf [AddBatchId 0 1 101, AddSlot 1 0, AddSlot 0 0, AddBatchId 0 0 100] q i)
              b ∈
            [AddBatchId 0 1 101, AddSlot 1 0, AddSlot 0 0, AddBatchId 0 0 100]) ∧
      (runAll LocalLog.empty
          [AddBatchId 0 1 101, AddSlot 1 0, AddSlot 0 0]).ready_batches_ = [] ∧
      ∃ q b, AddSlot 1 q ∈ [AddBatchId 0 1 101, AddSlot 1 0, AddSlot 0 0, AddBatchId 0 0 100] ∧
        AddBatchId q
            (earlierSlotsOf [AddBatchId 0 1 101, AddSlot 1 0, AddSlot 0 0, AddBatchId 0 0 100] q 1)
            b ∈
          [AddBatchId 0 1 101, AddSlot 1 0, AddSlot 0 0, AddBatchId 0 0 100] ∧
        (runAll LocalLog.empty
            [AddBatchId 0 1 101, AddSlot 1 0, AddSlot 0 0, AddBatchId 0 0 100]).ready_batches_[1]? =
          some (1, b) :=
  have hsup : ∀ i, i ≤ 1 → ∃ q b,
      AddSlot i q ∈ [AddBatchId 0 1 101, AddSlot 1 0, AddSlot 0 0, AddBatchId 0 0 100] ∧
        AddBatchId q
            (earlierSlotsOf [AddBatchId 0 1 101, AddSlot 1 0, AddSlot 0 0, AddBatchId 0 0 100] q i)
            b ∈
          [AddBatchId 0 1 101, AddSlot 1 0, AddSlot 0 0, AddBatchId 0 0 100] := by
    intro i hi
    interval_cases i
    · exact ⟨0, 100, by decide, by decide⟩
    · exact ⟨0, 101, by decide, by decide⟩
  ⟨hsup, by decide,
    LocalLog_maximal_draining.2.2.2.2.2 _ 1 (by decide) (by decide) hsup⟩

/-! ## LocalLog: NextBatch -/

/-- C13. `LocalLog::NextBatch` fails exactly when no batch is ready: it throws if
and only if `HasNextBatch()` is false, and then the members are those before the
call; when `HasNextBatch()` is true it returns the pair at the front of the ready
queue (the oldest) and leaves the log with that pair popped, the slot stream,
the batch queues and the rest of the ready queue as they were. -/
theorem LocalLog_NextBatch_fails_iff_not_ready (l : LocalLog) :
    ((∃ e, l.NextBatch = .error e) ↔ l.HasNextBatch = false) ∧
      (l.HasNextBatch = false →
        l.NextBatch = .error "NextBatch() was called when there is no batch" ∧
          l.afterNextBatch = l) ∧
      (l.HasNextBatch = true →
        ∃ next_batch rest, l.ready_batches_ = next_batch :: rest ∧
          l.NextBatch =
            .ok (next_batch,
              { slots_ := l.slots_, batch_queues_ := l.batch_queues_, ready_batches_ := rest }) ∧
          l.afterNextBatch =
            { slots_ := l.slots_, batch_queues_ := l.batch_queues_, ready_batches_ := rest }) := by
  cases hr : l.ready_batches_ with
  | nil =>
    have hn : l.HasNextBatch = false := by simp [LocalLog.HasNextBatch, hr]
    refine ⟨⟨fun _ => hn, fun _ => ⟨_, by simp [LocalLog.NextBatch, hn]; rfl⟩⟩, ?_, ?_⟩
    · intro _
      exact ⟨by simp [LocalLog.NextBatch, hn], by simp [LocalLog.afterNextBatch, hn]⟩
    · intro h
      rw [hn] at h
      cases h
  | cons p rest =>
    have hn : l.HasNextBatch = true := by simp [LocalLog.HasNextBatch, hr]
    have hok : l.NextBatch =
        .ok (p, { slots_ := l.slots_, batch_queues_ := l.batch_queues_, ready_batches_ := rest }) := by
      simp [LocalLog.NextBatch, hn, hr]
    refine ⟨⟨?_, ?_⟩, ?_, ?_⟩
    · rintro ⟨e, he⟩
      rw [hok] at he
      cases he
    · intro h
      rw [hn] at h
      cases h
    · intro h
      rw [hn] at h
      cases h
    · intro _
      exact ⟨p, rest, rfl, hok, by simp [LocalLog.afterNextBatch, hn, hr]⟩

theorem LocalLog_NextBatch_fails_iff_not_ready_witness :
    (LocalLog.empty.HasNextBatch = false ∧
        LocalLog.empty.NextBatch = .error "NextBatch() was called when there is no batch" ∧
        LocalLog.empty.afterNextBatch = LocalLog.empty) ∧
      (((LocalLog.empty.AddSlot 0 0).AddBatchId 0 0 100).HasNextBatch = true ∧
        ∃ next_batch rest,
          ((LocalLog.empty.AddSlot 0 0).AddBatchId 0 0 100).ready_batches_ = next_batch :: rest ∧
          ((LocalLog.empty.AddSlot 0 0).AddBatchId 0 0 100).NextBatch =
            .ok (next_batch,
              { slots_ := ((LocalLog.empty.AddSlot 0 0).AddBatchId 0 0 100).slots_
                batch_queues_ := ((LocalLog.empty.AddSlot 0 0).AddBatchId 0 0 100).batch_queues_
                ready_batches_ := rest }) ∧
          ((LocalLog.empty.AddSlot 0 0).AddBatchId 0 0 100).afterNextBatch =
            { slots_ := ((LocalLog.empty.AddSlot 0 0).AddBatchId 0 0 100).slots_
              batch_queues_ := ((LocalLog.empty.AddSlot 0 0).AddBatchId 0 0 100).batch_queues_
              ready_batches_ := rest }) :=
  ⟨⟨rfl, (LocalLog_NextBatch_fails_iff_not_ready LocalLog.empty).2.1 rfl⟩,
    ⟨by decide,
      (LocalLog_NextBatch_fails_iff_not_ready
        ((LocalLog.empty.AddSlot 0 0).AddBatchId 0 0 100)).2.2 (by decide)⟩⟩

/-! ## Scheduler: a transaction without a local key is dropped -/

namespace Scheduler

variable {LM : Type}

theorem erase_touch {K V : Type} [DecidableEq K] (m : UMap K V) (k : K) (d : V) :
    (m.touch k d).erase k = m.erase k := by
  funext k'
  by_cases hk : k' = k
  · simp [UMap.erase, hk]
  · simp only [UMap.erase, hk, if_false]
    exact touch_apply_ne m k k' d hk

/-- C14. `Scheduler::ProcessTransaction` drops a transaction with no key in the
local partition: when `KeysInPartition` of the transaction is empty, the call
returns, leaving the state it was given except that the entry of the
transaction is gone (the `all_txns_` entry of its id for SINGLE_HOME and
MULTI_HOME, the `lock_only_txns_` entry of (id, replica) for LOCK_ONLY); the
holders of all other transactions, the lock table and the messages sent are as
before, and the outcome is the same whatever the lock manager is. -/
theorem ProcessTransaction_drops_without_local_keys (env : Env LM) (s : Scheduler LM)
    (txn : Transaction)
    (hkeys : (env.holderSets (txn.record env.config .ENTER_SCHEDULER)).keys_in_partition = []) :
    (txn.internal.type = .SINGLE_HOME ∨ txn.internal.type = .MULTI_HOME →
        ProcessTransaction env s txn =
          .ok { s with all_txns_ := s.all_txns_.erase txn.internal.id }) ∧
      (txn.internal.type = .LOCK_ONLY →
        ProcessTransaction env s txn =
          .ok { s with
                lock_only_txns_ :=
                  s.lock_only_txns_.erase
                    (txn.internal.id,
                      env.lockOnlyReplica (txn.record env.config .ENTER_SCHEDULER)) }) ∧
      (∃ s', ProcessTransaction env s txn = .ok s' ∧
        (txn.internal.type = .SINGLE_HOME ∨ txn.internal.type = .MULTI_HOME →
          s'.all_txns_ txn.internal.id = none) ∧
        (txn.internal.type = .LOCK_ONLY →
          s'.lock_only_txns_
              (txn.internal.id, env.lockOnlyReplica (txn.record env.config .ENTER_SCHEDULER)) =
            none) ∧
        (∀ u, u ≠ txn.internal.id → s'.all_txns_ u = s.all_txns_ u) ∧
        (txn.internal.type = .LOCK_ONLY → s'.all_txns_ = s.all_txns_) ∧
        (∀ k, k ≠ (txn.internal.id,
              env.lockOnlyReplica (txn.record env.config .ENTER_SCHEDULER)) →
          s'.lock_only_txns_ k = s.lock_only_txns_ k) ∧
        (txn.internal.type ≠ .LOCK_ONLY → s'.lock_only_txns_ = s.lock_only_txns_) ∧
        s'.aborting_txns_ = s.aborting_txns_ ∧
        s'.mh_abort_waiting_on_ = s.mh_abort_waiting_on_ ∧
        s'.lock_manager_ = s.lock_manager_ ∧
        s'.outbox = s.outbox) ∧
      (∀ lock_manager : LockManager LM,
        ProcessTransaction
            { config := env.config, lock_manager := lock_manager, holderSets := env.holderSets,
              lockOnlyReplica := env.lockOnlyReplica } s txn =
          ProcessTransaction env s txn) := by
  have hmain : ∀ e : Env LM, e.config = env.config → e.holderSets = env.holderSets →
      e.lockOnlyReplica = env.lockOnlyReplica →
      ProcessTransaction e s txn =
        .ok (match txn.internal.type with
          | .SINGLE_HOME | .MULTI_HOME =>
            { s with all_txns_ := s.all_txns_.erase txn.internal.id }
          | .LOCK_ONLY =>
            { s with
              lock_only_txns_ :=
                s.lock_only_txns_.erase
                  (txn.internal.id,
                    env.lockOnlyReplica (txn.record env.config .ENTER_SCHEDULER)) }
          | .UNKNOWN => s) := by
    intro e hc hh hl
    obtain ⟨c, lm, hs, lr⟩ := e
    simp only at hc hh hl
    subst hc hh hl
    have hk := hkeys
    unfold ProcessTransaction AcceptTransaction
    simp only [record_type, record_id]
    cases hty : txn.internal.type with
    | SINGLE_HOME =>
      simp [TransactionHolder.SetTransaction, hk, touchHolder, erase_touch]
    | MULTI_HOME =>
      simp [TransactionHolder.SetTransaction, hk, touchHolder, erase_touch]
    | LOCK_ONLY =>
      simp [TransactionHolder.SetTransaction, hk]
    | UNKNOWN => simp
  have h0 := hmain env rfl rfl rfl
  refine ⟨?_, ?_, ?_, ?_⟩
  · rintro (hty | hty) <;> rw [h0, hty]
  · intro hty
    rw [h0, hty]
  · refine ⟨_, h0, ?_, ?_, ?_, ?_, ?_, ?_, ?_, ?_, ?_, ?_⟩
    · rintro (hty | hty) <;> simp [hty, UMap.erase]
    · intro hty
      simp [hty, UMap.erase]
    · intro u hu
      cases hty : txn.internal.type <;> simp [UMap.erase, hu]
    · intro hty
      simp [hty]
    · intro k hk
      cases hty : txn.internal.type <;> simp [UMap.erase, hk]
    · intro hty
      cases hty' : txn.internal.type <;> simp_all
    · cases hty : txn.internal.type <;> rfl
    · cases hty : txn.internal.type <;> rfl
    · cases hty : txn.internal.type <;> rfl
    · cases hty : txn.internal.type <;> rfl
  · intro lm
    exact (hmain ⟨env.config, lm, env.holderSets, env.lockOnlyReplica⟩ rfl rfl rfl).trans h0.symm

theorem ProcessTransaction_drops_without_local_keys_witness :
    (sampleEnv.holderSets
        ((sampleKeylessTxn 5 .SINGLE_HOME).record sampleEnv.config .ENTER_SCHEDULER)).keys_in_partition =
        [] ∧
      (sampleEarlyRead.all_txns_ 5).isSome = true ∧
      ProcessTransaction sampleEnv sampleEarlyRead (sampleKeylessTxn 5 .SINGLE_HOME) =
        .ok { sampleEarlyRead with all_txns_ := sampleEarlyRead.all_txns_.erase 5 } :=
  ⟨rfl, rfl,
    (ProcessTransaction_drops_without_local_keys sampleEnv sampleEarlyRead
      (sampleKeylessTxn 5 .SINGLE_HOME) rfl).1 (Or.inl rfl)⟩

end Scheduler

/-! ## Scheduler: the notifications of a pre-dispatch abort -/

namespace Scheduler

variable {LM : Type}

theorem DispatchTransaction_error_sent (env : Env LM) (s : Scheduler LM) (u : TxnId) (e : Fatal)
    (hd : DispatchTransaction env s u = .error e) : e.sent = s.outbox := by
  cases hc : s.all_txns_ u with
  | none =>
    obtain ⟨d, he⟩ := DispatchTransaction_fatal env s u
      (by intro h txn hh; rw [hc] at hh; cases hh)
    rw [he] at hd
    cases hd
    rfl
  | some h =>
    cases ht : h.txn_ with
    | none =>
      obtain ⟨d, he⟩ := DispatchTransaction_fatal env s u
        (by intro h' txn hh; rw [hc] at hh; cases hh; rw [ht]; simp)
      rw [he] at hd
      cases hd
      rfl
    | some txn =>
      by_cases hw : env.config.num_workers = 0
      · rw [DispatchTransaction_no_worker env s u h txn hc ht hw] at hd
        cases hd
        rfl
      · rw [DispatchTransaction_ok env s u h txn hc ht hw] at hd
        cases hd

/-- What `dispatchAll` sends goes to worker channels of this machine. -/
theorem dispatchAll_sent (env : Env LM) (us : List TxnId) :
    ∀ s : Scheduler LM, ∃ rest,
      sentBy (dispatchAll env us s) = s.outbox ++ rest ∧
        ∀ m ∈ rest, (∃ w, m.to_channel = .worker w) ∧ m.to_machine_id = none := by
  induction us with
  | nil => intro s; exact ⟨[], by simp [dispatchAll, sentBy], by simp⟩
  | cons u rest ih =>
    intro s
    simp only [dispatchAll]
    cases hd : DispatchTransaction env s u with
    | error e =>
      refine ⟨[], ?_, by simp⟩
      simp only [sentBy, List.append_nil]
      exact DispatchTransaction_error_sent env s u e hd
    | ok s1 =>
      obtain ⟨h, txn, _, _, hs1⟩ := DispatchTransaction_ok_inv env s s1 u hd
      obtain ⟨more, hmore, hw⟩ := ih s1
      dsimp only
      rw [hmore, hs1]
      refine ⟨(⟨.worker u, .worker (u % env.config.num_workers), none⟩ ::
          h.early_remote_reads_.reverse.map (fun r =>
            ⟨.remote_read_result r,
              .worker (u % env.config.num_workers), none⟩)) ++ more, ?_, ?_⟩
      · simp only [dispatched, List.append_assoc]
      · intro m hm
        rcases List.mem_append.1 hm with hm | hm
        · rcases List.mem_cons.1 hm with hm | hm
          · subst hm
            exact ⟨⟨_, rfl⟩, rfl⟩
          · obtain ⟨r, _, rfl⟩ := List.mem_map.1 hm
            exact ⟨⟨_, rfl⟩, rfl⟩
        · exact hw m hm

theorem dispatchAll_nil_sent (env : Env LM) (s : Scheduler LM) :
    sentBy (dispatchAll env [] s) = s.outbox := rfl

theorem dispatchAll_aborted (env : Env LM) (t : TxnId) (us : List TxnId) :
    ∀ s s' : Scheduler LM, AbortedBody t s → dispatchAll env us s = .ok s' → AbortedBody t s' := by
  induction us with
  | nil =>
    intro s s' hs hd
    simp only [dispatchAll] at hd
    cases hd
    exact hs
  | cons u rest ih =>
    intro s s' hs hd
    simp only [dispatchAll] at hd
    cases h1 : DispatchTransaction env s u with
    | error e => rw [h1] at hd; cases hd
    | ok s1 =>
      rw [h1] at hd
      refine ih s1 s' ?_ hd
      obtain ⟨h, txn, hu, hb, hs1⟩ := DispatchTransaction_ok_inv env s s1 u h1
      intro h' txn' hh' ht'
      rw [hs1] at hh'
      simp only [dispatched, UMap.set] at hh'
      by_cases htu : t = u
      · subst htu
        simp only [if_true, Option.some.injEq] at hh'
        subst hh'
        simp only [Option.some.injEq] at ht'
        subst ht'
        exact hs h txn hu hb
      · simp only [htu, if_false] at hh'
        exact hs h' txn' hh' ht'

theorem sendAbortLoop_outbox (env : Env LM) (request : Request) :
    ∀ (ps : List Nat) (s : Scheduler LM),
      (sendAbortLoop env request ps s).outbox =
        s.outbox ++
          (ps.filter (fun p => decide (p ≠ env.config.local_partition))).map (fun p =>
            ⟨request, .scheduler, some (env.config.MakeMachineIdNum env.config.local_replica p)⟩) := by
  intro ps
  induction ps with
  | nil => intro s; simp [sendAbortLoop]
  | cons p rest ih =>
    intro s
    simp only [sendAbortLoop]
    rw [ih]
    by_cases hp : p = env.config.local_partition
    · simp [hp]
    · simp [hp, Send, List.filter_cons]

theorem collectLoop_frame (t : TxnId) :
    ∀ (rs : List Nat) (s : Scheduler LM),
      (collectLoop t rs s).outbox = s.outbox ∧ (collectLoop t rs s).all_txns_ = s.all_txns_ := by
  intro rs
  induction rs with
  | nil => intro s; exact ⟨rfl, rfl⟩
  | cons r rest ih =>
    intro s
    simp only [collectLoop]
    obtain ⟨h1, h2⟩ := ih
      (if s.lock_only_txns_.contains (t, r) then
        { s with
          lock_only_txns_ := s.lock_only_txns_.erase (t, r)
          mh_abort_waiting_on_ :=
            s.mh_abort_waiting_on_.set t (s.mh_abort_waiting_on_.getD t 0 - 1) }
      else s)
    rw [h1, h2]
    split <;> exact ⟨rfl, rfl⟩

theorem AbortedBody.after_touch {t : TxnId} {s : Scheduler LM} (h : AbortedBody t s) (u : TxnId) :
    AbortedBody t (s.touchHolder u) := by
  intro h' txn' hh' ht'
  by_cases hu : t = u
  · subst hu
    rw [touchHolder_lookup] at hh'
    cases hs : s.all_txns_ t with
    | none =>
      simp only [holder, UMap.getD, hs, Option.getD_none, Option.some.injEq] at hh'
      subst hh'
      cases ht'
    | some h0 =>
      rw [holder_of_some s t h0 hs] at hh'
      have he := Option.some.inj hh'
      subst he
      exact h _ txn' hs ht'
  · have : (s.touchHolder u).all_txns_ t = s.all_txns_ t := touch_apply_ne _ _ _ _ hu
    rw [this] at hh'
    exact h h' txn' hh' ht'

theorem AbortedBody.after_collect {t : TxnId} {s : Scheduler LM} (h : AbortedBody t s) (u : TxnId) :
    AbortedBody t (CollectLockOnlyTransactionsForAbort s u) := by
  intro h' txn' hh' ht'
  unfold CollectLockOnlyTransactionsForAbort at hh'
  dsimp only at hh'
  rw [(collectLoop_frame _ _ _).2] at hh'
  exact h.after_touch u h' txn' hh' ht'

theorem finishAbort_frame (s : Scheduler LM) (t : TxnId) (ty : TransactionType) :
    (finishAbort s t ty).outbox = s.outbox ∧
      ∀ u h, (finishAbort s t ty).all_txns_ u = some h → s.all_txns_ u = some h := by
  unfold finishAbort
  split
  · split
    · exact ⟨rfl, fun _ _ h => h⟩
    · refine ⟨rfl, ?_⟩
      intro u h hu
      simp only [UMap.erase] at hu
      split at hu
      · cases hu
      · exact hu
  · refine ⟨rfl, ?_⟩
    intro u h hu
    simp only [UMap.erase] at hu
    split at hu
    · cases hu
    · exact hu

theorem MaybeFinishAbort_cases (env : Env LM) (s : Scheduler LM) (t : TxnId) :
    MaybeFinishAbort env s t = s.touchHolder t ∨
      ∃ ty, MaybeFinishAbort env s t = finishAbort (s.touchHolder t) t ty := by
  unfold MaybeFinishAbort
  dsimp only
  cases ht : ((s.touchHolder t).holder t).txn_ with
  | none => exact Or.inl rfl
  | some txn =>
    dsimp only
    split
    · exact Or.inl rfl
    · exact Or.inr ⟨_, rfl⟩

theorem MaybeFinishAbort_frame (env : Env LM) (s : Scheduler LM) (t : TxnId) :
    (MaybeFinishAbort env s t).outbox = s.outbox ∧
      ∀ u h, (MaybeFinishAbort env s t).all_txns_ u = some h →
        (s.touchHolder t).all_txns_ u = some h := by
  rcases MaybeFinishAbort_cases env s t with he | ⟨ty, he⟩
  · rw [he]
    exact ⟨rfl, fun _ _ h => h⟩
  · rw [he]
    exact ⟨(finishAbort_frame _ _ _).1, (finishAbort_frame _ _ _).2⟩

theorem AbortedBody.after_finish {t : TxnId} {s : Scheduler LM} (h : AbortedBody t s) (env : Env LM)
    (u : TxnId) : AbortedBody t (MaybeFinishAbort env s u) := by
  intro h' txn' hh' ht'
  exact h.after_touch u h' txn' ((MaybeFinishAbort_frame env s u).2 t h' hh') ht'

end Scheduler

namespace Scheduler

variable {LM : Type}

theorem set_set {K V : Type} [DecidableEq K] (m : UMap K V) (k : K) (v w : V) :
    (m.set k v).set k w = m.set k w := by
  funext k'
  by_cases hk : k' = k <;> simp [UMap.set, hk]

theorem MaybeContinuePreDispatchAbort_aborting (env : Env LM) (s : Scheduler LM) (t : TxnId)
    (h : TransactionHolder) (txn : Transaction) (hab : s.aborting_txns_ t = true)
    (hh : s.all_txns_ t = some h) (ht : h.txn_ = some txn) :
    MaybeContinuePreDispatchAbort env s t =
      match dispatchAll env
          (env.lock_manager.ReleaseLocks s.lock_manager_
            { h with
              txn_ := some (({ txn with status := .ABORTED } : Transaction).record env.config
                .EXIT_SCHEDULER) }).2
          { notified env s t h txn with
            lock_manager_ :=
              (env.lock_manager.ReleaseLocks s.lock_manager_
                { h with
                  txn_ := some (({ txn with status := .ABORTED } : Transaction).record env.config
                    .EXIT_SCHEDULER) }).1 } with
      | .error e => .error e
      | .ok s7 =>
        .ok (MaybeFinishAbort env
          (if txn.internal.type = .MULTI_HOME then CollectLockOnlyTransactionsForAbort s7 t
            else s7) t, true) := by
  have hset : (s.setHolder t { h with txn_ := some { txn with status := .ABORTED } }).all_txns_ t =
      some { h with txn_ := some { txn with status := .ABORTED } } := by
    simp [setHolder, UMap.set]
  have hsend := SendToCoordinatingServer_ok env
    (s.setHolder t { h with txn_ := some { txn with status := .ABORTED } }) t _ _ hset rfl
  have hs3 : ({ s.setHolder t { h with txn_ := some { txn with status := .ABORTED } } with
      outbox :=
        (s.setHolder t { h with txn_ := some { txn with status := .ABORTED } }).outbox ++
          [⟨.completed_subtxn
              (({ txn with status := .ABORTED } : Transaction).record env.config .EXIT_SCHEDULER)
              env.config.local_partition
              ({ h with txn_ := some { txn with status := .ABORTED } } :
                TransactionHolder).involved_partitions_,
            .server,
            some (env.config.MakeMachineIdNum
              ({ txn with status := .ABORTED } : Transaction).internal.coordinating_server.replica
              ({ txn with status := .ABORTED } :
                Transaction).internal.coordinating_server.partition)⟩]
      all_txns_ :=
        (s.setHolder t { h with txn_ := some { txn with status := .ABORTED } }).all_txns_.set t
          { ({ h with txn_ := some { txn with status := .ABORTED } } : TransactionHolder) with
            txn_ := some (({ txn with status := .ABORTED } : Transaction).record env.config
              .EXIT_SCHEDULER) } } : Scheduler LM) =
      { s with
        outbox := s.outbox ++ [abortNotice env h txn]
        all_txns_ :=
          s.all_txns_.set t
            { h with
              txn_ := some (({ txn with status := .ABORTED } : Transaction).record env.config
                .EXIT_SCHEDULER) } } := by
    simp only [setHolder, set_set, abortNotice]
  rw [hs3] at hsend
  generalize hs3' : ({ s with
        outbox := s.outbox ++ [abortNotice env h txn]
        all_txns_ :=
          s.all_txns_.set t
            { h with
              txn_ := some (({ txn with status := .ABORTED } : Transaction).record env.config
                .EXIT_SCHEDULER) } } : Scheduler LM) = s3 at hsend
  have f3 : s3.all_txns_ t = some { h with
        txn_ := some (({ txn with status := .ABORTED } : Transaction).record env.config
          .EXIT_SCHEDULER) } := by
    subst hs3'
    simp [UMap.set]
  have h4 : (if (s3.holder t).involved_partitions_.length > 1 then
      SendAbortToPartitions env s3 t else s3) = notified env s t h txn := by
    rw [holder_of_some s3 t _ f3]
    simp only [SendAbortToPartitions, touchHolder_of_some s3 t _ f3, holder_of_some s3 t _ f3]
    by_cases hlen : h.involved_partitions_.length > 1
    · simp only [hlen, if_true]
      obtain ⟨a, b, c, d, e⟩ := sendAbortLoop_fields env
        (Request.remote_read_result
          { txn_id := t, partition := env.config.local_partition, will_abort := true,
            reads := [] })
        h.active_partitions_ s3
      have o := sendAbortLoop_outbox env
        (Request.remote_read_result
          { txn_id := t, partition := env.config.local_partition, will_abort := true,
            reads := [] })
        h.active_partitions_ s3
      generalize sendAbortLoop env _ h.active_partitions_ s3 = s4 at a b c d e o
      subst hs3'
      cases s4
      simp only at a b c d e o
      subst a b c d e o
      simp [notified, abortMessages, hlen]
    · simp only [hlen, if_false]
      subst hs3'
      simp [notified, abortMessages, hlen]
  have f4 : (notified env s t h txn).all_txns_ t = some { h with
        txn_ := some (({ txn with status := .ABORTED } : Transaction).record env.config
          .EXIT_SCHEDULER) } := by
    simp [notified, UMap.set]
  have hab' : (!s.aborting_txns_ t) = false := by simp [hab]
  simp only [MaybeContinuePreDispatchAbort, hab', Bool.false_eq_true, if_false,
    touchHolder_of_some s t h hh, holder_of_some s t h hh, ht, hsend, h4,
    touchHolder_of_some _ t _ f4, holder_of_some _ t _ f4]
  rfl

end Scheduler

namespace Scheduler

variable {LM : Type}

theorem dispatchAll_sent_nil (env : Env LM) (us : List TxnId) (s : Scheduler LM) :
    ∃ rest,
      sentBy (dispatchAll env us s) = s.outbox ++ rest ∧
        (∀ m ∈ rest, (∃ w, m.to_channel = .worker w) ∧ m.to_machine_id = none) ∧
        (us = [] → rest = []) := by
  cases us with
  | nil => exact ⟨[], by simp [dispatchAll, sentBy], by simp, fun _ => rfl⟩
  | cons u rest =>
    obtain ⟨more, h1, h2⟩ := dispatchAll_sent env (u :: rest) s
    exact ⟨more, h1, h2, fun h => by cases h⟩

theorem CollectLockOnlyTransactionsForAbort_outbox (s : Scheduler LM) (t : TxnId) :
    (CollectLockOnlyTransactionsForAbort s t).outbox = s.outbox := by
  unfold CollectLockOnlyTransactionsForAbort
  dsimp only
  rw [(collectLoop_frame _ _ _).1]
  rfl

theorem length_filter_eq_of_nodup (l : List Nat) (hnd : l.Nodup) (p : Nat) :
    (l.filter (fun q => decide (q = p))).length = if p ∈ l then 1 else 0 := by
  induction l with
  | nil => simp
  | cons a rest ih =>
    have hnd' := List.nodup_cons.1 hnd
    by_cases ha : a = p
    · subst ha
      have : ¬ a ∈ rest := hnd'.1
      simp [List.filter_cons, ih hnd'.2, this]
    · have hpa : ¬ p = a := fun e => ha e.symm
      simp [List.filter_cons, ha, hpa, ih hnd'.2]

theorem MakeMachineIdNum_inj (cfg : Configuration) (r p q : Nat)
    (h : cfg.MakeMachineIdNum r p = cfg.MakeMachineIdNum r q) : p = q := by
  unfold Configuration.MakeMachineIdNum at h
  omega

theorem abortMessages_count (env : Env LM) (t : TxnId) (h : TransactionHolder)
    (hlen : 1 < h.involved_partitions_.length) (hnd : h.active_partitions_.Nodup) (p : Nat) :
    ((abortMessages env t h).filter (fun m =>
        decide (m.to_machine_id =
          some (env.config.MakeMachineIdNum env.config.local_replica p)))).length =
      if p ∈ h.active_partitions_ ∧ p ≠ env.config.local_partition then 1 else 0 := by
  have hl : h.involved_partitions_.length > 1 := hlen
  simp only [abortMessages, hl, if_true, List.filter_map, List.length_map]
  have hf : (List.filter
      ((fun m : Sent => decide (m.to_machine_id =
          some (env.config.MakeMachineIdNum env.config.local_replica p))) ∘
        fun p => (⟨Request.remote_read_result
            { txn_id := t, partition := env.config.local_partition, will_abort := true,
              reads := [] },
          Channel.scheduler,
          some (env.config.MakeMachineIdNum env.config.local_replica p)⟩ : Sent))
      (List.filter (fun p => decide (p ≠ env.config.local_partition)) h.active_partitions_)) =
      List.filter (fun q => decide (q = p))
        (List.filter (fun p => decide (p ≠ env.config.local_partition)) h.active_partitions_) := by
    apply List.filter_congr
    intro q _
    simp only [Function.comp, Option.some.injEq, decide_eq_decide]
    constructor
    · exact MakeMachineIdNum_inj _ _ _ _
    · intro e; rw [e]
  rw [hf, length_filter_eq_of_nodup _ (hnd.filter _)]
  simp [List.mem_filter]

end Scheduler

namespace Scheduler

variable {LM : Type}

/-- C15. `Scheduler::MaybeContinuePreDispatchAbort` notifies the server and the
peers: for an aborting `txn_id` whose holder has a body, the messages the call
sends (up to a fatal termination included) are, in order, one `CompletedSubtxn`
carrying the transaction with status ABORTED to the server channel of its
coordinating server, then, when more than one partition is involved, one
`RemoteReadResult(txn_id, local partition, will_abort = true)` to the scheduler
channel of (local replica, `p`) for every active partition `p` other than the
local one, and none when at most one partition is involved; whatever else is
sent goes to worker channels of this machine (the dispatch of the transactions
that `ReleaseLocks` unblocked) and is nothing when none is unblocked.  A call
that returns returns true and leaves the body, if the holder is kept, with
status ABORTED. -/
theorem MaybeContinuePreDispatchAbort_notifies (env : Env LM) (s : Scheduler LM) (txn_id : TxnId)
    (h : TransactionHolder) (txn : Transaction) (hab : s.aborting_txns_ txn_id = true)
    (hh : s.all_txns_ txn_id = some h) (ht : h.txn_ = some txn) :
    ∃ rest,
      sentWith (MaybeContinuePreDispatchAbort env s txn_id) =
          s.outbox ++ abortNotice env h txn :: (abortMessages env txn_id h ++ rest) ∧
        (∀ m ∈ rest, (∃ w, m.to_channel = .worker w) ∧ m.to_machine_id = none) ∧
        ((env.lock_manager.ReleaseLocks s.lock_manager_
            { h with
              txn_ := some (({ txn with status := .ABORTED } : Transaction).record env.config
                .EXIT_SCHEDULER) }).2 = [] → rest = []) ∧
        (∃ aborted, aborted.status = .ABORTED ∧
          aborted.payload = ({ txn with status := .ABORTED } : Transaction).payload ∧
          abortNotice env h txn =
            ⟨.completed_subtxn aborted env.config.local_partition h.involved_partitions_,
              .server,
              some (env.config.MakeMachineIdNum txn.internal.coordinating_server.replica
                txn.internal.coordinating_server.partition)⟩) ∧
        (abortNotice env h txn :: (abortMessages env txn_id h ++ rest)).filter
            (fun m => decide (m.to_channel = .server)) = [abortNotice env h txn] ∧
        (abortNotice env h txn :: (abortMessages env txn_id h ++ rest)).filter
            (fun m => decide (m.to_channel = .scheduler)) = abortMessages env txn_id h ∧
        (h.involved_partitions_.length ≤ 1 → abortMessages env txn_id h = []) ∧
        (1 < h.involved_partitions_.length →
          abortMessages env txn_id h =
            (h.active_partitions_.filter (fun p => decide (p ≠ env.config.local_partition))).map
              (fun p =>
                ⟨.remote_read_result
                    { txn_id := txn_id, partition := env.config.local_partition,
                      will_abort := true, reads := [] },
                  .scheduler, some (env.config.MakeMachineIdNum env.config.local_replica p)⟩)) ∧
        (1 < h.involved_partitions_.length → h.active_partitions_.Nodup →
          ∀ p, ((abortMessages env txn_id h).filter (fun m =>
              decide (m.to_machine_id =
                some (env.config.MakeMachineIdNum env.config.local_replica p)))).length =
            if p ∈ h.active_partitions_ ∧ p ≠ env.config.local_partition then 1 else 0) ∧
        (∀ s' b, MaybeContinuePreDispatchAbort env s txn_id = .ok (s', b) →
          b = true ∧ AbortedBody txn_id s') := by
  have heq := MaybeContinuePreDispatchAbort_aborting env s txn_id h txn hab hh ht
  obtain ⟨rest, hsent, hworker, hnil⟩ := dispatchAll_sent_nil env
    (env.lock_manager.ReleaseLocks s.lock_manager_
      { h with
        txn_ := some (({ txn with status := .ABORTED } : Transaction).record env.config
          .EXIT_SCHEDULER) }).2
    { notified env s txn_id h txn with
      lock_manager_ :=
        (env.lock_manager.ReleaseLocks s.lock_manager_
          { h with
            txn_ := some (({ txn with status := .ABORTED } : Transaction).record env.config
              .EXIT_SCHEDULER) }).1 }
  have hab0 : AbortedBody txn_id
      ({ notified env s txn_id h txn with
        lock_manager_ :=
          (env.lock_manager.ReleaseLocks s.lock_manager_
            { h with
              txn_ := some (({ txn with status := .ABORTED } : Transaction).record env.config
                .EXIT_SCHEDULER) }).1 } : Scheduler LM) := by
    intro h' txn' hh' ht'
    simp only [notified, UMap.set, if_true, Option.some.injEq] at hh'
    subst hh'
    simp only [Option.some.injEq] at ht'
    subst ht'
    rfl
  have hscheduler : ∀ m ∈ abortMessages env txn_id h, m.to_channel = .scheduler := by
    intro m hm
    unfold abortMessages at hm
    split at hm
    · obtain ⟨p, _, rfl⟩ := List.mem_map.1 hm
      rfl
    · cases hm
  refine ⟨rest, ?_, hworker, hnil, ?_, ?_, ?_, ?_, ?_, ?_, ?_⟩
  · rw [heq]
    cases hd : dispatchAll env
        (env.lock_manager.ReleaseLocks s.lock_manager_
          { h with
            txn_ := some (({ txn with status := .ABORTED } : Transaction).record env.config
              .EXIT_SCHEDULER) }).2
        { notified env s txn_id h txn with
          lock_manager_ :=
            (env.lock_manager.ReleaseLocks s.lock_manager_
              { h with
                txn_ := some (({ txn with status := .ABORTED } : Transaction).record env.config
                  .EXIT_SCHEDULER) }).1 } with
    | error e =>
      rw [hd] at hsent
      simp only [sentBy] at hsent
      simp only [sentWith, hsent, notified, List.append_assoc, List.cons_append]
    | ok s7 =>
      rw [hd] at hsent
      simp only [sentBy] at hsent
      simp only [sentWith]
      rw [(MaybeFinishAbort_frame env _ txn_id).1]
      have : (if txn.internal.type = .MULTI_HOME then
          CollectLockOnlyTransactionsForAbort s7 txn_id else s7).outbox = s7.outbox := by
        split
        · exact CollectLockOnlyTransactionsForAbort_outbox s7 txn_id
        · rfl
      rw [this, hsent]
      simp only [notified, List.append_assoc, List.cons_append]
  · exact ⟨({ txn with status := .ABORTED } : Transaction).record env.config .EXIT_SCHEDULER,
      rfl, rfl, rfl⟩
  · have h1 : ∀ m ∈ abortMessages env txn_id h ++ rest, ¬ m.to_channel = .server := by
      intro m hm
      rcases List.mem_append.1 hm with hm | hm
      · rw [hscheduler m hm]; simp
      · obtain ⟨⟨w, hw⟩, _⟩ := hworker m hm
        rw [hw]; simp
    have h2 : (abortMessages env txn_id h ++ rest).filter
        (fun m => decide (m.to_channel = .server)) = [] := by
      rw [List.filter_eq_nil_iff]
      intro m hm
      simpa using h1 m hm
    rw [List.filter_cons, h2]
    simp [abortNotice]
  · have h2 : rest.filter (fun m => decide (m.to_channel = .scheduler)) = [] := by
      rw [List.filter_eq_nil_iff]
      intro m hm
      obtain ⟨⟨w, hw⟩, _⟩ := hworker m hm
      rw [hw]; simp
    have h3 : (abortMessages env txn_id h).filter
        (fun m => decide (m.to_channel = .scheduler)) = abortMessages env txn_id h := by
      rw [List.filter_eq_self]
      intro m hm
      simpa using hscheduler m hm
    rw [List.filter_cons, List.filter_append, h2, h3]
    simp [abortNotice]
  · intro hle
    have : ¬ h.involved_partitions_.length > 1 := by omega
    simp [abortMessages, this]
  · intro hlt
    have : h.involved_partitions_.length > 1 := hlt
    simp [abortMessages, this]
  · intro hlt hnd p
    exact abortMessages_count env txn_id h hlt hnd p
  · intro s' b hok
    rw [heq] at hok
    cases hd : dispatchAll env
        (env.lock_manager.ReleaseLocks s.lock_manager_
          { h with
            txn_ := some (({ txn with status := .ABORTED } : Transaction).record env.config
              .EXIT_SCHEDULER) }).2
        { notified env s txn_id h txn with
          lock_manager_ :=
            (env.lock_manager.ReleaseLocks s.lock_manager_
              { h with
                txn_ := some (({ txn with status := .ABORTED } : Transaction).record env.config
                  .EXIT_SCHEDULER) }).1 } with
    | error e =>
      rw [hd] at hok
      cases hok
    | ok s7 =>
      rw [hd] at hok
      simp only [Except.ok.injEq, Prod.mk.injEq] at hok
      obtain ⟨hs', hb⟩ := hok
      refine ⟨hb.symm, ?_⟩
      rw [← hs']
      apply AbortedBody.after_finish
      have h7 := dispatchAll_aborted env txn_id _ _ s7 hab0 hd
      split
      · exact h7.after_collect txn_id
      · exact h7

end Scheduler

namespace Scheduler

theorem MaybeContinuePreDispatchAbort_notifies_witness :
    sampleAbortingBody.aborting_txns_ 7 = true ∧
      sampleAbortingBody.all_txns_ 7 =
        some ⟨some (sampleTxn 7 .SINGLE_HOME 0), none, [], ["k"], [0, 1], [0, 1], [0]⟩ ∧
      sentWith (MaybeContinuePreDispatchAbort sampleEnv sampleAbortingBody 7) =
        [⟨.completed_subtxn
            (({ sampleTxn 7 .SINGLE_HOME 0 with status := .ABORTED } : Transaction).record
              sampleConfig .EXIT_SCHEDULER) 0 [0, 1], .server, some 0⟩,
          ⟨.remote_read_result ⟨7, 0, true, []⟩, .scheduler, some 1⟩] := by
  refine ⟨rfl, rfl, ?_⟩
  obtain ⟨rest, hsent, _, hnil, _⟩ :=
    MaybeContinuePreDispatchAbort_notifies sampleEnv sampleAbortingBody 7
      ⟨some (sampleTxn 7 .SINGLE_HOME 0), none, [], ["k"], [0, 1], [0, 1], [0]⟩
      (sampleTxn 7 .SINGLE_HOME 0) rfl rfl rfl
  rw [hsent, hnil rfl]
  rfl

end Scheduler

/-! ## CSVWriter: the column count and the separators -/

namespace CSVWriter

theorem intersperse_cons_flatMap (sep : String) (c : String) (cs : List String) :
    (c :: cs).intersperse sep = c :: cs.flatMap (fun x => [sep, x]) := by
  induction cs generalizing c with
  | nil => rfl
  | cons d ds ih =>
    rw [List.intersperse_cons_cons, ih]
    rfl

theorem intersperse_concat (sep : String) (l : List String) (x : String) :
    (l ++ [x]).intersperse sep = if l = [] then [x] else l.intersperse sep ++ [sep, x] := by
  cases l with
  | nil => rfl
  | cons c cs =>
    simp only [List.cons_append, intersperse_cons_flatMap, List.flatMap_append, reduceCtorEq,
      if_false]
    simp [List.flatMap]

theorem headerLoop_false (cols : List String) :
    ∀ file, headerLoop cols false file = file ++ cols.flatMap (fun c => [",", c]) := by
  induction cols with
  | nil => intro file; simp [headerLoop]
  | cons c cs ih =>
    intro file
    simp only [headerLoop, Bool.not_false, if_true]
    rw [ih]
    simp [List.flatMap]

theorem headerLoop_true (cols : List String) :
    headerLoop cols true [] = cols.intersperse "," := by
  cases cols with
  | nil => rfl
  | cons c cs =>
    simp only [headerLoop, Bool.not_true, Bool.false_eq_true, if_false, List.nil_append]
    rw [headerLoop_false, intersperse_cons_flatMap]
    rfl

theorem construct_ok (columns : List String) (delimiter : Char) (h : columns ≠ []) :
    construct columns delimiter =
      .ok { num_columns_ := columns.length, line_items_ := 0, delim_ := delimiter,
            file_ := lineOf "," columns } := by
  have : columns.isEmpty = false := by
    cases columns with
    | nil => exact absurd rfl h
    | cons c cs => rfl
  simp only [construct, this, Bool.false_eq_true, if_false, headerLoop_true, lineOf]

theorem runAll_concat (ops : List CSVOp) (op : CSVOp) :
    ∀ w : CSVWriter, runAll w (ops ++ [op]) =
      match runAll w ops with
      | .ok w1 => w1.run op
      | .error e => .error e := by
  induction ops with
  | nil =>
    intro w
    simp only [List.nil_append, runAll]
    cases w.run op <;> rfl
  | cons o rest ih =>
    intro w
    simp only [List.cons_append, runAll]
    cases w.run o with
    | ok w1 => exact ih w1
    | error e => rfl

theorem splitRows_concat_item (ops : List CSVOp) (str : String) :
    splitRows (ops ++ [.item str]) = ((splitRows ops).1, (splitRows ops).2 ++ [str]) := by
  simp [splitRows, List.foldl_append]

theorem splitRows_concat_endl (ops : List CSVOp) :
    splitRows (ops ++ [.endl]) = ((splitRows ops).1 ++ [(splitRows ops).2], []) := by
  simp [splitRows, List.foldl_append]

theorem reached (w0 : CSVWriter) (h0 : w0.line_items_ = 0) (ops : List CSVOp) :
    ∀ w, runAll w0 ops = .ok w → Reached w0 ops w := by
  induction ops using List.reverseRecOn with
  | nil =>
    intro w hw
    simp only [runAll, Except.ok.injEq] at hw
    subst hw
    exact ⟨rfl, rfl, by simpa [splitRows] using h0, by simp [splitRows],
      by simp [splitRows], by simp [splitRows]⟩
  | append_singleton ops op ih =>
    intro w hw
    rw [runAll_concat] at hw
    cases h1 : runAll w0 ops with
    | error e => rw [h1] at hw; cases hw
    | ok w1 =>
      rw [h1] at hw
      simp only at hw
      have r := ih w1 h1
      cases op with
      | item str =>
        simp only [run, append, IncrementLineItemsAndCheck] at hw
        split at hw
        · cases hw
        · rename_i w2 hinc
          split at hinc
          · cases hinc
          · rename_i hle
            simp only [Except.ok.injEq] at hinc
            subst hinc
            simp only [Except.ok.injEq] at hw
            subst hw
            simp only [gt_iff_lt, not_lt] at hle
            refine ⟨?_, ?_, ?_, ?_, ?_, ?_⟩ <;> (try simp only [splitRows_concat_item])
            · simp only [AppendDelim]
              split <;> exact r.columns
            · simp only [AppendDelim]
              split <;> exact r.delim
            · simp only [AppendDelim, List.length_append, List.length_singleton]
              split <;> simp [r.items]
            · simp only [List.length_append, List.length_singleton]
              rw [← r.items, ← r.columns]
              exact hle
            · exact r.rows
            · simp only [AppendDelim, intersperse_concat]
              by_cases hp : (splitRows ops).2 = []
              · have hz : w1.line_items_ = 0 := by rw [r.items, hp]; rfl
                simp [hz, hp, r.file]
              · have hpos : 0 < w1.line_items_ := by
                  rw [r.items]
                  exact List.length_pos.2 hp
                have hgt : w1.line_items_ + 1 > 1 := by omega
                simp [hgt, hp, r.file, r.delim]
      | endl =>
        simp only [run, endLine] at hw
        split at hw
        · cases hw
        · rename_i heq
          simp only [ne_eq, Decidable.not_not] at heq
          simp only [Except.ok.injEq] at hw
          subst hw
          refine ⟨r.columns, r.delim, ?_, ?_, ?_, ?_⟩ <;> (try simp only [splitRows_concat_endl])
          · rfl
          · simp
          · intro row hrow
            rcases List.mem_append.1 hrow with hrow | hrow
            · exact r.rows row hrow
            · simp only [List.mem_singleton] at hrow
              subst hrow
              rw [← r.items, heq, r.columns]
          · simp [r.file, lineOf, List.flatMap_append]

theorem append_error_iff (w : CSVWriter) (str : String) :
    (∃ e, w.append str = .error e) ↔ w.num_columns_ < w.line_items_ + 1 := by
  simp only [append, IncrementLineItemsAndCheck]
  by_cases h : w.line_items_ + 1 > w.num_columns_
  · simp [h]
  · simp [h]

theorem append_error_writer (w : CSVWriter) (str : String) (e : Thrown)
    (h : w.append str = .error e) :
    e.writer = { w with line_items_ := w.line_items_ + 1 } := by
  simp only [append, IncrementLineItemsAndCheck] at h
  by_cases hc : w.line_items_ + 1 > w.num_columns_
  · simp only [hc, if_true, Except.error.injEq] at h
    rw [← h]
  · simp [hc] at h

theorem endLine_error_iff (w : CSVWriter) :
    (∃ e, w.endLine = .error e) ↔ w.line_items_ ≠ w.num_columns_ := by
  simp only [endLine]
  by_cases h : w.line_items_ = w.num_columns_
  · simp [h]
  · simp [h]

theorem endLine_error_writer (w : CSVWriter) (e : Thrown) (h : w.endLine = .error e) :
    e.writer = w := by
  simp only [endLine] at h
  by_cases hc : w.line_items_ = w.num_columns_
  · simp [hc] at h
  · simp only [ne_eq, hc, not_false_eq_true, if_true, Except.error.injEq] at h
    rw [← h]

theorem endLine_ok (w w' : CSVWriter) (h : w.endLine = .ok w') :
    w' = { w with file_ := w.file_ ++ ["\n"], line_items_ := 0 } := by
  simp only [endLine] at h
  by_cases hc : w.line_items_ = w.num_columns_
  · simp only [ne_eq, hc, not_true_eq_false, if_false, Except.ok.injEq] at h
    rw [← h]
  · simp [hc] at h

end CSVWriter

open CSVWriter in
/-- C16. The column count of `CSVWriter`.  The constructor throws exactly when the
column list is empty.  For a writer constructed with `n >= 1` columns and reached
by uses none of which threw, `line_items_` is the number of items appended since
the last row end (or since the construction), at most `n`; appending an item
throws if and only if that number is `n`, ending a row throws if and only if it is
different from `n`; a row end that returns resets the count to 0, so that every
row ended has exactly `n` items.  A throw writes nothing to the file, and that of
a row end leaves the members as they were; but an append that throws leaves the
count at `n + 1`, since `IncrementLineItemsAndCheck` increments before it checks.
So on the writer a failed append leaves, exactly `n` items have been appended since
the last row end and the row end that would have returned before the failed
append throws "Number of items must match number of columns", as does every
later append: no row can be completed any more. -/
theorem CSVWriter_enforces_column_count (columns : List String) (delimiter : Char) :
    ((∃ what, construct columns delimiter = .error what) ↔ columns = []) ∧
      (columns = [] →
        construct columns delimiter = .error "There must be at least one column") ∧
      (columns ≠ [] →
        ∃ w0, construct columns delimiter = .ok w0 ∧ w0.num_columns_ = columns.length ∧
          w0.line_items_ = 0 ∧
          ∀ ops w, runAll w0 ops = .ok w →
            w.num_columns_ = columns.length ∧
              w.line_items_ = (splitRows ops).2.length ∧
              (splitRows ops).2.length ≤ columns.length ∧
              (∀ str, (∃ e, w.append str = .error e) ↔
                (splitRows ops).2.length = columns.length) ∧
              ((∃ e, w.endLine = .error e) ↔ (splitRows ops).2.length ≠ columns.length) ∧
              (∀ w1, w.endLine = .ok w1 →
                w1.line_items_ = 0 ∧
                  splitRows (ops ++ [.endl]) = ((splitRows ops).1 ++ [(splitRows ops).2], []) ∧
                  (splitRows ops).2.length = columns.length) ∧
              (∀ row ∈ (splitRows ops).1, row.length = columns.length) ∧
              (∀ str e, w.append str = .error e →
                e.writer.file_ = w.file_ ∧ e.writer.line_items_ = w.line_items_ + 1) ∧
              (∀ e, w.endLine = .error e → e.writer = w) ∧
              (∀ str e, w.append str = .error e →
                (splitRows ops).2.length = columns.length ∧
                  e.what = "Number of items exceeds number of columns" ∧
                  e.writer.line_items_ = columns.length + 1 ∧
                  w.endLine = .ok { w with file_ := w.file_ ++ ["\n"], line_items_ := 0 } ∧
                  e.writer.endLine =
                    .error ⟨"Number of items must match number of columns", e.writer⟩ ∧
                  ∀ str1, e.writer.append str1 =
                    .error ⟨"Number of items exceeds number of columns",
                      { e.writer with line_items_ := columns.length + 2 }⟩)) := by
  refine ⟨?_, ?_, ?_⟩
  · constructor
    · rintro ⟨what, hw⟩
      by_contra hne
      rw [construct_ok columns delimiter hne] at hw
      cases hw
    · intro h
      subst h
      exact ⟨_, rfl⟩
  · intro h
    subst h
    rfl
  · intro hne
    refine ⟨_, construct_ok columns delimiter hne, rfl, rfl, ?_⟩
    intro ops w hw
    have r := reached
      { num_columns_ := columns.length, line_items_ := 0, delim_ := delimiter,
        file_ := lineOf "," columns } rfl ops w hw
    have hcol : w.num_columns_ = columns.length := r.columns
    have hitems := r.items
    have hbound : (splitRows ops).2.length ≤ columns.length := r.bound
    refine ⟨hcol, hitems, hbound, ?_, ?_, ?_, r.rows, ?_, ?_, ?_⟩
    · intro str
      rw [append_error_iff, hcol, hitems]
      omega
    · rw [endLine_error_iff, hcol, hitems]
    · intro w1 hw1
      have hnot : ¬ ∃ e, w.endLine = .error e := by
        rintro ⟨e, he⟩
        rw [hw1] at he
        cases he
      rw [endLine_error_iff, hcol, hitems] at hnot
      rw [endLine_ok w w1 hw1]
      exact ⟨rfl, splitRows_concat_endl ops, by simpa using hnot⟩
    · intro str e he
      rw [append_error_writer w str e he]
      exact ⟨rfl, rfl⟩
    · intro e he
      exact endLine_error_writer w e he
    · intro str e he
      have hfull : (splitRows ops).2.length = columns.length := by
        have := (append_error_iff w str).1 ⟨e, he⟩
        rw [hcol, hitems] at this
        omega
      have hli : w.line_items_ = columns.length := by rw [hitems, hfull]
      have hwr := append_error_writer w str e he
      have hwhat : e.what = "Number of items exceeds number of columns" := by
        simp only [append, IncrementLineItemsAndCheck] at he
        by_cases hc : w.line_items_ + 1 > w.num_columns_
        · simp only [hc, if_true, Except.error.injEq] at he
          rw [← he]
        · simp [hc] at he
      refine ⟨hfull, hwhat, ?_, ?_, ?_, ?_⟩
      · rw [hwr]; simp [hli]
      · simp [endLine, hli, hcol]
      · rw [hwr]
        simp [endLine, hli, hcol]
      · intro str1
        rw [hwr]
        have hlt : columns.length < columns.length + 1 + 1 := by omega
        simp only [append, IncrementLineItemsAndCheck, hli, hcol, gt_iff_lt, hlt, if_true]

open CSVWriter in
theorem CSVWriter_enforces_column_count_witness :
    ∃ w0, construct ["a", "b"] ';' = .ok w0 ∧
      ∃ w, runAll w0 [.item "1", .item "2"] = .ok w ∧
        (splitRows [.item "1", .item "2"]).2 = ["1", "2"] ∧
        ∃ e, w.append "3" = .error e ∧
          e.writer.file_ = w.file_ ∧
          e.writer.line_items_ = 3 ∧
          w.endLine = .ok { w with file_ := w.file_ ++ ["\n"], line_items_ := 0 } ∧
          e.writer.endLine =
            .error ⟨"Number of items must match number of columns", e.writer⟩ := by
  obtain ⟨w0, h0, _, _, hall⟩ :=
    (CSVWriter_enforces_column_count ["a", "b"] ';').2.2 (by decide)
  refine ⟨w0, h0, ?_⟩
  have hw0 : w0 = ⟨2, 0, ';', ["a", ",", "b", "\n"]⟩ := by
    have : construct ["a", "b"] ';' = .ok ⟨2, 0, ';', ["a", ",", "b", "\n"]⟩ := rfl
    rw [this] at h0
    exact (Except.ok.inj h0).symm
  have hrun : runAll w0 [.item "1", .item "2"] =
      .ok ⟨2, 2, ';', ["a", ",", "b", "\n", "1", ";", "2"]⟩ := by
    rw [hw0]
    rfl
  have happ : CSVWriter.append ⟨2, 2, ';', ["a", ",", "b", "\n", "1", ";", "2"]⟩ "3" =
      .error ⟨"Number of items exceeds number of columns",
        ⟨2, 3, ';', ["a", ",", "b", "\n", "1", ";", "2"]⟩⟩ := rfl
  obtain ⟨_, _, _, _, _, _, _, h8, _, h10⟩ := hall _ _ hrun
  obtain ⟨_, _, k3, k4, k5, _⟩ := h10 "3" _ happ
  exact ⟨_, hrun, rfl, _, happ, (h8 "3" _ happ).1, k3, k4, k5⟩

open CSVWriter in
/-- C18. The delimiter of `CSVWriter`: the header that the constructor writes
separates the column names with the literal "," whatever the delimiter given
to it is, while the items of every row are separated by that delimiter.  The
file of a writer constructed with `columns` and `delimiter` is the header
`columns` joined by "," and a newline, and after uses none of which threw it is
that header followed by every row ended, its items joined by `delimiter`, and a
newline, and by the items appended since, joined by `delimiter`; so for a
delimiter other than a comma no column name of the header is followed by the
delimiter. -/
theorem CSVWriter_header_separator (columns : List String) (delimiter : Char)
    (hcols : columns ≠ []) :
    ∃ w0, construct columns delimiter = .ok w0 ∧ w0.delim_ = delimiter ∧
      w0.file_ = columns.intersperse "," ++ ["\n"] ∧
      (∀ ops w, runAll w0 ops = .ok w →
        w.file_ =
          lineOf "," columns ++
            (splitRows ops).1.flatMap (lineOf (String.singleton delimiter)) ++
              (splitRows ops).2.intersperse (String.singleton delimiter)) ∧
      (delimiter ≠ ',' → String.singleton delimiter ≠ ",") := by
  refine ⟨_, construct_ok columns delimiter hcols, rfl, rfl, ?_, ?_⟩
  · intro ops w hw
    exact (reached
      { num_columns_ := columns.length, line_items_ := 0, delim_ := delimiter,
        file_ := lineOf "," columns } rfl ops w hw).file
  · intro hne heq
    apply hne
    have := congrArg String.data heq
    simpa [String.singleton] using this

open CSVWriter in
theorem CSVWriter_header_separator_witness :
    ∃ w0, construct ["a", "b"] ';' = .ok w0 ∧ w0.contents = "a,b\n" ∧
      ¬ ';' ∈ w0.contents.toList ∧
      ∃ w, runAll w0 [.item "1", .item "2", .endl] = .ok w ∧ w.contents = "a,b\n1;2\n" := by
  obtain ⟨w0, h0, _, hfile, _, _⟩ := CSVWriter_header_separator ["a", "b"] ';' (by decide)
  have hw0 : w0 = ⟨2, 0, ';', ["a", ",", "b", "\n"]⟩ := by
    have : construct ["a", "b"] ';' = .ok ⟨2, 0, ';', ["a", ",", "b", "\n"]⟩ := rfl
    rw [this] at h0
    exact (Except.ok.inj h0).symm
  have hrun : runAll w0 [.item "1", .item "2", .endl] =
      .ok ⟨2, 0, ';', ["a", ",", "b", "\n", "1", ";", "2", "\n"]⟩ := by
    rw [hw0]
    rfl
  refine ⟨w0, h0, ?_, ?_, _, hrun, ?_⟩
  · rw [contents, hfile]
    decide
  · rw [contents, hfile]
    decide
  · decide

/-! ## Worker: the storage after a transaction -/

namespace Worker

theorem readLoop_eq_map (env : WorkerEnv) (storage : Storage) (set : List (Key × Value)) :
    readLoop env storage set =
      set.map (fun key_value =>
        (key_value.1, (Storage.Read storage key_value.1 env.defaultRecord).2.value)) := by
  induction set with
  | nil => rfl
  | cons kv rest ih => simp only [readLoop, List.map_cons, ih]

theorem deleteLoop_apply (ds : List Key) :
    ∀ (storage : Storage) (key : Key),
      deleteLoop ds storage key = if key ∈ ds then none else storage key := by
  induction ds with
  | nil => intro storage key; simp [deleteLoop]
  | cons d rest ih =>
    intro storage key
    simp only [deleteLoop, ih, Storage.Delete, UMap.erase, List.mem_cons]
    by_cases hr : key ∈ rest
    · simp [hr]
    · by_cases hd : key = d
      · simp [hr, hd]
      · simp [hr, hd]

/-- What the write loop leaves: the keys of the write set hold the values
written, with the metadata they had or, for a new key, that of the master
metadata; the other keys are as they were. -/
theorem writeLoop_spec (env : WorkerEnv) (mm : List (Key × MasterMetadata))
    (ws : List (Key × Value)) :
    ∀ storage : Storage, (ws.map Prod.fst).Nodup →
      (∀ kv ∈ ws, storage kv.1 = none → (mm.lookup kv.1).isSome = true) →
      ∃ written, writeLoop env mm ws storage = .ok written ∧
        (∀ key, key ∉ ws.map Prod.fst → written key = storage key) ∧
        ∀ kv ∈ ws, ∃ record, written kv.1 = some record ∧ record.value = kv.2 ∧
          (∀ old, storage kv.1 = some old → record.metadata = old.metadata) ∧
          (storage kv.1 = none → mm.lookup kv.1 = some record.metadata) := by
  induction ws with
  | nil =>
    intro storage _ _
    exact ⟨storage, rfl, fun _ _ => rfl, by simp⟩
  | cons kv rest ih =>
    intro storage hnd hmeta
    have hnd' : kv.1 ∉ rest.map Prod.fst ∧ (rest.map Prod.fst).Nodup := by
      rw [List.map_cons] at hnd
      exact List.nodup_cons.1 hnd
    have hfresh : kv.1 ∉ rest.map Prod.fst := hnd'.1
    -- the storage after the write of `kv`, and the record written
    have hstep : ∃ record, record.value = kv.2 ∧
        (∀ old, storage kv.1 = some old → record.metadata = old.metadata) ∧
        (storage kv.1 = none → mm.lookup kv.1 = some record.metadata) ∧
        writeLoop env mm (kv :: rest) storage =
          writeLoop env mm rest (Storage.Write storage kv.1 record) := by
      cases hs : storage kv.1 with
      | some old =>
        refine ⟨{ old with value := kv.2 }, rfl, ?_, ?_, ?_⟩
        · intro o ho
          cases ho
          rfl
        · intro h
          cases h
        · simp [writeLoop, Storage.Read, hs]
      | none =>
        have hm := hmeta kv (List.mem_cons_self _ _) hs
        cases hl : mm.lookup kv.1 with
        | none => rw [hl] at hm; cases hm
        | some metadata =>
          refine ⟨{ value := kv.2, metadata := metadata }, rfl, ?_, ?_, ?_⟩
          · intro o ho
            cases ho
          · intro _
            rfl
          · simp [writeLoop, Storage.Read, hs, hl]
    obtain ⟨record, hval, hold, hnew, hrun⟩ := hstep
    have hother : ∀ key, key ≠ kv.1 → Storage.Write storage kv.1 record key = storage key := by
      intro key hk
      simp [Storage.Write, UMap.set, hk]
    obtain ⟨written, hw, hframe, hall⟩ := ih (Storage.Write storage kv.1 record) hnd'.2 (by
      intro kv' hkv' hnone
      have hne : kv'.1 ≠ kv.1 := by
        intro e
        exact hfresh (e ▸ List.mem_map_of_mem Prod.fst hkv')
      rw [hother _ hne] at hnone
      exact hmeta kv' (List.mem_cons_of_mem _ hkv') hnone)
    refine ⟨written, hrun.trans hw, ?_, ?_⟩
    · intro key hkey
      simp only [List.map_cons, List.mem_cons, not_or] at hkey
      rw [hframe key hkey.2, hother key hkey.1]
    · intro kv' hkv'
      rcases List.mem_cons.1 hkv' with he | hin
      · subst he
        refine ⟨record, ?_, hval, hold, hnew⟩
        rw [hframe _ hfresh]
        simp [Storage.Write, UMap.set]
      · have hne : kv'.1 ≠ kv.1 := by
          intro e
          exact hfresh (e ▸ List.mem_map_of_mem Prod.fst hin)
        obtain ⟨r, h1, h2, h3, h4⟩ := hall kv' hin
        rw [hother _ hne] at h3 h4
        exact ⟨r, h1, h2, h3, h4⟩

end Worker

open Worker in
/-- C17. `Worker::ProcessTransaction` updates the storage as write-then-delete.
The transaction handed to the stored procedure is the given one with every entry
of its read set and of its write set holding the value read from the storage.
With the keys of the write set that the procedure leaves pairwise distinct (it
is a map) and master metadata present for those not yet stored, the call
returns the transaction the procedure left and a storage in which every key of
its delete set is absent, every other key of its write set holds the value
written, with the metadata the key had before or, for a key not stored before,
that of its master metadata, and every key outside both sets is as before. -/
theorem Worker_ProcessTransaction_write_then_delete (env : WorkerEnv) (storage : Storage)
    (txn : Transaction)
    (hnd : ((env.Execute (readBuffers env storage txn)).write_set.map Prod.fst).Nodup)
    (hmeta : ∀ kv ∈ (env.Execute (readBuffers env storage txn)).write_set,
      storage kv.1 = none →
        ((env.Execute (readBuffers env storage txn)).internal.master_metadata.lookup
          kv.1).isSome = true) :
    (readBuffers env storage txn).read_set =
        txn.read_set.map (fun key_value =>
          (key_value.1, (Storage.Read storage key_value.1 env.defaultRecord).2.value)) ∧
      (readBuffers env storage txn).write_set =
        txn.write_set.map (fun key_value =>
          (key_value.1, (Storage.Read storage key_value.1 env.defaultRecord).2.value)) ∧
      (∀ key record, storage key = some record →
        (Storage.Read storage key env.defaultRecord).2.value = record.value) ∧
      (readBuffers env storage txn).internal = txn.internal ∧
      (readBuffers env storage txn).delete_set = txn.delete_set ∧
      ∃ after, ProcessTransaction env storage txn =
          .ok (after, env.Execute (readBuffers env storage txn)) ∧
        (∀ key, key ∈ (env.Execute (readBuffers env storage txn)).delete_set →
          after key = none) ∧
        (∀ key value, (key, value) ∈ (env.Execute (readBuffers env storage txn)).write_set →
          key ∉ (env.Execute (readBuffers env storage txn)).delete_set →
          ∃ record, after key = some record ∧ record.value = value ∧
            (∀ old, storage key = some old → record.metadata = old.metadata) ∧
            (storage key = none →
              (env.Execute (readBuffers env storage txn)).internal.master_metadata.lookup key =
                some record.metadata)) ∧
        (∀ key,
          key ∉ (env.Execute (readBuffers env storage txn)).write_set.map Prod.fst →
          key ∉ (env.Execute (readBuffers env storage txn)).delete_set →
          after key = storage key) := by
  refine ⟨readLoop_eq_map env storage _, readLoop_eq_map env storage _, ?_, rfl, rfl, ?_⟩
  · intro key record hs
    simp [Storage.Read, hs]
  · obtain ⟨written, hw, hframe, hall⟩ := writeLoop_spec env
      (env.Execute (readBuffers env storage txn)).internal.master_metadata
      (env.Execute (readBuffers env storage txn)).write_set storage hnd hmeta
    refine ⟨deleteLoop (env.Execute (readBuffers env storage txn)).delete_set written, ?_, ?_, ?_,
      ?_⟩
    · simp only [ProcessTransaction, hw]
    · intro key hkey
      rw [deleteLoop_apply]
      simp [hkey]
    · intro key value hkv hdel
      obtain ⟨record, h1, h2, h3, h4⟩ := hall (key, value) hkv
      refine ⟨record, ?_, h2, h3, h4⟩
      rw [deleteLoop_apply]
      simp only [hdel, if_false]
      exact h1
    · intro key hw' hdel
      rw [deleteLoop_apply]
      simp only [hdel, if_false]
      exact hframe key hw'

open Worker in
theorem Worker_ProcessTransaction_write_then_delete_witness :
    ((sampleWorkerEnv.Execute
        (readBuffers sampleWorkerEnv sampleStorage sampleWorkerTxn)).write_set.map Prod.fst).Nodup ∧
      (readBuffers sampleWorkerEnv sampleStorage sampleWorkerTxn).write_set =
        [("k", "old"), ("fresh", "")] ∧
      ∃ after, ProcessTransaction sampleWorkerEnv sampleStorage sampleWorkerTxn =
          .ok (after,
            sampleWorkerEnv.Execute (readBuffers sampleWorkerEnv sampleStorage sampleWorkerTxn)) ∧
        after "gone" = none ∧
        (∃ record, after "k" = some record ∧ record.value = "new" ∧ record.metadata = ⟨1, 5⟩) ∧
        (∃ record, after "fresh" = some record ∧ record.value = "new" ∧
          record.metadata = ⟨1, 0⟩) := by
  have hnd : ((sampleWorkerEnv.Execute
      (readBuffers sampleWorkerEnv sampleStorage sampleWorkerTxn)).write_set.map Prod.fst).Nodup := by
    decide
  refine ⟨hnd, by decide, ?_⟩
  obtain ⟨_, _, _, _, _, after, hrun, hdel, hwr, _⟩ :=
    Worker_ProcessTransaction_write_then_delete sampleWorkerEnv sampleStorage sampleWorkerTxn hnd
      (by decide)
  refine ⟨after, hrun, hdel "gone" (by decide), ?_, ?_⟩
  · obtain ⟨record, h1, h2, h3, _⟩ := hwr "k" "new" (by decide) (by decide)
    exact ⟨record, h1, h2, h3 ⟨"old", ⟨1, 5⟩⟩ (by decide)⟩
  · obtain ⟨record, h1, h2, _, h4⟩ := hwr "fresh" "new" (by decide) (by decide)
    have h5 := h4 (by decide)
    exact ⟨record, h1, h2, (Option.some.inj h5).symm⟩

/-! ## Scheduler: the worker reply dispatches what the release unblocks -/

namespace Scheduler

variable {LM : Type}

theorem flatMap_congr_mem {α β : Type} (l : List α) (f g : α → List β)
    (h : ∀ a ∈ l, f a = g a) : l.flatMap f = l.flatMap g := by
  induction l with
  | nil => rfl
  | cons a rest ih =>
    simp only [List.flatMap_cons]
    rw [h a (List.mem_cons_self _ _), ih (fun b hb => h b (List.mem_cons_of_mem _ hb))]

theorem holder_dispatched_ne (env : Env LM) (s : Scheduler LM) (u v : TxnId)
    (h : TransactionHolder) (txn : Transaction) (hv : v ≠ u) :
    (dispatched env s u h txn).all_txns_ v = s.all_txns_ v := by
  simp [dispatched, UMap.set, hv]

/-- The dispatches of distinct tracked transactions with bodies, when there is a
worker: what they send and the holders they leave. -/
theorem dispatchAll_spec (env : Env LM) (hw : env.config.num_workers ≠ 0) (us : List TxnId) :
    ∀ s : Scheduler LM, us.Nodup →
      (∀ u ∈ us, ∃ hu tu, s.all_txns_ u = some hu ∧ hu.txn_ = some tu) →
      ∃ s2, dispatchAll env us s = .ok s2 ∧
        s2.outbox =
          s.outbox ++ us.flatMap (fun u =>
            dispatchMessages env.config.num_workers u (s.holder u).early_remote_reads_) ∧
        (∀ u ∈ us, ∃ hu tu, s.all_txns_ u = some hu ∧ hu.txn_ = some tu ∧
          s2.all_txns_ u =
            some { hu with
              txn_ := some ((tu.record env.config .DISPATCHED).record env.config .DISPATCHED)
              worker_ := some (u % env.config.num_workers)
              early_remote_reads_ := [] }) ∧
        (∀ u, u ∉ us → s2.all_txns_ u = s.all_txns_ u) ∧
        s2.lock_manager_ = s.lock_manager_ ∧
        s2.aborting_txns_ = s.aborting_txns_ ∧
        s2.mh_abort_waiting_on_ = s.mh_abort_waiting_on_ := by
  induction us with
  | nil =>
    intro s _ _
    exact ⟨s, rfl, by simp, by simp, fun _ _ => rfl, rfl, rfl, rfl⟩
  | cons u rest ih =>
    intro s hnd hall
    rw [List.nodup_cons] at hnd
    obtain ⟨hu, tu, eu, bu⟩ := hall u (List.mem_cons_self _ _)
    have hne : ∀ v ∈ rest, v ≠ u := by
      intro v hv e
      subst e
      exact hnd.1 hv
    obtain ⟨s2, hd, hout, hin, hnot, hlm, hab, hmh⟩ := ih (dispatched env s u hu tu) hnd.2 (by
      intro v hv
      obtain ⟨h1, t1, e1, b1⟩ := hall v (List.mem_cons_of_mem _ hv)
      exact ⟨h1, t1, by rw [holder_dispatched_ne env s u v hu tu (hne v hv)]; exact e1, b1⟩)
    refine ⟨s2, ?_, ?_, ?_, ?_, hlm, hab, hmh⟩
    · simp only [dispatchAll, DispatchTransaction_ok env s u hu tu eu bu hw]
      exact hd
    · rw [hout]
      have hc : rest.flatMap (fun v =>
            dispatchMessages env.config.num_workers v
              ((dispatched env s u hu tu).holder v).early_remote_reads_) =
          rest.flatMap (fun v =>
            dispatchMessages env.config.num_workers v (s.holder v).early_remote_reads_) := by
        apply flatMap_congr_mem
        intro v hv
        simp only [holder, UMap.getD, holder_dispatched_ne env s u v hu tu (hne v hv)]
      rw [hc]
      simp only [dispatched, List.flatMap_cons, dispatchMessages, holder_of_some s u hu eu,
        List.append_assoc, List.cons_append]
    · intro v hv
      rcases List.mem_cons.1 hv with e | hv
      · subst e
        refine ⟨hu, tu, eu, bu, ?_⟩
        rw [hnot v hnd.1]
        simp [dispatched, UMap.set]
      · obtain ⟨h1, t1, e1, b1, f1⟩ := hin v hv
        rw [holder_dispatched_ne env s u v hu tu (hne v hv)] at e1
        exact ⟨h1, t1, e1, b1, f1⟩
    · intro v hv
      simp only [List.mem_cons, not_or] at hv
      rw [hnot v hv.2, holder_dispatched_ne env s u v hu tu hv.1]

/-- The dispatches of tracked transactions with bodies all return when there is
a worker. -/
theorem dispatchAll_total (env : Env LM) (hw : env.config.num_workers ≠ 0) (us : List TxnId) :
    ∀ s : Scheduler LM,
      (∀ u ∈ us, ∃ hu tu, s.all_txns_ u = some hu ∧ hu.txn_ = some tu) →
      ∃ s2, dispatchAll env us s = .ok s2 := by
  induction us with
  | nil => intro s _; exact ⟨s, rfl⟩
  | cons u rest ih =>
    intro s hall
    obtain ⟨hu, tu, eu, bu⟩ := hall u (List.mem_cons_self _ _)
    have hk := Kept.dispatched_kept env s u hu tu eu bu
    obtain ⟨s2, hd⟩ := ih (dispatched env s u hu tu) (by
      intro v hv
      obtain ⟨h1, t1, e1, b1⟩ := hall v (List.mem_cons_of_mem _ hv)
      obtain ⟨h2, t2, e2, b2, _, _⟩ := hk.present v h1 t1 e1 b1
      exact ⟨h2, t2, e2, b2⟩)
    exact ⟨s2, by simp only [dispatchAll, DispatchTransaction_ok env s u hu tu eu bu hw]; exact hd⟩

end Scheduler

namespace Scheduler

variable {LM : Type}

theorem dispatchMessages_to_worker (n : Nat) (u : TxnId) (early : List RemoteReadResult) :
    ∀ m ∈ dispatchMessages n u early, m.to_channel = .worker (u % n) ∧ m.to_machine_id = none := by
  intro m hm
  rcases List.mem_cons.1 hm with e | hm
  · subst e; exact ⟨rfl, rfl⟩
  · obtain ⟨r, _, rfl⟩ := List.mem_map.1 hm
    exact ⟨rfl, rfl⟩

/-- The reply of the worker about a tracked transaction with a body, when the
transactions that the release unblocks are tracked with bodies and there is a
worker. -/
theorem HandleInternalResponse_ok (env : Env LM) (s : Scheduler LM) (t : TxnId)
    (h : TransactionHolder) (txn : Transaction) (hh : s.all_txns_ t = some h)
    (ht : h.txn_ = some txn) (hw : env.config.num_workers ≠ 0)
    (htracked : ∀ u ∈ (env.lock_manager.ReleaseLocks s.lock_manager_ h).2,
      ∃ hu tu, s.all_txns_ u = some hu ∧ hu.txn_ = some tu) :
    ∃ s2 h2 txn2,
      dispatchAll env (env.lock_manager.ReleaseLocks s.lock_manager_ h).2
          { s with lock_manager_ := (env.lock_manager.ReleaseLocks s.lock_manager_ h).1 } =
        .ok s2 ∧
      s2.all_txns_ t = some h2 ∧ h2.txn_ = some txn2 ∧ txn2.payload = txn.payload ∧
      h2.involved_partitions_ = h.involved_partitions_ ∧
      HandleInternalResponse env s t = .ok (completed env s2 t h2 txn2) := by
  obtain ⟨_, hok⟩ := HandleInternalResponse_after_dispatch env s t
  rw [touchHolder_of_some s t h hh, holder_of_some s t h hh] at hok
  obtain ⟨s2, hd⟩ := dispatchAll_total env hw
    (env.lock_manager.ReleaseLocks s.lock_manager_ h).2
    { s with lock_manager_ := (env.lock_manager.ReleaseLocks s.lock_manager_ h).1 } htracked
  obtain ⟨h2, txn2, e2, t2, p2, i2⟩ :=
    (Kept.dispatchAll_kept env _ _ s2 hd).present t h txn hh ht
  exact ⟨s2, h2, txn2, hd, e2, t2, p2, i2, (hok s2 hd).1 h2 txn2 e2 t2⟩

/-- The replies for distinct tracked transactions are all handled when every
transaction that a release unblocks is one whose reply comes later. -/
theorem replies_ordered (env : Env LM) (hw : env.config.num_workers ≠ 0) (ids : List TxnId)
    (hlater : ∀ (pre post : List TxnId) (t : TxnId), ids = pre ++ t :: post →
      ∀ (lm : LM) (h0 : TransactionHolder) (txn0 : Transaction), h0.txn_ = some txn0 →
        txn0.internal.id = t → ∀ u ∈ (env.lock_manager.ReleaseLocks lm h0).2, u ∈ post) :
    ∀ (post pre : List TxnId) (s : Scheduler LM), ids = pre ++ post → post.Nodup →
      (∀ t ∈ post, ∃ h txn, s.all_txns_ t = some h ∧ h.txn_ = some txn ∧ txn.internal.id = t) →
      ∃ s', steps env (post.map .WorkerReply) s = .ok s' := by
  intro post
  induction post with
  | nil => intro pre s _ _ _; exact ⟨s, rfl⟩
  | cons i rest ih =>
    intro pre s hids hnd hall
    rw [List.nodup_cons] at hnd
    obtain ⟨h, txn, hh, ht, hid⟩ := hall i (List.mem_cons_self _ _)
    have hsub := hlater pre rest i hids s.lock_manager_ h txn ht hid
    obtain ⟨s2, h2, txn2, hd, e2, t2, p2, i2, hr⟩ := HandleInternalResponse_ok env s i h txn hh ht hw
      (by
        intro u hu
        obtain ⟨hu', tu', a, b, _⟩ := hall u (List.mem_cons_of_mem _ (hsub u hu))
        exact ⟨hu', tu', a, b⟩)
    have hk := Kept.dispatchAll_kept env _ _ s2 hd
    obtain ⟨s', hs'⟩ := ih (pre ++ [i]) (completed env s2 i h2 txn2)
      (by rw [hids]; simp) hnd.2 (by
        intro t htm
        obtain ⟨h', txn', a, b, c⟩ := hall t (List.mem_cons_of_mem _ htm)
        obtain ⟨h3, txn3, a3, b3, p3, _⟩ := hk.present t h' txn' a b
        have hne : t ≠ i := by intro e; subst e; exact hnd.1 htm
        refine ⟨h3, txn3, ?_, b3, ?_⟩
        · simp only [completed, UMap.erase, if_neg hne]
          exact a3
        · have : txn3.internal.id = txn'.internal.id := congrArg (fun x => x.internal.id) p3
          rw [this]
          exact c)
    exact ⟨s', by simp only [List.map_cons, steps, step, hr]; exact hs'⟩

end Scheduler

namespace Scheduler

variable {LM : Type}

/-- C9. A worker reply completes a transaction.  For `txn_id` tracked in `all_txns`
with a body, when there is a worker and the transactions that
`LockManager.ReleaseLocks` returns are distinct and tracked with bodies,
`HandleInternalResponse` returns, having sent, in this order, the dispatch of
every transaction returned (its `Worker` request followed by its buffered reads,
to the worker `u mod num_workers`) and then one `CompletedSubtxn`, the only
message to a server channel, to the machine
`MakeMachineIdNum(coordinating_server.replica, coordinating_server.partition)`,
carrying the transaction (with its trace extended), the local partition and the
holder's `InvolvedPartitions`; it leaves every transaction returned with its
worker and no buffered read, `all_txns` without `txn_id`, and the other holders
as they were.  So the replies for all tracked transactions, handled in an order
in which a transaction unblocked by a release replies after the one released,
are all handled and leave `all_txns` empty; with a lock manager that unblocks
nothing that is every order. -/
theorem HandleInternalResponse_completes (env : Env LM) (s : Scheduler LM) (txn_id : TxnId)
    (h : TransactionHolder) (txn : Transaction) (hh : s.all_txns_ txn_id = some h)
    (ht : h.txn_ = some txn) (hworkers : 0 < env.config.num_workers)
    (hnd : (env.lock_manager.ReleaseLocks s.lock_manager_ h).2.Nodup)
    (htracked : ∀ u ∈ (env.lock_manager.ReleaseLocks s.lock_manager_ h).2,
      ∃ hu tu, s.all_txns_ u = some hu ∧ hu.txn_ = some tu) :
    (∃ s' txn', HandleInternalResponse env s txn_id = .ok s' ∧
      txn'.payload = txn.payload ∧
      s'.outbox =
        s.outbox ++
          (env.lock_manager.ReleaseLocks s.lock_manager_ h).2.flatMap (fun u =>
            dispatchMessages env.config.num_workers u (s.holder u).early_remote_reads_) ++
          [⟨.completed_subtxn txn' env.config.local_partition h.involved_partitions_,
            .server,
            some (env.config.MakeMachineIdNum txn.internal.coordinating_server.replica
              txn.internal.coordinating_server.partition)⟩] ∧
      ((env.lock_manager.ReleaseLocks s.lock_manager_ h).2.flatMap (fun u =>
            dispatchMessages env.config.num_workers u (s.holder u).early_remote_reads_) ++
          [(⟨.completed_subtxn txn' env.config.local_partition h.involved_partitions_,
            .server,
            some (env.config.MakeMachineIdNum txn.internal.coordinating_server.replica
              txn.internal.coordinating_server.partition)⟩ : Sent)]).filter
          (fun m => decide (m.to_channel = .server)) =
        [⟨.completed_subtxn txn' env.config.local_partition h.involved_partitions_,
          .server,
          some (env.config.MakeMachineIdNum txn.internal.coordinating_server.replica
            txn.internal.coordinating_server.partition)⟩] ∧
      s'.all_txns_ txn_id = none ∧
      (∀ u ∈ (env.lock_manager.ReleaseLocks s.lock_manager_ h).2, u ≠ txn_id →
        ∃ hu tu, s.all_txns_ u = some hu ∧ hu.txn_ = some tu ∧
          s'.all_txns_ u =
            some { hu with
              txn_ := some ((tu.record env.config .DISPATCHED).record env.config .DISPATCHED)
              worker_ := some (u % env.config.num_workers)
              early_remote_reads_ := [] }) ∧
      (∀ u, u ∉ (env.lock_manager.ReleaseLocks s.lock_manager_ h).2 → u ≠ txn_id →
        s'.all_txns_ u = s.all_txns_ u) ∧
      s'.lock_manager_ = (env.lock_manager.ReleaseLocks s.lock_manager_ h).1) ∧
    (∀ (ids : List TxnId) (s0 : Scheduler LM), ids.Nodup →
      (∀ t, s0.all_txns_ t ≠ none → t ∈ ids) →
      (∀ t ∈ ids, ∃ h0 txn0, s0.all_txns_ t = some h0 ∧ h0.txn_ = some txn0 ∧
        txn0.internal.id = t) →
      (∀ (pre post : List TxnId) (t : TxnId), ids = pre ++ t :: post →
        ∀ (lm : LM) (h0 : TransactionHolder) (txn0 : Transaction), h0.txn_ = some txn0 →
          txn0.internal.id = t → ∀ u ∈ (env.lock_manager.ReleaseLocks lm h0).2, u ∈ post) →
      ∃ s', steps env (ids.map .WorkerReply) s0 = .ok s' ∧ ∀ t, s'.all_txns_ t = none) ∧
    (∀ (ids : List TxnId) (s0 s' : Scheduler LM), (∀ t, s0.all_txns_ t ≠ none → t ∈ ids) →
      steps env (ids.map .WorkerReply) s0 = .ok s' → ∀ t, s'.all_txns_ t = none) ∧
    ((∀ lm h0, (env.lock_manager.ReleaseLocks lm h0).2 = []) →
      ∀ (ids : List TxnId) (s0 : Scheduler LM), ids.Nodup →
        (∀ t, s0.all_txns_ t ≠ none → t ∈ ids) →
        (∀ t ∈ ids, ∃ h0 txn0, s0.all_txns_ t = some h0 ∧ h0.txn_ = some txn0) →
        ∃ s', steps env (ids.map .WorkerReply) s0 = .ok s' ∧ ∀ t, s'.all_txns_ t = none) := by
  have hw : env.config.num_workers ≠ 0 := by omega
  refine ⟨?_, ?_, fun ids s0 s' => replies_empty env ids s0 s', ?_⟩
  · obtain ⟨_, hok⟩ := HandleInternalResponse_after_dispatch env s txn_id
    rw [touchHolder_of_some s txn_id h hh, holder_of_some s txn_id h hh] at hok
    obtain ⟨s2, hd, hout, hin, hnot, hlm, _, _⟩ := dispatchAll_spec env hw
      (env.lock_manager.ReleaseLocks s.lock_manager_ h).2
      { s with lock_manager_ := (env.lock_manager.ReleaseLocks s.lock_manager_ h).1 } hnd htracked
    obtain ⟨h2, txn2, e2, t2, p2, i2⟩ :=
      (Kept.dispatchAll_kept env _ _ s2 hd).present txn_id h txn hh ht
    have hc : txn2.internal.coordinating_server = txn.internal.coordinating_server :=
      congrArg (fun x => x.internal.coordinating_server) p2
    refine ⟨completed env s2 txn_id h2 txn2,
      (txn2.record env.config .RELEASE_LOCKS).record env.config .EXIT_SCHEDULER,
      (hok s2 hd).1 h2 txn2 e2 t2, Eq.trans rfl p2, ?_, ?_, ?_, ?_, ?_, hlm⟩
    · simp only [completed, hout, i2, hc]
      rfl
    · rw [List.filter_append]
      have hnone : ((env.lock_manager.ReleaseLocks s.lock_manager_ h).2.flatMap (fun u =>
          dispatchMessages env.config.num_workers u (s.holder u).early_remote_reads_)).filter
          (fun m => decide (m.to_channel = .server)) = [] := by
        rw [List.filter_eq_nil_iff]
        intro m hm
        obtain ⟨u, _, hmu⟩ := List.mem_flatMap.1 hm
        rw [(dispatchMessages_to_worker _ _ _ m hmu).1]
        simp
      rw [hnone]
      simp
    · simp [completed, UMap.erase]
    · intro u hu hne
      obtain ⟨hu', tu', a, b, c⟩ := hin u hu
      refine ⟨hu', tu', a, b, ?_⟩
      simp only [completed, UMap.erase, if_neg hne]
      exact c
    · intro u hu hne
      simp only [completed, UMap.erase, if_neg hne]
      exact hnot u hu
  · intro ids s0 hnd0 hcov hall hlater
    obtain ⟨s', hs'⟩ := replies_ordered env hw ids hlater ids [] s0 rfl hnd0 hall
    exact ⟨s', hs', replies_empty env ids s0 s' hcov hs'⟩
  · intro hrel ids s0 hnd0 hcov hall
    obtain ⟨s', hs'⟩ := replies_total env hrel ids s0 hnd0 hall
    exact ⟨s', hs', replies_empty env ids s0 s' hcov hs'⟩

end Scheduler

namespace Scheduler

theorem HandleInternalResponse_completes_witness :
    0 < sampleUnblockingEnv.config.num_workers ∧
      (sampleUnblockingEnv.lock_manager.ReleaseLocks sampleWaiting.lock_manager_
        { sampleHolder 10 .SINGLE_HOME with worker_ := some 0 }).2 = [20] ∧
      (∃ s' txn', HandleInternalResponse sampleUnblockingEnv sampleWaiting 10 = .ok s' ∧
        s'.outbox =
          [⟨.worker 20, .worker 0, none⟩,
            ⟨.remote_read_result ⟨20, 1, false, [("a", "1")]⟩, .worker 0, none⟩,
            ⟨.completed_subtxn txn' 0 [0], .server, some 0⟩] ∧
        s'.all_txns_ 10 = none) ∧
      ∃ s', steps sampleUnblockingEnv ([10, 20].map .WorkerReply) sampleWaiting = .ok s' ∧
        ∀ t, s'.all_txns_ t = none := by
  have hthm := HandleInternalResponse_completes sampleUnblockingEnv sampleWaiting 10
    { sampleHolder 10 .SINGLE_HOME with worker_ := some 0 } (sampleTxn 10 .SINGLE_HOME 0)
    rfl rfl (by decide) (by decide)
    (by
      intro u hu
      have hrel : (sampleUnblockingEnv.lock_manager.ReleaseLocks sampleWaiting.lock_manager_
          { sampleHolder 10 .SINGLE_HOME with worker_ := some 0 }).2 = [20] := rfl
      rw [hrel] at hu
      have hu' : u = 20 := by simpa using hu
      subst hu'
      exact ⟨_, _, rfl, rfl⟩)
  obtain ⟨⟨s', txn', hok, _, hout, _, hnone, _⟩, hmulti, _, _⟩ := hthm
  refine ⟨by decide, rfl, ⟨s', txn', hok, ?_, hnone⟩, ?_⟩
  · rw [hout]
    rfl
  · refine hmulti [10, 20] sampleWaiting (by decide) ?_ ?_ ?_
    · intro t ht
      by_contra hn
      apply ht
      have h10 : t ≠ 10 := fun e => hn (by simp [e])
      have h20 : t ≠ 20 := fun e => hn (by simp [e])
      simp [sampleWaiting, setHolder, UMap.set, h10, h20, Scheduler.init, UMap.empty]
    · intro t ht
      simp only [List.mem_cons, List.mem_singleton, List.not_mem_nil, or_false] at ht
      rcases ht with rfl | rfl
      · exact ⟨_, _, rfl, rfl, rfl⟩
      · exact ⟨_, _, rfl, rfl, rfl⟩
    · intro pre post t hids lm h0 txn0 h0t hid u hu
      have hrel : (sampleUnblockingEnv.lock_manager.ReleaseLocks lm h0).2 =
          if txn0.internal.id = 10 then [20] else [] := by
        simp [sampleUnblockingEnv, sampleUnblocking, h0t]
      rw [hrel, hid] at hu
      by_cases ht : t = 10
      · subst ht
        simp only [if_true, List.mem_singleton] at hu
        subst hu
        cases pre with
        | nil =>
          simp only [List.nil_append, List.cons.injEq, true_and] at hids
          rw [← hids]
          simp
        | cons a pre' =>
          simp only [List.cons_append, List.cons.injEq] at hids
          obtain ⟨_, h2⟩ := hids
          cases pre' with
          | nil => simp at h2
          | cons b pre'' =>
            simp only [List.cons_append, List.cons.injEq] at h2
            have := h2.2
            simp at this
      · simp [ht] at hu

end Scheduler

/-! ## Interleaver: replication of local batch orders -/

namespace Interleaver

theorem foldl_AddSlot_spec (pairs : List (SlotId × BatchId)) :
    ∀ l : BatchLog,
      (∀ slot, (pairs.foldl (fun l p => l.AddSlot p.1 p.2) l).slots_.log.lookup slot =
        (l.slots_.log.lookup slot).or (pairs.lookup slot)) ∧
      (pairs.foldl (fun l p => l.AddSlot p.1 p.2) l).slots_.next = l.slots_.next ∧
      (pairs.foldl (fun l p => l.AddSlot p.1 p.2) l).batches_ = l.batches_ := by
  induction pairs with
  | nil => intro l; simp
  | cons p rest ih =>
    intro l
    obtain ⟨k, v⟩ := p
    obtain ⟨h1, h2, h3⟩ := ih (l.AddSlot k v)
    simp only [List.foldl_cons]
    refine ⟨?_, ?_, ?_⟩
    · intro slot
      rw [h1 slot]
      simp only [BatchLog.AddSlot, AsyncLog.Insert, List.lookup_cons]
      cases hk : l.slots_.log.lookup k with
      | some w =>
        simp only
        by_cases hs : slot = k
        · subst hs; simp [hk]
        · have hb : (slot == k) = false := by simpa using hs
          simp [hb]
      | none =>
        simp only [List.lookup_cons]
        by_cases hs : slot = k
        · subst hs; simp [hk]
        · have hb : (slot == k) = false := by simpa using hs
          simp [hb]
    · rw [h2]
      simp only [BatchLog.AddSlot, AsyncLog.Insert]
      split <;> rfl
    · rw [h3]; rfl

theorem lookup_recordSlots (cfg : Configuration) (pairs : List (SlotId × BatchId)) :
    ∀ logs : List (Nat × BatchLog),
      (pairs ≠ [] → (recordSlots cfg logs pairs).lookup cfg.local_replica =
        some (pairs.foldl (fun l p => l.AddSlot p.1 p.2)
          ((logs.lookup cfg.local_replica).getD BatchLog.empty))) ∧
      (∀ r, r ≠ cfg.local_replica → (recordSlots cfg logs pairs).lookup r = logs.lookup r) := by
  induction pairs with
  | nil => intro logs; exact ⟨fun h => absurd rfl h, fun r _ => rfl⟩
  | cons p rest ih =>
    intro logs
    obtain ⟨h1, h2⟩ := ih (onSingleHomeLog logs cfg.local_replica (fun l => l.AddSlot p.1 p.2))
    have hstep : recordSlots cfg logs (p :: rest) =
        recordSlots cfg (onSingleHomeLog logs cfg.local_replica (fun l => l.AddSlot p.1 p.2))
          rest := rfl
    refine ⟨fun _ => ?_, fun r hr => ?_⟩
    · rw [hstep]
      cases rest with
      | nil =>
        simp only [recordSlots, List.foldl_nil, List.foldl_cons]
        exact lookup_onSingleHomeLog_self _ _ _
      | cons q rest2 =>
        rw [h1 (List.cons_ne_nil _ _), lookup_onSingleHomeLog_self]
        simp only [Option.getD_some, List.foldl_cons]
    · rw [hstep, h2 r hr, lookup_onSingleHomeLog_other _ _ _ _ hr]

theorem emitLoop_single_home_logs (cfg : Configuration) (fuel : Nat) :
    ∀ (log : BatchLog) (st : Interleaver),
      (emitLoop cfg fuel log st).2.single_home_logs_ = st.single_home_logs_ := by
  induction fuel with
  | zero => intro log st; rfl
  | succ n ih =>
    intro log st
    unfold emitLoop
    split
    · split
      · rw [ih]
        unfold EmitBatch
        exact (sendLoop_frame cfg _ st).2.1
      · rfl
    · rfl

theorem advanceSingleHomeLogs_idle (cfg : Configuration) :
    ∀ (todo done : List (Nat × BatchLog)) (st : Interleaver),
      (∀ e ∈ todo, e.2.HasNextBatch = false) →
      advanceSingleHomeLogs cfg todo done st = { st with single_home_logs_ := done ++ todo } := by
  intro todo
  induction todo with
  | nil => intro done st _; simp [advanceSingleHomeLogs]
  | cons e rest ih =>
    intro done st h
    obtain ⟨replica, log⟩ := e
    have hlog : log.HasNextBatch = false := h (replica, log) (List.mem_cons_self _ _)
    unfold advanceSingleHomeLogs
    dsimp only
    rw [emitLoop_idle cfg _ log st hlog]
    rw [ih _ _ (fun e he => h e (List.mem_cons_of_mem _ he))]
    simp

theorem AdvanceLogs_single_home_logs_idle (cfg : Configuration) (st : Interleaver)
    (h : ∀ e ∈ (advanceLocalLog cfg st.local_log_.ready_batches_.length st).single_home_logs_,
      e.2.HasNextBatch = false) :
    (AdvanceLogs cfg st).single_home_logs_ =
      (advanceLocalLog cfg st.local_log_.ready_batches_.length st).single_home_logs_ := by
  unfold AdvanceLogs
  dsimp only
  rw [emitLoop_single_home_logs, advanceSingleHomeLogs_idle cfg _ _ _ h]
  simp

/-- C10. `AdvanceLogs` replicates local batch orders.  With `ready` the ready
`(slot, batch_id)` pairs of the `LocalLog`, the first loop sends, for each pair in
turn, one `BatchOrder(batch_id, slot)` to the interleaver channel of machine `(rep,
local_partition)` for each replica `rep < num_replicas` other than the local one
(`num_replicas - 1` messages when the local replica is one of the replicas, none
to the local region).  It records `AddSlot(slot, batch_id)` for each pair in turn
in the single-home log of the local replica, which is created when absent: the
slot stream of that log then maps each slot to what it held before or else to the
first batch id drained for it, and its batches and the other replicas' logs are as
they were.  The rest of `AdvanceLogs` sends nothing more to the interleaver
channel, leaves the single-home logs as the first loop left them when none of them
has a batch to emit, and when it returns the `LocalLog` has no ready batch. -/
theorem AdvanceLogs_replicates_orders (cfg : Configuration) (st : Interleaver) :
    (advanceLocalLog cfg st.local_log_.ready_batches_.length st).outbox =
        st.outbox ++ st.local_log_.ready_batches_.flatMap (batchOrderMessages cfg) ∧
      (∀ p, batchOrderMessages cfg p =
        ((List.range cfg.num_replicas).filter (fun rep => decide (rep ≠ cfg.local_replica))).map
          (fun rep => ⟨.forward_batch_order p.2 p.1, .interleaver,
            some (cfg.MakeMachineIdNum rep cfg.local_partition)⟩)) ∧
      (st.local_log_.ready_batches_ ≠ [] →
        ∃ log,
          (advanceLocalLog cfg st.local_log_.ready_batches_.length st).single_home_logs_.lookup
            cfg.local_replica = some log ∧
          log = st.local_log_.ready_batches_.foldl (fun l p => l.AddSlot p.1 p.2)
            ((st.single_home_logs_.lookup cfg.local_replica).getD BatchLog.empty) ∧
          (∀ slot, log.slots_.log.lookup slot =
            (((st.single_home_logs_.lookup cfg.local_replica).getD
              BatchLog.empty).slots_.log.lookup slot).or
              (st.local_log_.ready_batches_.lookup slot)) ∧
          log.slots_.next =
            ((st.single_home_logs_.lookup cfg.local_replica).getD BatchLog.empty).slots_.next ∧
          log.batches_ =
            ((st.single_home_logs_.lookup cfg.local_replica).getD BatchLog.empty).batches_) ∧
      (st.local_log_.ready_batches_ = [] →
        (advanceLocalLog cfg st.local_log_.ready_batches_.length st).single_home_logs_ =
          st.single_home_logs_) ∧
      (∀ r, r ≠ cfg.local_replica →
        (advanceLocalLog cfg st.local_log_.ready_batches_.length st).single_home_logs_.lookup r =
          st.single_home_logs_.lookup r) ∧
      ((∀ e ∈ (advanceLocalLog cfg st.local_log_.ready_batches_.length st).single_home_logs_,
          e.2.HasNextBatch = false) →
        (AdvanceLogs cfg st).single_home_logs_ =
          (advanceLocalLog cfg st.local_log_.ready_batches_.length st).single_home_logs_) ∧
      toInterleaver (AdvanceLogs cfg st).outbox =
        toInterleaver st.outbox ++ st.local_log_.ready_batches_.flatMap (batchOrderMessages cfg) ∧
      (∀ p, (batchOrderMessages cfg p).map (fun m => m.to_machine_id) =
        (otherReplicas cfg).map (fun rep => some (cfg.MakeMachineIdNum rep cfg.local_partition))) ∧
      (∀ rep, rep ∈ otherReplicas cfg ↔ rep < cfg.num_replicas ∧ rep ≠ cfg.local_replica) ∧
      (otherReplicas cfg).Nodup ∧
      (cfg.local_replica < cfg.num_replicas →
        ∀ p, (batchOrderMessages cfg p).length = cfg.num_replicas - 1) ∧
      (AdvanceLogs cfg st).local_log_.HasNextBatch = false ∧
      (AdvanceLogs cfg st).local_log_.drain = [] := by
  obtain ⟨h1, h2, h3, _⟩ := advanceLocalLog_spec cfg _ st (le_refl _)
  have hfinal : toInterleaver (AdvanceLogs cfg st).outbox =
        toInterleaver (advanceLocalLog cfg st.local_log_.ready_batches_.length st).outbox ∧
      (AdvanceLogs cfg st).local_log_ =
        (advanceLocalLog cfg st.local_log_.ready_batches_.length st).local_log_ := by
    simp only [AdvanceLogs]
    obtain ⟨a1, a2⟩ := emitLoop_frame cfg
      (advanceSingleHomeLogs cfg
        (advanceLocalLog cfg st.local_log_.ready_batches_.length st).single_home_logs_ []
        (advanceLocalLog cfg st.local_log_.ready_batches_.length
          st)).multi_home_log_.slots_.log.length
      (advanceSingleHomeLogs cfg
        (advanceLocalLog cfg st.local_log_.ready_batches_.length st).single_home_logs_ []
        (advanceLocalLog cfg st.local_log_.ready_batches_.length st)).multi_home_log_
      (advanceSingleHomeLogs cfg
        (advanceLocalLog cfg st.local_log_.ready_batches_.length st).single_home_logs_ []
        (advanceLocalLog cfg st.local_log_.ready_batches_.length st))
    obtain ⟨b1, b2⟩ := advanceSingleHomeLogs_frame cfg
      (advanceLocalLog cfg st.local_log_.ready_batches_.length st).single_home_logs_ []
      (advanceLocalLog cfg st.local_log_.ready_batches_.length st)
    exact ⟨a1.trans b1, a2.trans b2⟩
  obtain ⟨r1, r2⟩ := lookup_recordSlots cfg st.local_log_.ready_batches_ st.single_home_logs_
  obtain ⟨f1, f2, f3⟩ := foldl_AddSlot_spec st.local_log_.ready_batches_
    ((st.single_home_logs_.lookup cfg.local_replica).getD BatchLog.empty)
  refine ⟨h1, fun _ => rfl, ?_, ?_, ?_, ?_, ?_, ?_, ?_, ?_, ?_, ?_, ?_⟩
  · intro hne
    exact ⟨_, by rw [h2]; exact r1 hne, rfl, f1, f2, f3⟩
  · intro he
    rw [h2, he]; rfl
  · intro r hr
    rw [h2]; exact r2 r hr
  · exact AdvanceLogs_single_home_logs_idle cfg st
  · rw [hfinal.1, h1, toInterleaver, List.filter_append]
    congr 1
    rw [List.filter_eq_self]
    intro m hm
    obtain ⟨p, _, hp⟩ := List.mem_flatMap.1 hm
    obtain ⟨rep, _, rfl⟩ := List.mem_map.1 hp
    simp
  · intro p
    simp [batchOrderMessages, List.map_map, Function.comp_def]
  · intro rep
    simp [otherReplicas, List.mem_filter]
  · exact (List.nodup_range _).filter _
  · intro h p
    simp [batchOrderMessages, length_otherReplicas cfg h]
  · rw [hfinal.2, h3]; rfl
  · rw [hfinal.2, h3]; rfl

theorem AdvanceLogs_replicates_orders_witness :
    (sampleReady.local_log_.ready_batches_ = [(0, 100), (1, 101)] ∧
      sampleThreeReplicas.local_replica < sampleThreeReplicas.num_replicas) ∧
      toInterleaver (AdvanceLogs sampleThreeReplicas sampleReady).outbox =
        [⟨.forward_batch_order 100 0, .interleaver, some 0⟩,
          ⟨.forward_batch_order 100 0, .interleaver, some 4⟩,
          ⟨.forward_batch_order 101 1, .interleaver, some 0⟩,
          ⟨.forward_batch_order 101 1, .interleaver, some 4⟩] ∧
      (∃ log,
        (AdvanceLogs sampleThreeReplicas sampleReady).single_home_logs_.lookup 1 = some log ∧
          log.slots_.log.lookup 0 = some 100 ∧ log.slots_.log.lookup 1 = some 101 ∧
          log.slots_.log.lookup 2 = none) ∧
      (AdvanceLogs sampleThreeReplicas sampleReady).single_home_logs_.lookup 0 = none ∧
      (batchOrderMessages sampleThreeReplicas (0, 100)).length = 3 - 1 ∧
      (AdvanceLogs sampleThreeReplicas sampleReady).local_log_.HasNextBatch = false := by
  have T := AdvanceLogs_replicates_orders sampleThreeReplicas sampleReady
  obtain ⟨_, _, t3, _, t5, t6, t7, _, _, _, t11, t12, _⟩ := T
  have hidle : ∀ e ∈ (advanceLocalLog sampleThreeReplicas
      sampleReady.local_log_.ready_batches_.length sampleReady).single_home_logs_,
      e.2.HasNextBatch = false := by
    intro e he
    have hl : (advanceLocalLog sampleThreeReplicas
      sampleReady.local_log_.ready_batches_.length sampleReady).single_home_logs_ =
        [(1, ⟨⟨[(1, 101), (0, 100)], 0⟩, UMap.empty⟩)] := rfl
    rw [hl] at he
    simp only [List.mem_singleton] at he
    subst he
    rfl
  obtain ⟨log, l1, _, l3, _, _⟩ := t3 (by decide)
  refine ⟨⟨rfl, by decide⟩, ?_, ⟨log, ?_, ?_, ?_, ?_⟩, ?_, t11 (by decide) (0, 100), t12⟩
  · rw [t7]; rfl
  · rw [t6 hidle]; exact l1
  · rw [l3 0]; rfl
  · rw [l3 1]; rfl
  · rw [l3 2]; rfl
  · rw [t6 hidle, t5 0 (by decide)]; rfl

end Interleaver

/-! ## Scheduler: when an abort is finalized -/

namespace Scheduler

variable {LM : Type}

theorem touchHolder_of_none (s : Scheduler LM) (txn_id : TxnId)
    (hh : s.all_txns_ txn_id = none) :
    s.touchHolder txn_id =
      { s with all_txns_ := s.all_txns_.set txn_id TransactionHolder.empty } := by
  cases s
  simp only [touchHolder, UMap.touch] at hh ⊢
  rw [hh]

theorem holder_of_none (s : Scheduler LM) (txn_id : TxnId) (hh : s.all_txns_ txn_id = none) :
    s.holder txn_id = TransactionHolder.empty := by
  simp [holder, UMap.getD, hh]

theorem MaybeFinishAbort_of_entry (env : Env LM) (s : Scheduler LM) (txn_id : TxnId)
    (h : TransactionHolder) (hh : s.all_txns_ txn_id = some h)
    (hinv : h.txn_.isSome →
      0 < h.involved_partitions_.length ∧ h.involved_partitions_.length < 2 ^ 64) :
    ((h.txn_ = none ∨
        (env.config.local_partition ∈ h.active_partitions_ ∧
          h.early_remote_reads_.length + 1 < h.involved_partitions_.length) ∨
        (∃ txn, h.txn_ = some txn ∧ txn.internal.type = .MULTI_HOME ∧
          s.mh_abort_waiting_on_.getD txn_id 0 ≠ 0)) →
      MaybeFinishAbort env s txn_id = s) ∧
    (¬ (h.txn_ = none ∨
        (env.config.local_partition ∈ h.active_partitions_ ∧
          h.early_remote_reads_.length + 1 < h.involved_partitions_.length) ∨
        (∃ txn, h.txn_ = some txn ∧ txn.internal.type = .MULTI_HOME ∧
          s.mh_abort_waiting_on_.getD txn_id 0 ≠ 0)) →
      ∃ txn, h.txn_ = some txn ∧
        MaybeFinishAbort env s txn_id =
          { s with
            all_txns_ := s.all_txns_.erase txn_id
            aborting_txns_ := fun t => if t = txn_id then false else s.aborting_txns_ t
            mh_abort_waiting_on_ :=
              if txn.internal.type = .MULTI_HOME then s.mh_abort_waiting_on_.erase txn_id
              else s.mh_abort_waiting_on_ }) := by
  have ht := touchHolder_of_some s txn_id h hh
  have hg := holder_of_some s txn_id h hh
  cases htx : h.txn_ with
  | none =>
    refine ⟨fun _ => ?_, fun hn => absurd (Or.inl rfl) hn⟩
    simp only [MaybeFinishAbort, ht, hg, htx]
  | some txn =>
    obtain ⟨h0, h1⟩ := hinv (by simp [htx])
    have hw := wrapped_pred _ h0 h1
    have hunf : MaybeFinishAbort env s txn_id =
        if (0 < h.involved_partitions_.length - 1 ∧
            env.config.local_partition ∈ h.active_partitions_) ∧
            h.early_remote_reads_.length < h.involved_partitions_.length - 1 then s
        else finishAbort s txn_id txn.internal.type := by
      simp only [MaybeFinishAbort, ht, hg, htx, hw, gt_iff_lt, Bool.and_eq_true,
        decide_eq_true_eq]
    rw [hunf]
    constructor
    · rintro (hc | ⟨ha, hr⟩ | ⟨txn', he, hty, hm⟩)
      · cases hc
      · rw [if_pos ⟨⟨by omega, ha⟩, by omega⟩]
      · cases he
        split
        · rfl
        · simp only [finishAbort, hty, if_true, hm, ne_eq, not_false_eq_true]
    · intro hn
      refine ⟨txn, rfl, ?_⟩
      have hB : ¬ ((0 < h.involved_partitions_.length - 1 ∧
            env.config.local_partition ∈ h.active_partitions_) ∧
            h.early_remote_reads_.length < h.involved_partitions_.length - 1) := by
        rintro ⟨⟨_, ha⟩, hr⟩
        exact hn (Or.inr (Or.inl ⟨ha, by omega⟩))
      rw [if_neg hB]
      by_cases hty : txn.internal.type = .MULTI_HOME
      · have hm : s.mh_abort_waiting_on_.getD txn_id 0 = 0 := by
          by_contra hc
          exact hn (Or.inr (Or.inr ⟨txn, rfl, hty, hc⟩))
        simp only [finishAbort, hty, if_true, hm, ne_eq, not_true_eq_false, if_false]
      · simp only [finishAbort, hty, if_false]

/-- Counterexample to C6 as stated.  On a fresh scheduler nothing is tracked, so the
holder that `all_txns_[7]` refers to has no body; `MaybeFinishAbort(7)` nevertheless
changes `all_txns`, which gains an entry for 7 holding an empty holder. -/
theorem MaybeFinishAbort_creates_entry :
    ((Scheduler.init ()).holder 7).txn_ = none ∧
      (Scheduler.init ()).all_txns_ 7 = none ∧
      (MaybeFinishAbort sampleEnv (Scheduler.init ()) 7).all_txns_ 7 =
        some TransactionHolder.empty ∧
      ¬ (((Scheduler.init ()).holder 7).txn_ = none →
        (MaybeFinishAbort sampleEnv (Scheduler.init ()) 7).all_txns_ =
          (Scheduler.init ()).all_txns_) := by
  have hM : MaybeFinishAbort sampleEnv (Scheduler.init ()) 7 =
      (Scheduler.init ()).touchHolder 7 := MaybeFinishAbort_no_body _ _ _ rfl
  have hafter : (MaybeFinishAbort sampleEnv (Scheduler.init ()) 7).all_txns_ 7 =
      some TransactionHolder.empty := by rw [hM]; rfl
  refine ⟨rfl, rfl, hafter, fun hc => ?_⟩
  have h7 := congrFun (hc rfl) 7
  rw [hafter] at h7
  cases h7

/-- C6. When `Scheduler::MaybeFinishAbort(txn_id)` finalizes, with `holder` the holder
that `all_txns_[txn_id]` refers to (an empty one when `txn_id` has no entry; one that
involves at least one partition when its body is present).  When the body is absent,
or the local partition is active and fewer than `|InvolvedPartitions| - 1` early
remote reads are buffered, or the transaction is `MULTI_HOME` and
`mh_abort_waiting_on[txn_id]` is not 0: the state is left as it is when `txn_id`
has an entry in `all_txns`, and otherwise the only change is that `all_txns` gains
an entry for `txn_id` with an empty holder; in both cases `aborting_txns`,
`mh_abort_waiting_on`, the holder referred to and the entries of the other
transactions are as before.  In every other case `txn_id` has an entry with a body
and is erased from `all_txns`, from `aborting_txns`, and for a `MULTI_HOME` from
`mh_abort_waiting_on`, and nothing else changes. -/
theorem MaybeFinishAbort_finalizes_exactly (env : Env LM) (s : Scheduler LM) (txn_id : TxnId)
    (hinv : (s.holder txn_id).txn_.isSome →
      0 < (s.holder txn_id).involved_partitions_.length ∧
        (s.holder txn_id).involved_partitions_.length < 2 ^ 64) :
    (((s.holder txn_id).txn_ = none ∨
        (env.config.local_partition ∈ (s.holder txn_id).active_partitions_ ∧
          (s.holder txn_id).early_remote_reads_.length + 1 <
            (s.holder txn_id).involved_partitions_.length) ∨
        (∃ txn, (s.holder txn_id).txn_ = some txn ∧ txn.internal.type = .MULTI_HOME ∧
          s.mh_abort_waiting_on_.getD txn_id 0 ≠ 0)) →
      (s.all_txns_ txn_id ≠ none → MaybeFinishAbort env s txn_id = s) ∧
      (s.all_txns_ txn_id = none →
        MaybeFinishAbort env s txn_id =
          { s with all_txns_ := s.all_txns_.set txn_id TransactionHolder.empty }) ∧
      (MaybeFinishAbort env s txn_id).aborting_txns_ = s.aborting_txns_ ∧
      (MaybeFinishAbort env s txn_id).mh_abort_waiting_on_ = s.mh_abort_waiting_on_ ∧
      (MaybeFinishAbort env s txn_id).holder txn_id = s.holder txn_id ∧
      ∀ u, u ≠ txn_id → (MaybeFinishAbort env s txn_id).all_txns_ u = s.all_txns_ u) ∧
    (¬ ((s.holder txn_id).txn_ = none ∨
        (env.config.local_partition ∈ (s.holder txn_id).active_partitions_ ∧
          (s.holder txn_id).early_remote_reads_.length + 1 <
            (s.holder txn_id).involved_partitions_.length) ∨
        (∃ txn, (s.holder txn_id).txn_ = some txn ∧ txn.internal.type = .MULTI_HOME ∧
          s.mh_abort_waiting_on_.getD txn_id 0 ≠ 0)) →
      ∃ txn, s.all_txns_ txn_id = some (s.holder txn_id) ∧ (s.holder txn_id).txn_ = some txn ∧
        MaybeFinishAbort env s txn_id =
          { s with
            all_txns_ := s.all_txns_.erase txn_id
            aborting_txns_ := fun t => if t = txn_id then false else s.aborting_txns_ t
            mh_abort_waiting_on_ :=
              if txn.internal.type = .MULTI_HOME then s.mh_abort_waiting_on_.erase txn_id
              else s.mh_abort_waiting_on_ }) ∧
    (s.all_txns_ txn_id = none → (s.holder txn_id).txn_ = none) := by
  cases hh : s.all_txns_ txn_id with
  | none =>
    have hg := holder_of_none s txn_id hh
    have hb : (s.holder txn_id).txn_ = none := by rw [hg]; rfl
    have hM : MaybeFinishAbort env s txn_id =
        { s with all_txns_ := s.all_txns_.set txn_id TransactionHolder.empty } := by
      rw [MaybeFinishAbort_no_body env s txn_id hb, touchHolder_of_none s txn_id hh]
    refine ⟨fun _ => ⟨fun hne => absurd rfl hne, fun _ => hM, ?_, ?_, ?_, ?_⟩,
      fun hn => absurd (Or.inl hb) hn, fun _ => hb⟩
    · rw [hM]
    · rw [hM]
    · rw [hM, hg]; simp [holder, UMap.getD, UMap.set]
    · intro u hu
      rw [hM]; simp [UMap.set, hu]
  | some h =>
    have hg := holder_of_some s txn_id h hh
    rw [hg] at hinv ⊢
    obtain ⟨k1, k2⟩ := MaybeFinishAbort_of_entry env s txn_id h hh hinv
    refine ⟨fun hc => ?_, fun hn => ?_, fun hc => (by cases hc)⟩
    · have hM := k1 hc
      refine ⟨fun _ => hM, fun hc => (by cases hc), ?_, ?_, ?_, ?_⟩
      · rw [hM]
      · rw [hM]
      · rw [hM]; exact hg
      · intro u _; rw [hM]
    · obtain ⟨txn, e1, e2⟩ := k2 hn
      exact ⟨txn, rfl, e1, e2⟩

theorem MaybeFinishAbort_finalizes_exactly_witness :
    (MaybeFinishAbort sampleEnv (Scheduler.init ()) 7 =
        { (Scheduler.init () : Scheduler Unit) with
          all_txns_ := (Scheduler.init ()).all_txns_.set 7 TransactionHolder.empty }) ∧
      ∃ txn, (sampleHolder 7 .SINGLE_HOME).txn_ = some txn ∧
        MaybeFinishAbort sampleEnv
            { (Scheduler.init ()).setHolder 7 (sampleHolder 7 .SINGLE_HOME) with
              aborting_txns_ := fun t => decide (t = 7) } 7 =
          { ({ (Scheduler.init ()).setHolder 7 (sampleHolder 7 .SINGLE_HOME) with
              aborting_txns_ := fun t => decide (t = 7) } : Scheduler Unit) with
            all_txns_ := (((Scheduler.init ()).setHolder 7
              (sampleHolder 7 .SINGLE_HOME)).all_txns_).erase 7
            aborting_txns_ := fun t => if t = 7 then false else decide (t = 7)
            mh_abort_waiting_on_ :=
              if txn.internal.type = .MULTI_HOME then
                ((Scheduler.init ()).mh_abort_waiting_on_ : UMap TxnId Int).erase 7
              else (Scheduler.init ()).mh_abort_waiting_on_ } := by
  refine ⟨((MaybeFinishAbort_finalizes_exactly sampleEnv (Scheduler.init ()) 7
      (fun h => absurd h (by decide))).1 (Or.inl rfl)).2.1 rfl, ?_⟩
  obtain ⟨txn, _, h2, h3⟩ := (MaybeFinishAbort_finalizes_exactly sampleEnv
    { (Scheduler.init ()).setHolder 7 (sampleHolder 7 .SINGLE_HOME) with
      aborting_txns_ := fun t => decide (t = 7) } 7 (fun _ => by decide)).2.1
    (by
      rintro (h | ⟨_, h⟩ | ⟨txn, h1, h2, _⟩)
      · cases h
      · exact absurd h (by decide)
      · cases h1
        cases h2)
  exact ⟨txn, h2, h3⟩

end Scheduler

end SLOG
